import Mathlib

/-!
Verification of the SWAgent core (packages/core): a shallow embedding of the
schema resolver (`resolve-refs.ts`), the compact/pretty schema renderers
(`compact-schema.ts`), the endpoint extractor and formatters (`utils.ts`) and
the three generators, together with theorems about the frozen claims.

JSON-like runtime values are modelled by `JVal` (numbers as integers; the
inputs of interest are JSON documents, where the numeric corner cases the
claims touch are only truthiness of `0`).  Code paths that throw a runtime
`TypeError` in JavaScript (for example reading a property of `null`) are
modelled with `Except Unit`.
-/

/-- A JavaScript/JSON value as manipulated by the core: `null`, booleans,
numbers, strings, arrays, and plain objects with insertion-ordered keys. -/
inductive JVal : Type where
  | null : JVal
  | bool (b : Bool) : JVal
  | num (n : Int) : JVal
  | str (s : String) : JVal
  | arr (items : List JVal) : JVal
  | obj (entries : List (String × JVal)) : JVal
  deriving Repr

mutual
/-- Decidable structural equality of values. -/
def jvalDecEq : (a b : JVal) → Decidable (a = b)
  | .null, .null => isTrue rfl
  | .bool x, .bool y =>
    match decEq x y with
    | isTrue h => isTrue (by rw [h])
    | isFalse h => isFalse (fun hh => h (JVal.bool.inj hh))
  | .num x, .num y =>
    match decEq x y with
    | isTrue h => isTrue (by rw [h])
    | isFalse h => isFalse (fun hh => h (JVal.num.inj hh))
  | .str x, .str y =>
    match decEq x y with
    | isTrue h => isTrue (by rw [h])
    | isFalse h => isFalse (fun hh => h (JVal.str.inj hh))
  | .arr x, .arr y =>
    match jvalDecEqL x y with
    | isTrue h => isTrue (by rw [h])
    | isFalse h => isFalse (fun hh => h (JVal.arr.inj hh))
  | .obj x, .obj y =>
    match jvalDecEqE x y with
    | isTrue h => isTrue (by rw [h])
    | isFalse h => isFalse (fun hh => h (JVal.obj.inj hh))
  | .null, .bool _ => isFalse (fun h => JVal.noConfusion h)
  | .null, .num _ => isFalse (fun h => JVal.noConfusion h)
  | .null, .str _ => isFalse (fun h => JVal.noConfusion h)
  | .null, .arr _ => isFalse (fun h => JVal.noConfusion h)
  | .null, .obj _ => isFalse (fun h => JVal.noConfusion h)
  | .bool _, .null => isFalse (fun h => JVal.noConfusion h)
  | .bool _, .num _ => isFalse (fun h => JVal.noConfusion h)
  | .bool _, .str _ => isFalse (fun h => JVal.noConfusion h)
  | .bool _, .arr _ => isFalse (fun h => JVal.noConfusion h)
  | .bool _, .obj _ => isFalse (fun h => JVal.noConfusion h)
  | .num _, .null => isFalse (fun h => JVal.noConfusion h)
  | .num _, .bool _ => isFalse (fun h => JVal.noConfusion h)
  | .num _, .str _ => isFalse (fun h => JVal.noConfusion h)
  | .num _, .arr _ => isFalse (fun h => JVal.noConfusion h)
  | .num _, .obj _ => isFalse (fun h => JVal.noConfusion h)
  | .str _, .null => isFalse (fun h => JVal.noConfusion h)
  | .str _, .bool _ => isFalse (fun h => JVal.noConfusion h)
  | .str _, .num _ => isFalse (fun h => JVal.noConfusion h)
  | .str _, .arr _ => isFalse (fun h => JVal.noConfusion h)
  | .str _, .obj _ => isFalse (fun h => JVal.noConfusion h)
  | .arr _, .null => isFalse (fun h => JVal.noConfusion h)
  | .arr _, .bool _ => isFalse (fun h => JVal.noConfusion h)
  | .arr _, .num _ => isFalse (fun h => JVal.noConfusion h)
  | .arr _, .str _ => isFalse (fun h => JVal.noConfusion h)
  | .arr _, .obj _ => isFalse (fun h => JVal.noConfusion h)
  | .obj _, .null => isFalse (fun h => JVal.noConfusion h)
  | .obj _, .bool _ => isFalse (fun h => JVal.noConfusion h)
  | .obj _, .num _ => isFalse (fun h => JVal.noConfusion h)
  | .obj _, .str _ => isFalse (fun h => JVal.noConfusion h)
  | .obj _, .arr _ => isFalse (fun h => JVal.noConfusion h)

/-- Decidable equality of value lists. -/
def jvalDecEqL : (a b : List JVal) → Decidable (a = b)
  | [], [] => isTrue rfl
  | [], _ :: _ => isFalse (fun h => List.noConfusion h)
  | _ :: _, [] => isFalse (fun h => List.noConfusion h)
  | x :: xs, y :: ys =>
    match jvalDecEq x y with
    | isTrue h1 =>
      match jvalDecEqL xs ys with
      | isTrue h2 => isTrue (by rw [h1, h2])
      | isFalse h2 => isFalse (fun hh => h2 (List.cons.inj hh).2
      )
    | isFalse h1 => isFalse (fun hh => h1 (List.cons.inj hh).1)

/-- Decidable equality of entry lists. -/
def jvalDecEqE : (a b : List (String × JVal)) → Decidable (a = b)
  | [], [] => isTrue rfl
  | [], _ :: _ => isFalse (fun h => List.noConfusion h)
  | _ :: _, [] => isFalse (fun h => List.noConfusion h)
  | (k1, v1) :: xs, (k2, v2) :: ys =>
    match decEq k1 k2 with
    | isTrue hk =>
      match jvalDecEq v1 v2 with
      | isTrue hv =>
        match jvalDecEqE xs ys with
        | isTrue h2 => isTrue (by rw [hk, hv, h2])
        | isFalse h2 => isFalse (fun hh => h2 (List.cons.inj hh).2)
      | isFalse hv =>
        isFalse (fun hh => hv (congrArg Prod.snd (List.cons.inj hh).1))
    | isFalse hk =>
      isFalse (fun hh => hk (congrArg Prod.fst (List.cons.inj hh).1))
end

instance : DecidableEq JVal := jvalDecEq

/-- JavaScript truthiness of a value. -/
def jsTruthy : JVal → Bool
  | .null => false
  | .bool b => b
  | .num n => n != 0
  | .str s => s != ""
  | .arr _ => true
  | .obj _ => true

/-- First-occurrence lookup in an entry list: JS property read on a plain
object (JS objects cannot carry duplicate keys, so first occurrence is
faithful). -/
def jsLookup : List (String × JVal) → String → Option JVal
  | [], _ => none
  | (k, v) :: rest, key => if k = key then some v else jsLookup rest key

/-- JS property read `v[k]` for the shapes reachable in the core: plain
objects answer from their entries; every other non-null shape answers
`undefined` for the (non-numeric, non-`length`) keys the core reads.
The caller is responsible for the throwing `null` case. -/
def jsPropT : JVal → String → Option JVal
  | .obj kvs, k => jsLookup kvs k
  | _, _ => none

/-- JS property read that throws on `null` (reading any property of `null`
raises a `TypeError`). -/
def jsGetE : JVal → String → Except Unit (Option JVal)
  | .null, _ => .error ()
  | v, k => .ok (jsPropT v k)

/-- `Object.entries` of a non-null value: entries of an object, index/value
pairs of an array, index/character pairs of a string, and `[]` for numbers
and booleans. -/
def jsEntries : JVal → List (String × JVal)
  | .obj kvs => kvs
  | .arr items => (items.enum).map (fun p => (toString p.1, p.2))
  | .str s => (s.data.enum).map (fun p => (toString p.1, .str (String.singleton p.2)))
  | _ => []

/-- Record update with JS object-assignment semantics: an existing key keeps
its position and gets the new value, a new key is appended. -/
def recordSet : List (String × JVal) → String → JVal → List (String × JVal)
  | [], k, v => [(k, v)]
  | (k', v') :: rest, k, v =>
    if k' = k then (k, v) :: rest else (k', v') :: recordSet rest k v

/-- `Object.assign(target, src)`: copy all entries of `src` over `target`. -/
def assignEntries (target : List (String × JVal)) (src : List (String × JVal)) :
    List (String × JVal) :=
  src.foldl (fun acc kv => recordSet acc kv.1 kv.2) target

/-- Order-preserving deduplication keeping first occurrences (elements of
`seen` are dropped), the behaviour of `[...new Set(xs)]` on the structural
values we model. -/
def dedupFirstAux (seen : List JVal) : List JVal → List JVal
  | [] => []
  | x :: xs =>
    if x ∈ seen then dedupFirstAux seen xs
    else x :: dedupFirstAux (x :: seen) xs

/-- Order-preserving deduplication keeping first occurrences. -/
def dedupFirst (l : List JVal) : List JVal := dedupFirstAux [] l

/-- Decimal digit character. -/
def digitChar (n : Nat) : Char := Char.ofNat (48 + n)

/-- Decimal digits of a natural number, with fuel (`fuel ≥ n` suffices). -/
def natDigitsAux : Nat → Nat → List Char
  | 0, _ => []
  | fuel + 1, n =>
    if n < 10 then [digitChar n]
    else natDigitsAux fuel (n / 10) ++ [digitChar (n % 10)]

/-- Decimal rendering of a natural number (JS number-to-string on the
integral values the core produces). -/
def natStr (n : Nat) : String := ⟨natDigitsAux (n + 1) n⟩

/-- Decimal rendering of an integer. -/
def intStr (n : Int) : String :=
  if n < 0 then "-" ++ natStr n.natAbs else natStr n.natAbs

mutual
/-- JS string coercion of a value, as performed by template-literal
interpolation: `String(v)`. -/
def jsToString : JVal → String
  | .null => "null"
  | .bool b => if b then "true" else "false"
  | .num n => intStr n
  | .str s => s
  | .arr items => String.intercalate "," (jsToStringL items)
  | .obj _ => "[object Object]"

/-- Element renderings for `Array.prototype.toString` (null elements render
as the empty string). -/
def jsToStringL : List JVal → List String
  | [] => []
  | .null :: rest => "" :: jsToStringL rest
  | v :: rest => jsToString v :: jsToStringL rest
end

/-- Coercion of a possibly-`undefined` value, as interpolated by a template
literal (`undefined` renders as the string "undefined"). -/
def jsToStringU : Option JVal → String
  | none => "undefined"
  | some v => jsToString v

mutual
/-- Structural node-count measure used for termination (characters and
numeric magnitudes deliberately do not contribute). -/
def jm : JVal → Nat
  | .null => 1
  | .bool _ => 1
  | .num _ => 1
  | .str _ => 1
  | .arr items => 1 + jmL items
  | .obj kvs => 1 + jmE kvs

/-- Measure of a list of values. -/
def jmL : List JVal → Nat
  | [] => 0
  | v :: rest => 1 + jm v + jmL rest

/-- Measure of an entry list. -/
def jmE : List (String × JVal) → Nat
  | [] => 0
  | kv :: rest => 1 + jm kv.2 + jmE rest
end

mutual
/-- All string values occurring in a value (the `$ref` strings a resolution
can ever meet inside it are among these). -/
def strs : JVal → Finset String
  | .null => ∅
  | .bool _ => ∅
  | .num _ => ∅
  | .str s => {s}
  | .arr items => strsL items
  | .obj kvs => strsE kvs

/-- String values occurring in a list of values. -/
def strsL : List JVal → Finset String
  | [] => ∅
  | v :: rest => strs v ∪ strsL rest

/-- String values occurring in the values of an entry list. -/
def strsE : List (String × JVal) → Finset String
  | [] => ∅
  | kv :: rest => strs kv.2 ∪ strsE rest
end

theorem strsL_mem {v : JVal} {items : List JVal} (h : v ∈ items) :
    strs v ⊆ strsL items := by
  induction items with
  | nil => cases h
  | cons x rest ih =>
    rw [strsL]
    rcases List.mem_cons.mp h with h1 | h1
    · subst h1; exact Finset.subset_union_left
    · exact (ih h1).trans Finset.subset_union_right

theorem strsE_lookup {kvs : List (String × JVal)} {k : String} {v : JVal}
    (h : jsLookup kvs k = some v) : strs v ⊆ strsE kvs := by
  induction kvs with
  | nil => simp [jsLookup] at h
  | cons kv rest ih =>
    rw [strsE]
    rcases kv with ⟨k', v'⟩
    rw [jsLookup] at h
    by_cases hk : k' = k
    · simp only [hk, if_pos rfl] at h
      cases h
      exact Finset.subset_union_left
    · simp only [if_neg hk] at h
      exact (ih h).trans Finset.subset_union_right

theorem jmE_lookup {kvs : List (String × JVal)} {k : String} {v : JVal}
    (h : jsLookup kvs k = some v) : jm v ≤ jmE kvs := by
  induction kvs with
  | nil => simp [jsLookup] at h
  | cons kv rest ih =>
    rcases kv with ⟨k', v'⟩
    rw [jsLookup] at h
    by_cases hk : k' = k
    · simp only [hk, if_pos rfl] at h
      cases h
      simp only [jmE]
      omega
    · simp only [if_neg hk] at h
      have := ih h
      simp only [jmE]
      omega

theorem jmL_mem {v : JVal} {items : List JVal} (h : v ∈ items) :
    jm v ≤ jmL items := by
  induction items with
  | nil => cases h
  | cons x rest ih =>
    rw [jmL]
    rcases List.mem_cons.mp h with h1 | h1
    · subst h1; omega
    · have := ih h1; omega

/-- Canonical array-index form of a property key: JS resolves `arr[s]` to an
element only when `s` is the canonical decimal rendering of an index. -/
def canonIndex (s : String) : Option Nat :=
  match s.toNat? with
  | some i => if toString i = s then some i else none
  | none => none

/-- The pointer walk of `lookupRef`: follow one segment per step, failing on
`null` and non-object intermediates exactly as the source does. -/
def lookupRefGo : List String → JVal → Option JVal
  | [], cur => some cur
  | p :: rest, cur =>
    match cur with
    | .obj kvs =>
      match jsLookup kvs p with
      | some v => lookupRefGo rest v
      | none => none
    | .arr items =>
      if p = "length" then lookupRefGo rest (.num items.length)
      else
        match canonIndex p with
        | some i =>
          match items.get? i with
          | some v => lookupRefGo rest v
          | none => none
        | none => none
    | _ => none

/-- Character-level embedding of `ref.startsWith("#/")`. -/
def isInternalRef (s : String) : Bool :=
  match s.data with
  | '#' :: '/' :: _ => true
  | _ => false

/-- Character-level embedding of `String.prototype.split` with separator
`/` (splitting the empty text yields one empty segment, as in JS). -/
def splitSlash : List Char → List (List Char)
  | [] => [[]]
  | c :: rest =>
    match splitSlash rest with
    | [] => [[]]
    | grp :: grps => if c = '/' then [] :: grp :: grps else (c :: grp) :: grps

/-- The segments of an internal pointer: `ref.slice(2).split("/")`. -/
def refSegments (s : String) : List String :=
  (splitSlash (s.data.drop 2)).map (fun cs => ⟨cs⟩)

/-- Resolve a `$ref` pointer against the root document.  Only internal
pointers of the form `#/a/b/c` are supported; any other shape, or a walk
that leaves the document, yields `none` (JS `undefined`). -/
def lookupRef (ref : String) (root : JVal) : Option JVal :=
  if isInternalRef ref then lookupRefGo (refSegments ref) root
  else none

theorem lookupRefGo_strs :
    ∀ (parts : List String) (cur t : JVal), lookupRefGo parts cur = some t →
      strs t ⊆ strs cur := by
  intro parts
  induction parts with
  | nil =>
    intro cur t h
    rw [lookupRefGo] at h
    cases h
    exact Finset.Subset.refl _
  | cons p rest ih =>
    intro cur t h
    cases cur with
    | null => simp [lookupRefGo] at h
    | bool b => simp [lookupRefGo] at h
    | num n => simp [lookupRefGo] at h
    | str s => simp [lookupRefGo] at h
    | obj kvs =>
      simp only [lookupRefGo] at h
      cases hv : jsLookup kvs p with
      | some v =>
        rw [hv] at h
        simp only at h
        simp only [strs]
        exact (ih v t h).trans (strsE_lookup hv)
      | none => rw [hv] at h; simp at h
    | arr items =>
      simp only [lookupRefGo] at h
      by_cases hp : p = "length"
      · rw [if_pos hp] at h
        have h1 := ih _ _ h
        simp only [strs] at h1
        exact h1.trans (Finset.empty_subset _)
      · rw [if_neg hp] at h
        cases hi : canonIndex p with
        | some i =>
          rw [hi] at h
          simp only at h
          cases hg : items.get? i with
          | some v =>
            rw [hg] at h
            simp only at h
            have hmem : v ∈ items := List.get?_mem hg
            simp only [strs]
            exact (ih v t h).trans (strsL_mem hmem)
          | none => rw [hg] at h; simp at h
        | none => rw [hi] at h; simp at h

theorem lookupRef_strs {r : String} {root t : JVal}
    (h : lookupRef r root = some t) : strs t ⊆ strs root := by
  rw [lookupRef] at h
  by_cases hs : isInternalRef r = true
  · rw [if_pos hs] at h
    exact lookupRefGo_strs _ _ _ h
  · rw [if_neg hs] at h
    cases h

/-- The degenerate placeholder substituted for a cyclic reference. -/
def placeholderObj : JVal := .obj [("type", .str "object")]

/-- JS `typeof v` is the string "object" (true for objects, arrays, null). -/
def isObjType : JVal → Bool
  | .obj _ => true
  | .arr _ => true
  | .null => true
  | _ => false

/-- Accumulator of the `mergeAllOf` loop: the merged record seeded with
`\x7b type: "object" \x7d`, the accumulated properties, and the accumulated
required names. -/
structure MergeAcc where
  merged : List (String × JVal)
  allProps : List (String × JVal)
  allRequired : List JVal

/-- The per-entry step of the other-keys loop of `mergeAllOf`: copy the
entry over the merged record unless the key is one of `properties`,
`required`, `allOf`. -/
def mergeEntryStep (a : MergeAcc) (kv : String × JVal) : MergeAcc :=
  if kv.1 = "properties" || kv.1 = "required" || kv.1 = "allOf" then a
  else { a with merged := recordSet a.merged kv.1 kv.2 }

/-- First phase of a `mergeAllOf` iteration: when the fragment carries a
truthy object-typed `properties` value, assign its entries over the
accumulated properties. -/
def mergePropsStep (acc : MergeAcc) (resolved : JVal) : MergeAcc :=
  match jsPropT resolved "properties" with
  | some p =>
    if jsTruthy p && isObjType p then
      { acc with allProps := assignEntries acc.allProps (jsEntries p) }
    else acc
  | none => acc

/-- Second phase of a `mergeAllOf` iteration: when the fragment carries an
array-valued `required`, push its elements. -/
def mergeRequiredStep (acc : MergeAcc) (resolved : JVal) : MergeAcc :=
  match jsPropT resolved "required" with
  | some (.arr xs) => { acc with allRequired := acc.allRequired ++ xs }
  | _ => acc

/-- The pure body of one `mergeAllOf` loop iteration over a non-null
resolved fragment: union object-typed `properties` into the accumulator,
append `required` arrays, and copy every other key over the merged record
(later fragments win), in the order of the source loop. -/
def mergeStepP (acc : MergeAcc) (resolved : JVal) : MergeAcc :=
  (jsEntries resolved).foldl mergeEntryStep
    (mergeRequiredStep (mergePropsStep acc resolved) resolved)

/-- One iteration of the `mergeAllOf` loop.  Reading `.properties` of a
`null` fragment throws in JavaScript, hence the error case. -/
def mergeFragment (acc : MergeAcc) (resolved : JVal) : Except Unit MergeAcc :=
  match resolved with
  | .null => .error ()
  | _ => .ok (mergeStepP acc resolved)

/-- Merge a list of already-resolved `allOf` fragments into one synthetic
object schema (the source resolves each fragment just before merging it;
resolution is pure, so resolving all fragments first is observationally the
same loop). -/
def mergeAllOf (resolveds : List JVal) : Except Unit JVal := do
  let acc ← resolveds.foldlM mergeFragment ⟨[("type", .str "object")], [], []⟩
  let m1 :=
    if acc.allProps.length > 0 then recordSet acc.merged "properties" (.obj acc.allProps)
    else acc.merged
  let m2 :=
    if acc.allRequired.length > 0 then
      recordSet m1 "required" (.arr (dedupFirst acc.allRequired))
    else m1
  return .obj m2

theorem cardMeasure_mono {r : JVal} {S T s : Finset String} (h : S ⊆ T) :
    ((strs r ∪ S) \ s).card ≤ ((strs r ∪ T) \ s).card :=
  Finset.card_le_card
    (Finset.sdiff_subset_sdiff (Finset.union_subset_union_right h)
      (Finset.Subset.refl _))

theorem cardMeasure_ref {root node target : JVal} {seen : Finset String}
    {r : String} (hrn : r ∈ strs node) (hrs : r ∉ seen)
    (hsub : strs target ⊆ strs root) :
    ((strs root ∪ strs target) \ insert r seen).card <
      ((strs root ∪ strs node) \ seen).card := by
  apply Finset.card_lt_card
  have hAB : (strs root ∪ strs target) \ insert r seen ⊆
      (strs root ∪ strs node) \ seen := by
    intro x hx
    rw [Finset.mem_sdiff] at hx ⊢
    rcases hx with ⟨hx1, hx2⟩
    rw [Finset.mem_insert] at hx2
    push_neg at hx2
    refine ⟨?_, hx2.2⟩
    rcases Finset.mem_union.mp hx1 with h1 | h1
    · exact Finset.mem_union_left _ h1
    · exact Finset.mem_union_left _ (hsub h1)
  refine (Finset.ssubset_iff_of_subset hAB).mpr ⟨r, ?_, ?_⟩
  · rw [Finset.mem_sdiff]
    exact ⟨Finset.mem_union_right _ hrn, hrs⟩
  · rw [Finset.mem_sdiff, Finset.mem_insert]
    intro hc
    exact hc.2 (Or.inl rfl)

/-- The `$ref` string of a node: `typeof node.$ref` is the string type. -/
def refStrOf (kvs : List (String × JVal)) : Option String :=
  match jsLookup kvs "$ref" with
  | some (.str r) => some r
  | _ => none

/-- The `allOf` fragment list of a node: `Array.isArray(node.allOf)`. -/
def allOfArrOf (kvs : List (String × JVal)) : Option (List JVal) :=
  match jsLookup kvs "allOf" with
  | some (.arr schemas) => some schemas
  | _ => none

theorem refStrOf_some {kvs : List (String × JVal)} {r : String}
    (h : refStrOf kvs = some r) : jsLookup kvs "$ref" = some (.str r) := by
  unfold refStrOf at h
  split at h
  · rename_i heq
    cases h
    exact heq
  · cases h

theorem allOfArrOf_some {kvs : List (String × JVal)} {schemas : List JVal}
    (h : allOfArrOf kvs = some schemas) :
    jsLookup kvs "allOf" = some (.arr schemas) := by
  unfold allOfArrOf at h
  split at h
  · rename_i heq
    cases h
    exact heq
  · cases h

mutual
/-- Faithful embedding of `deepResolve` from `resolve-refs.ts`: inline
`$ref` targets (with cycle detection through the `seen` set scoped to the
current branch), merge `allOf` lists, and otherwise rebuild the node while
resolving every child.  Total by well-founded recursion: each `$ref` step
consumes one of the finitely many strings of the document not yet on the
active path, and every other step descends structurally. -/
def deepResolve (node root : JVal) (seen : Finset String) : Except Unit JVal :=
  match node with
  | .null => .ok node
  | .bool b => .ok (.bool b)
  | .num n => .ok (.num n)
  | .str s => .ok (.str s)
  | .arr items =>
    match resolveList items root seen with
    | .error e => .error e
    | .ok rs => .ok (.arr rs)
  | .obj kvs =>
    match hr : refStrOf kvs with
    | some r =>
      if hmem : r ∈ seen then .ok placeholderObj
      else
        match ht : lookupRef r root with
        | some target =>
          if jsTruthy target then deepResolve target root (insert r seen)
          else .ok (.obj kvs)
        | none => .ok (.obj kvs)
    | none =>
      match ha : allOfArrOf kvs with
      | some schemas =>
        match resolveList schemas root seen with
        | .error e => .error e
        | .ok rs => mergeAllOf rs
      | none =>
        match resolveEntries kvs root seen with
        | .error e => .error e
        | .ok rs => .ok (.obj rs)
termination_by (((strs root ∪ strs node) \ seen).card, jm node)
decreasing_by
  all_goals simp_wf
  · -- array branch: same string set, structurally smaller
    simp only [strs, jm]
    exact Prod.Lex.right _ (by omega)
  · -- reference branch: the measure of unseen document strings decreases
    rename_i kvs htr
    have hrn : r ∈ strs (JVal.obj kvs) := by
      simp only [strs]
      exact strsE_lookup (refStrOf_some hr) (by simp [strs])
    exact Prod.Lex.left _ _ (cardMeasure_ref hrn hmem (lookupRef_strs ht))
  · -- allOf branch
    rename List (String × JVal) => kvs
    have hsub : strsL schemas ⊆ strs (JVal.obj kvs) := by
      have h1 := strsE_lookup (allOfArrOf_some ha)
      simp only [strs] at h1 ⊢
      exact h1
    have hle := cardMeasure_mono (r := root) (s := seen) hsub
    rcases lt_or_eq_of_le hle with hlt | heq
    · exact Prod.Lex.left _ _ hlt
    · rw [heq]
      refine Prod.Lex.right _ ?_
      have h2 := jmE_lookup (allOfArrOf_some ha)
      simp only [jm] at h2 ⊢
      omega
  · -- plain object branch
    simp only [strs, jm]
    exact Prod.Lex.right _ (by omega)

/-- Resolution mapped over the elements of an array node. -/
def resolveList (items : List JVal) (root : JVal) (seen : Finset String) :
    Except Unit (List JVal) :=
  match items with
  | [] => .ok []
  | v :: rest =>
    match deepResolve v root seen with
    | .error e => .error e
    | .ok r =>
      match resolveList rest root seen with
      | .error e => .error e
      | .ok rs => .ok (r :: rs)
termination_by (((strs root ∪ strsL items) \ seen).card, jmL items)
decreasing_by
  all_goals simp_wf
  · -- list head
    have hsub : strs x ⊆ strsL (x :: xs) := strsL_mem (List.mem_cons_self _ _)
    have hle := cardMeasure_mono (r := root) (s := seen) hsub
    rcases lt_or_eq_of_le hle with hlt | heq
    · exact Prod.Lex.left _ _ hlt
    · rw [heq]
      exact Prod.Lex.right _ (by simp only [jmL]; omega)
  · -- list tail
    have hsub : strsL xs ⊆ strsL (x :: xs) := by
      simp only [strsL]
      exact Finset.subset_union_right
    have hle := cardMeasure_mono (r := root) (s := seen) hsub
    rcases lt_or_eq_of_le hle with hlt | heq
    · exact Prod.Lex.left _ _ hlt
    · rw [heq]
      exact Prod.Lex.right _ (by simp only [jmL]; omega)

/-- Resolution mapped over the values of an object node, keys preserved in
order. -/
def resolveEntries (kvs : List (String × JVal)) (root : JVal)
    (seen : Finset String) : Except Unit (List (String × JVal)) :=
  match kvs with
  | [] => .ok []
  | kv :: rest =>
    match deepResolve kv.2 root seen with
    | .error e => .error e
    | .ok r =>
      match resolveEntries rest root seen with
      | .error e => .error e
      | .ok rs => .ok ((kv.1, r) :: rs)
termination_by (((strs root ∪ strsE kvs) \ seen).card, jmE kvs)
decreasing_by
  all_goals simp_wf
  · -- entries head
    have hsub : strs kv.2 ⊆ strsE (kv :: rest) := by
      simp only [strsE]
      exact Finset.subset_union_left
    have hle := cardMeasure_mono (r := root) (s := seen) hsub
    rcases lt_or_eq_of_le hle with hlt | heq
    · exact Prod.Lex.left _ _ hlt
    · rw [heq]
      exact Prod.Lex.right _ (by simp only [jmE]; omega)
  · -- entries tail
    have hsub : strsE rest ⊆ strsE (kv :: rest) := by
      simp only [strsE]
      exact Finset.subset_union_right
    have hle := cardMeasure_mono (r := root) (s := seen) hsub
    rcases lt_or_eq_of_le hle with hlt | heq
    · exact Prod.Lex.left _ _ hlt
    · rw [heq]
      exact Prod.Lex.right _ (by simp only [jmE]; omega)
end

/-- Embedding of `resolveRefs`: deep-resolve the whole spec against itself
with an empty active path. -/
def resolveRefs (spec : JVal) : Except Unit JVal := deepResolve spec spec ∅

theorem deepResolve_null {root : JVal} {seen : Finset String} :
    deepResolve .null root seen = .ok .null := by
  rw [deepResolve.eq_def]

theorem deepResolve_bool {b : Bool} {root : JVal} {seen : Finset String} :
    deepResolve (.bool b) root seen = .ok (.bool b) := by
  rw [deepResolve.eq_def]

theorem deepResolve_num {n : Int} {root : JVal} {seen : Finset String} :
    deepResolve (.num n) root seen = .ok (.num n) := by
  rw [deepResolve.eq_def]

theorem deepResolve_str {s : String} {root : JVal} {seen : Finset String} :
    deepResolve (.str s) root seen = .ok (.str s) := by
  rw [deepResolve.eq_def]

theorem deepResolve_arr {items : List JVal} {root : JVal} {seen : Finset String} :
    deepResolve (.arr items) root seen =
      match resolveList items root seen with
      | .error e => .error e
      | .ok rs => .ok (.arr rs) := by
  rw [deepResolve.eq_def]

theorem deepResolve_cycle {kvs : List (String × JVal)} {root : JVal}
    {seen : Finset String} {r : String} (hr : refStrOf kvs = some r)
    (hm : r ∈ seen) :
    deepResolve (.obj kvs) root seen = .ok placeholderObj := by
  rw [deepResolve]
  split
  · rename_i r' hr'
    have he : r' = r := by rw [hr'] at hr; exact Option.some.inj hr
    subst he
    rw [dif_pos hm]
  · rename_i hr'
    rw [hr'] at hr
    cases hr

theorem deepResolve_refResolve {kvs : List (String × JVal)} {root : JVal}
    {seen : Finset String} {r : String} {target : JVal}
    (hr : refStrOf kvs = some r) (hm : r ∉ seen)
    (ht : lookupRef r root = some target) (htr : jsTruthy target = true) :
    deepResolve (.obj kvs) root seen = deepResolve target root (insert r seen) := by
  rw [deepResolve]
  split
  · rename_i r' hr'
    have he : r' = r := by rw [hr'] at hr; exact Option.some.inj hr
    subst he
    rw [dif_neg hm]
    split
    · rename_i target' ht'
      have he2 : target' = target := by rw [ht'] at ht; exact Option.some.inj ht
      subst he2
      rw [if_pos htr]
    · rename_i ht'
      rw [ht'] at ht
      cases ht
  · rename_i hr'
    rw [hr'] at hr
    cases hr

theorem deepResolve_refVerbatim {kvs : List (String × JVal)} {root : JVal}
    {seen : Finset String} {r : String} (hr : refStrOf kvs = some r)
    (hm : r ∉ seen)
    (ht : lookupRef r root = none ∨
      ∃ target, lookupRef r root = some target ∧ jsTruthy target = false) :
    deepResolve (.obj kvs) root seen = .ok (.obj kvs) := by
  rw [deepResolve]
  split
  · rename_i r' hr'
    have he : r' = r := by rw [hr'] at hr; exact Option.some.inj hr
    subst he
    rw [dif_neg hm]
    split
    · rename_i target' ht'
      rcases ht with hn | ⟨target, hsome, hfal⟩
      · rw [ht'] at hn; cases hn
      · have he2 : target' = target := by rw [ht'] at hsome; exact Option.some.inj hsome
        subst he2
        rw [if_neg (by rw [hfal]; exact Bool.false_ne_true)]
    · rfl
  · rename_i hr'
    rw [hr'] at hr
    cases hr

theorem deepResolve_allOf {kvs : List (String × JVal)} {root : JVal}
    {seen : Finset String} {schemas : List JVal} (hr : refStrOf kvs = none)
    (ha : allOfArrOf kvs = some schemas) :
    deepResolve (.obj kvs) root seen =
      match resolveList schemas root seen with
      | .error e => .error e
      | .ok rs => mergeAllOf rs := by
  rw [deepResolve]
  split
  · rename_i r' hr'
    rw [hr'] at hr
    cases hr
  · split
    · rename_i schemas' ha'
      have he : schemas' = schemas := by rw [ha'] at ha; exact Option.some.inj ha
      subst he
      rfl
    · rename_i ha'
      rw [ha'] at ha
      cases ha

theorem deepResolve_plain {kvs : List (String × JVal)} {root : JVal}
    {seen : Finset String} (hr : refStrOf kvs = none)
    (ha : allOfArrOf kvs = none) :
    deepResolve (.obj kvs) root seen =
      match resolveEntries kvs root seen with
      | .error e => .error e
      | .ok rs => .ok (.obj rs) := by
  rw [deepResolve]
  split
  · rename_i r' hr'
    rw [hr'] at hr
    cases hr
  · split
    · rename_i schemas' ha'
      rw [ha'] at ha
      cases ha
    · rfl

theorem resolveList_nil {root : JVal} {seen : Finset String} :
    resolveList [] root seen = .ok [] := by
  rw [resolveList.eq_def]

theorem resolveList_cons {v : JVal} {rest : List JVal} {root : JVal}
    {seen : Finset String} :
    resolveList (v :: rest) root seen =
      match deepResolve v root seen with
      | .error e => .error e
      | .ok r =>
        match resolveList rest root seen with
        | .error e => .error e
        | .ok rs => .ok (r :: rs) := by
  rw [resolveList.eq_def]

theorem resolveEntries_nil {root : JVal} {seen : Finset String} :
    resolveEntries [] root seen = .ok [] := by
  rw [resolveEntries.eq_def]

theorem resolveEntries_cons {k : String} {v : JVal}
    {rest : List (String × JVal)} {root : JVal} {seen : Finset String} :
    resolveEntries ((k, v) :: rest) root seen =
      match deepResolve v root seen with
      | .error e => .error e
      | .ok r =>
        match resolveEntries rest root seen with
        | .error e => .error e
        | .ok rs => .ok ((k, r) :: rs) := by
  rw [resolveEntries.eq_def]

/-- The value of the last entry of `src` carrying `key`, defaulting to
`dflt`: the net effect of a sequence of record writes in order. -/
def lastVal (src : List (String × JVal)) (key : String) (dflt : Option JVal) :
    Option JVal :=
  src.foldl (fun acc kv => if kv.1 = key then some kv.2 else acc) dflt

theorem lookup_recordSet (m : List (String × JVal)) (k key : String) (v : JVal) :
    jsLookup (recordSet m k v) key =
      if k = key then some v else jsLookup m key := by
  induction m with
  | nil =>
    simp only [recordSet, jsLookup]
  | cons kv rest ih =>
    rcases kv with ⟨k', v'⟩
    rw [recordSet]
    by_cases hk : k' = k
    · rw [if_pos hk]
      subst hk
      rw [jsLookup, jsLookup]
      by_cases h2 : k' = key <;> simp [h2]
    · rw [if_neg hk]
      rw [jsLookup, jsLookup]
      by_cases hky : k' = key
      · rw [if_pos hky, if_neg (fun h => hk (hky.trans h.symm)), if_pos hky]
      · rw [if_neg hky, if_neg hky, ih]

theorem jsLookup_eq_none_of_not_mem (rest : List (String × JVal)) (key : String)
    (h : key ∉ rest.map Prod.fst) : jsLookup rest key = none := by
  induction rest with
  | nil => rfl
  | cons kv r ih =>
    rcases kv with ⟨k2, v2⟩
    rw [jsLookup]
    simp only [List.map_cons, List.mem_cons] at h
    push_neg at h
    rw [if_neg (fun he => h.1 he.symm)]
    exact ih h.2

theorem lastVal_of_nodup (src : List (String × JVal)) (key : String)
    (dflt : Option JVal) (h : (src.map Prod.fst).Nodup) :
    lastVal src key dflt =
      match jsLookup src key with
      | some v => some v
      | none => dflt := by
  induction src generalizing dflt with
  | nil => simp [lastVal, jsLookup]
  | cons kv rest ih =>
    rcases kv with ⟨k', v'⟩
    simp only [List.map_cons, List.nodup_cons] at h
    have hstep : lastVal ((k', v') :: rest) key dflt =
        lastVal rest key (if k' = key then some v' else dflt) := rfl
    rw [hstep, jsLookup]
    by_cases hky : k' = key
    · simp only [if_pos hky]
      rw [ih _ h.2, jsLookup_eq_none_of_not_mem rest key (hky ▸ h.1)]
    · simp only [if_neg hky]
      exact ih _ h.2

theorem lookup_assignEntries (t src : List (String × JVal)) (key : String) :
    jsLookup (assignEntries t src) key = lastVal src key (jsLookup t key) := by
  induction src generalizing t with
  | nil => simp [assignEntries, lastVal]
  | cons kv rest ih =>
    rcases kv with ⟨k', v'⟩
    show jsLookup (assignEntries (recordSet t k' v') rest) key = _
    rw [ih]
    show _ = lastVal rest key (if k' = key then some v' else jsLookup t key)
    rw [lookup_recordSet]

theorem mem_dedupFirstAux (l : List JVal) :
    ∀ (seen : List JVal) (v : JVal),
      v ∈ dedupFirstAux seen l ↔ v ∈ l ∧ v ∉ seen := by
  induction l with
  | nil => intro seen v; simp [dedupFirstAux]
  | cons x xs ih =>
    intro seen v
    rw [dedupFirstAux]
    by_cases hx : x ∈ seen
    · rw [if_pos hx, ih]
      constructor
      · rintro ⟨h1, h2⟩
        exact ⟨List.mem_cons_of_mem _ h1, h2⟩
      · rintro ⟨h1, h2⟩
        rcases List.mem_cons.mp h1 with h3 | h3
        · exact absurd (h3 ▸ hx) h2
        · exact ⟨h3, h2⟩
    · rw [if_neg hx]
      constructor
      · intro h
        rcases List.mem_cons.mp h with h1 | h1
        · exact ⟨h1 ▸ List.mem_cons_self _ _, h1 ▸ hx⟩
        · obtain ⟨h2, h3⟩ := (ih _ _).mp h1
          refine ⟨List.mem_cons_of_mem _ h2, fun hc => h3 ?_⟩
          exact List.mem_cons_of_mem _ hc
      · rintro ⟨h1, h2⟩
        rcases List.mem_cons.mp h1 with h3 | h3
        · exact h3 ▸ List.mem_cons_self _ _
        · by_cases hvx : v = x
          · exact hvx ▸ List.mem_cons_self _ _
          · refine List.mem_cons_of_mem _ ((ih _ _).mpr ⟨h3, ?_⟩)
            intro hc
            rcases List.mem_cons.mp hc with h4 | h4
            · exact hvx h4
            · exact h2 h4

theorem mem_dedupFirst (l : List JVal) (v : JVal) :
    v ∈ dedupFirst l ↔ v ∈ l := by
  rw [dedupFirst, mem_dedupFirstAux]
  simp

theorem nodup_dedupFirstAux (l : List JVal) :
    ∀ seen : List JVal, (dedupFirstAux seen l).Nodup := by
  induction l with
  | nil => intro seen; exact List.nodup_nil
  | cons x xs ih =>
    intro seen
    rw [dedupFirstAux]
    by_cases hx : x ∈ seen
    · rw [if_pos hx]; exact ih _
    · rw [if_neg hx, List.nodup_cons]
      refine ⟨fun hmem => ?_, ih _⟩
      obtain ⟨-, h2⟩ := (mem_dedupFirstAux _ _ _).mp hmem
      exact h2 (List.mem_cons_self _ _)

theorem nodup_dedupFirst (l : List JVal) : (dedupFirst l).Nodup :=
  nodup_dedupFirstAux l []

/-- The `required` array contributed by a fragment (fragments without an
array-valued `required` contribute nothing, as in the source's
`Array.isArray` guard). -/
def fragRequired (f : JVal) : List JVal :=
  match jsPropT f "required" with
  | some (.arr xs) => xs
  | _ => []

/-- The value a fragment declares for a property name, reading its
object-valued `properties` map. -/
def fragPropVal (f : JVal) (key : String) : Option JVal :=
  match jsPropT f "properties" with
  | some (.obj ps) => jsLookup ps key
  | _ => none

/-- Modelled from the specification wording: the union of all fragments'
properties in which later fragments override earlier ones on the same key,
expressed per key (`dflt` is the value before any fragment applies). -/
def specLastProp (frags : List JVal) (key : String) (dflt : Option JVal) :
    Option JVal :=
  frags.foldl
    (fun acc f =>
      match fragPropVal f key with
      | some v => some v
      | none => acc)
    dflt

/-- Modelled from the specification wording: for keys other than
`properties`, `required`, `allOf`, the last fragment declaring the key wins,
starting from the accumulated value `dflt`. -/
def specLastWins (frags : List JVal) (key : String) (dflt : Option JVal) :
    Option JVal :=
  frags.foldl
    (fun acc f =>
      match jsPropT f key with
      | some v => some v
      | none => acc)
    dflt

/-- Shape hypothesis on a fragment's `properties` value: absent, or a
duplicate-free object, or any non-array non-object value (which the source
skips); array-valued `properties` (merged element-wise by the source via
index keys) are outside the map-shaped reading of the claim. -/
def goodProps : Option JVal → Prop
  | some (.arr _) => False
  | some (.obj ps) => (ps.map Prod.fst).Nodup
  | _ => True

/-- Shape hypothesis on a resolved fragment: a JS plain object (hence
duplicate-free keys) whose `properties` satisfies `goodProps`. -/
def goodFrag (f : JVal) : Prop :=
  (∃ kvs, f = .obj kvs ∧ (kvs.map Prod.fst).Nodup) ∧
    goodProps (jsPropT f "properties")

theorem entriesFold_allProps (kvs : List (String × JVal)) (a : MergeAcc) :
    (kvs.foldl mergeEntryStep a).allProps = a.allProps := by
  induction kvs generalizing a with
  | nil => rfl
  | cons kv rest ih =>
    rw [List.foldl_cons, ih]
    rw [mergeEntryStep]
    split <;> rfl

theorem entriesFold_allRequired (kvs : List (String × JVal)) (a : MergeAcc) :
    (kvs.foldl mergeEntryStep a).allRequired = a.allRequired := by
  induction kvs generalizing a with
  | nil => rfl
  | cons kv rest ih =>
    rw [List.foldl_cons, ih]
    rw [mergeEntryStep]
    split <;> rfl

theorem entriesFold_merged (kvs : List (String × JVal)) (a : MergeAcc)
    (key : String) (h1 : key ≠ "properties") (h2 : key ≠ "required")
    (h3 : key ≠ "allOf") :
    jsLookup ((kvs.foldl mergeEntryStep a).merged) key =
      lastVal kvs key (jsLookup a.merged key) := by
  induction kvs generalizing a with
  | nil => rfl
  | cons kv rest ih =>
    rw [List.foldl_cons, ih]
    have hstep : lastVal (kv :: rest) key (jsLookup a.merged key) =
        lastVal rest key (if kv.1 = key then some kv.2 else jsLookup a.merged key) :=
      rfl
    rw [hstep, mergeEntryStep]
    split
    · rename_i hexcl
      have hne : ¬(kv.1 = key) := by
        intro he
        rw [he] at hexcl
        simp only [Bool.or_eq_true, decide_eq_true_eq] at hexcl
        rcases hexcl with (h | h) | h
        · exact h1 h
        · exact h2 h
        · exact h3 h
      rw [if_neg hne]
    · rw [lookup_recordSet]

theorem entriesFold_merged_excl (kvs : List (String × JVal)) (a : MergeAcc)
    (key : String)
    (h : key = "properties" ∨ key = "required" ∨ key = "allOf") :
    jsLookup ((kvs.foldl mergeEntryStep a).merged) key =
      jsLookup a.merged key := by
  induction kvs generalizing a with
  | nil => rfl
  | cons kv rest ih =>
    rw [List.foldl_cons, ih]
    rw [mergeEntryStep]
    split
    · rfl
    · rename_i hnexcl
      rw [lookup_recordSet]
      have hne : ¬(kv.1 = key) := by
        intro he
        apply hnexcl
        rw [he]
        rcases h with h | h | h <;> rw [h] <;> simp
      rw [if_neg hne]

theorem mergePropsStep_merged (acc : MergeAcc) (f : JVal) :
    (mergePropsStep acc f).merged = acc.merged := by
  rw [mergePropsStep]
  split
  · split <;> rfl
  · rfl

theorem mergePropsStep_allRequired (acc : MergeAcc) (f : JVal) :
    (mergePropsStep acc f).allRequired = acc.allRequired := by
  rw [mergePropsStep]
  split
  · split <;> rfl
  · rfl

theorem mergePropsStep_allProps (acc : MergeAcc) (f : JVal)
    (hg : goodProps (jsPropT f "properties")) (key : String) :
    jsLookup ((mergePropsStep acc f).allProps) key =
      match fragPropVal f key with
      | some v => some v
      | none => jsLookup acc.allProps key := by
  rw [mergePropsStep, fragPropVal]
  cases hp : jsPropT f "properties" with
  | none => rfl
  | some p =>
    rw [hp] at hg
    cases p with
    | null => rfl
    | bool b => simp [jsTruthy, isObjType]
    | num n => simp [jsTruthy, isObjType]
    | str s => simp [jsTruthy, isObjType]
    | arr items => exact absurd hg (by simp [goodProps])
    | obj ps =>
      simp only [jsTruthy, isObjType, Bool.and_true, if_pos]
      show jsLookup (assignEntries acc.allProps (jsEntries (.obj ps))) key = _
      rw [lookup_assignEntries]
      rw [show jsEntries (JVal.obj ps) = ps from rfl]
      rw [lastVal_of_nodup _ _ _ hg]

theorem mergeRequiredStep_merged (acc : MergeAcc) (f : JVal) :
    (mergeRequiredStep acc f).merged = acc.merged := by
  rw [mergeRequiredStep]
  split <;> rfl

theorem mergeRequiredStep_allProps (acc : MergeAcc) (f : JVal) :
    (mergeRequiredStep acc f).allProps = acc.allProps := by
  rw [mergeRequiredStep]
  split <;> rfl

theorem mergeRequiredStep_allRequired (acc : MergeAcc) (f : JVal) :
    (mergeRequiredStep acc f).allRequired = acc.allRequired ++ fragRequired f := by
  rw [mergeRequiredStep, fragRequired]
  split
  · rfl
  · rename_i hne
    rw [List.append_nil]

theorem mergeStepP_allRequired (acc : MergeAcc) (f : JVal) :
    (mergeStepP acc f).allRequired = acc.allRequired ++ fragRequired f := by
  rw [mergeStepP, entriesFold_allRequired, mergeRequiredStep_allRequired,
    mergePropsStep_allRequired]

theorem mergeStepP_allProps (acc : MergeAcc) (f : JVal)
    (hg : goodProps (jsPropT f "properties")) (key : String) :
    jsLookup ((mergeStepP acc f).allProps) key =
      match fragPropVal f key with
      | some v => some v
      | none => jsLookup acc.allProps key := by
  rw [mergeStepP, entriesFold_allProps, mergeRequiredStep_allProps,
    mergePropsStep_allProps acc f hg]

theorem mergeStepP_merged (acc : MergeAcc) (f : JVal)
    {kvs : List (String × JVal)} (hf : f = .obj kvs)
    (hnd : (kvs.map Prod.fst).Nodup) (key : String) (h1 : key ≠ "properties")
    (h2 : key ≠ "required") (h3 : key ≠ "allOf") :
    jsLookup ((mergeStepP acc f).merged) key =
      match jsPropT f key with
      | some v => some v
      | none => jsLookup acc.merged key := by
  rw [mergeStepP, entriesFold_merged _ _ _ h1 h2 h3, mergeRequiredStep_merged,
    mergePropsStep_merged]
  subst hf
  rw [show jsEntries (JVal.obj kvs) = kvs from rfl]
  rw [lastVal_of_nodup _ _ _ hnd]
  rfl

theorem mergeStepP_merged_excl (acc : MergeAcc) (f : JVal) (key : String)
    (h : key = "properties" ∨ key = "required" ∨ key = "allOf") :
    jsLookup ((mergeStepP acc f).merged) key = jsLookup acc.merged key := by
  rw [mergeStepP, entriesFold_merged_excl _ _ _ h, mergeRequiredStep_merged,
    mergePropsStep_merged]

theorem foldMerge_allRequired (frags : List JVal) (acc : MergeAcc) :
    (frags.foldl mergeStepP acc).allRequired =
      acc.allRequired ++ (frags.map fragRequired).join := by
  induction frags generalizing acc with
  | nil => simp
  | cons f rest ih =>
    rw [List.foldl_cons, ih, mergeStepP_allRequired]
    simp [List.append_assoc]

theorem foldMerge_allProps (frags : List JVal) (acc : MergeAcc) (key : String)
    (hg : ∀ f ∈ frags, goodProps (jsPropT f "properties")) :
    jsLookup ((frags.foldl mergeStepP acc).allProps) key =
      specLastProp frags key (jsLookup acc.allProps key) := by
  induction frags generalizing acc with
  | nil => rfl
  | cons f rest ih =>
    rw [List.foldl_cons, ih _ (fun g hgm => hg g (List.mem_cons_of_mem _ hgm))]
    have hstep : specLastProp (f :: rest) key (jsLookup acc.allProps key) =
        specLastProp rest key
          (match fragPropVal f key with
           | some v => some v
           | none => jsLookup acc.allProps key) := rfl
    rw [hstep, mergeStepP_allProps _ _ (hg f (List.mem_cons_self _ _))]

theorem foldMerge_merged (frags : List JVal) (acc : MergeAcc) (key : String)
    (h1 : key ≠ "properties") (h2 : key ≠ "required") (h3 : key ≠ "allOf")
    (hg : ∀ f ∈ frags, ∃ kvs, f = .obj kvs ∧ (kvs.map Prod.fst).Nodup) :
    jsLookup ((frags.foldl mergeStepP acc).merged) key =
      specLastWins frags key (jsLookup acc.merged key) := by
  induction frags generalizing acc with
  | nil => rfl
  | cons f rest ih =>
    obtain ⟨kvs, hf, hnd⟩ := hg f (List.mem_cons_self _ _)
    rw [List.foldl_cons, ih _ (fun g hgm => hg g (List.mem_cons_of_mem _ hgm))]
    have hstep : specLastWins (f :: rest) key (jsLookup acc.merged key) =
        specLastWins rest key
          (match jsPropT f key with
           | some v => some v
           | none => jsLookup acc.merged key) := rfl
    rw [hstep, mergeStepP_merged _ _ hf hnd _ h1 h2 h3]

theorem foldMerge_merged_excl (frags : List JVal) (acc : MergeAcc)
    (key : String)
    (h : key = "properties" ∨ key = "required" ∨ key = "allOf") :
    jsLookup ((frags.foldl mergeStepP acc).merged) key =
      jsLookup acc.merged key := by
  induction frags generalizing acc with
  | nil => rfl
  | cons f rest ih =>
    rw [List.foldl_cons, ih, mergeStepP_merged_excl _ _ _ h]

theorem foldlM_mergeFragment (frags : List JVal) (acc : MergeAcc)
    (h : ∀ f ∈ frags, f ≠ .null) :
    List.foldlM mergeFragment acc frags = .ok (frags.foldl mergeStepP acc) := by
  induction frags generalizing acc with
  | nil => rfl
  | cons f rest ih =>
    rw [List.foldlM_cons, List.foldl_cons]
    have hok : mergeFragment acc f = .ok (mergeStepP acc f) := by
      cases f with
      | null => exact absurd rfl (h _ (List.mem_cons_self _ _))
      | bool b => rfl
      | num n => rfl
      | str s => rfl
      | arr l => rfl
      | obj l => rfl
    rw [hok]
    exact ih _ (fun g hgm => h g (List.mem_cons_of_mem _ hgm))

/-- C4: for every node with an `allOf` array the resolver hands the
resolved fragments to `mergeAllOf`, which merges them into a single schema
that starts from the record `[("type", "object")]`; its `properties` is the
union of the fragments' properties with later fragments overriding earlier
ones on the same key, its `required` is the duplicate-free union of the
fragments' `required` arrays, and every other key of a fragment (excluding
`properties`, `required`, `allOf`) overwrites the accumulated value with
later fragments winning. -/
theorem allOf_merge_characterization (frags : List JVal)
    (hg : ∀ f ∈ frags, goodFrag f) :
    (∀ kvs root seen schemas, refStrOf kvs = none →
      allOfArrOf kvs = some schemas →
      resolveList schemas root seen = .ok frags →
      deepResolve (.obj kvs) root seen = mergeAllOf frags) ∧
    ∃ m, mergeAllOf frags = .ok (.obj m) ∧
      (∀ key,
        (match jsLookup m "properties" with
         | some (.obj ps) => jsLookup ps key
         | _ => none) = specLastProp frags key none) ∧
      (match jsLookup m "required" with
       | some (.arr xs) => xs
       | _ => []).Nodup ∧
      (∀ v, v ∈ (match jsLookup m "required" with
                 | some (.arr xs) => xs
                 | _ => []) ↔ ∃ f ∈ frags, v ∈ fragRequired f) ∧
      (∀ key, key ≠ "properties" → key ≠ "required" → key ≠ "allOf" →
        jsLookup m key =
          specLastWins frags key (jsLookup [("type", JVal.str "object")] key)) := by
  have hnn : ∀ f ∈ frags, f ≠ .null := by
    intro f hf hfn
    obtain ⟨⟨kvs, hk, _⟩, _⟩ := hg f hf
    rw [hfn] at hk
    cases hk
  have hgp : ∀ f ∈ frags, goodProps (jsPropT f "properties") :=
    fun f hf => (hg f hf).2
  have hobj : ∀ f ∈ frags, ∃ kvs, f = .obj kvs ∧ (kvs.map Prod.fst).Nodup :=
    fun f hf => (hg f hf).1
  have hAP : ∀ key,
      jsLookup ((frags.foldl mergeStepP
        ⟨[("type", JVal.str "object")], [], []⟩).allProps) key =
        specLastProp frags key none :=
    fun key => foldMerge_allProps frags _ key hgp
  have hAR : (frags.foldl mergeStepP
      ⟨[("type", JVal.str "object")], [], []⟩).allRequired =
        (frags.map fragRequired).join := by
    simpa using foldMerge_allRequired frags _
  have hAM : ∀ key, key ≠ "properties" → key ≠ "required" → key ≠ "allOf" →
      jsLookup ((frags.foldl mergeStepP
        ⟨[("type", JVal.str "object")], [], []⟩).merged) key =
        specLastWins frags key (jsLookup [("type", JVal.str "object")] key) :=
    fun key h1 h2 h3 => foldMerge_merged frags _ key h1 h2 h3 hobj
  have hAMp : jsLookup ((frags.foldl mergeStepP
      ⟨[("type", JVal.str "object")], [], []⟩).merged) "properties" = none := by
    rw [foldMerge_merged_excl _ _ _ (Or.inl rfl)]
    decide
  have hAMr : jsLookup ((frags.foldl mergeStepP
      ⟨[("type", JVal.str "object")], [], []⟩).merged) "required" = none := by
    rw [foldMerge_merged_excl _ _ _ (Or.inr (Or.inl rfl))]
    decide
  have hrun : mergeAllOf frags = .ok (.obj (
      if (List.foldl mergeStepP ⟨[("type", JVal.str "object")], [], []⟩
          frags).allRequired.length > 0 then
        recordSet
          (if (List.foldl mergeStepP ⟨[("type", JVal.str "object")], [], []⟩
              frags).allProps.length > 0 then
            recordSet
              (List.foldl mergeStepP ⟨[("type", JVal.str "object")], [], []⟩
                frags).merged
              "properties"
              (.obj (List.foldl mergeStepP
                ⟨[("type", JVal.str "object")], [], []⟩ frags).allProps)
          else
            (List.foldl mergeStepP ⟨[("type", JVal.str "object")], [], []⟩
              frags).merged)
          "required"
          (.arr (dedupFirst (List.foldl mergeStepP
            ⟨[("type", JVal.str "object")], [], []⟩ frags).allRequired))
      else
        if (List.foldl mergeStepP ⟨[("type", JVal.str "object")], [], []⟩
            frags).allProps.length > 0 then
          recordSet
            (List.foldl mergeStepP ⟨[("type", JVal.str "object")], [], []⟩
              frags).merged
            "properties"
            (.obj (List.foldl mergeStepP
              ⟨[("type", JVal.str "object")], [], []⟩ frags).allProps)
        else
          (List.foldl mergeStepP ⟨[("type", JVal.str "object")], [], []⟩
            frags).merged)) := by
    unfold mergeAllOf
    rw [foldlM_mergeFragment _ _ hnn]
    rfl
  refine ⟨?_, _, hrun, ?_, ?_, ?_, ?_⟩
  · intro kvs root seen schemas h1 h2 h3
    rw [deepResolve_allOf h1 h2, h3]
  · -- properties conjunct
    intro key
    by_cases hR : (List.foldl mergeStepP
        ⟨[("type", JVal.str "object")], [], []⟩ frags).allRequired.length > 0
    · rw [if_pos hR, lookup_recordSet,
        if_neg (by decide : ¬("required" = "properties"))]
      by_cases hP : (List.foldl mergeStepP
          ⟨[("type", JVal.str "object")], [], []⟩ frags).allProps.length > 0
      · rw [if_pos hP, lookup_recordSet, if_pos rfl]
        exact hAP key
      · rw [if_neg hP, hAMp]
        have h0 : (List.foldl mergeStepP
            ⟨[("type", JVal.str "object")], [], []⟩ frags).allProps = [] :=
          List.length_eq_zero.mp (by omega)
        have h1 := hAP key
        rw [h0] at h1
        exact h1
    · rw [if_neg hR]
      by_cases hP : (List.foldl mergeStepP
          ⟨[("type", JVal.str "object")], [], []⟩ frags).allProps.length > 0
      · rw [if_pos hP, lookup_recordSet, if_pos rfl]
        exact hAP key
      · rw [if_neg hP, hAMp]
        have h0 : (List.foldl mergeStepP
            ⟨[("type", JVal.str "object")], [], []⟩ frags).allProps = [] :=
          List.length_eq_zero.mp (by omega)
        have h1 := hAP key
        rw [h0] at h1
        exact h1
  · -- required nodup conjunct
    by_cases hR : (List.foldl mergeStepP
        ⟨[("type", JVal.str "object")], [], []⟩ frags).allRequired.length > 0
    · rw [if_pos hR, lookup_recordSet, if_pos rfl]
      exact nodup_dedupFirst _
    · rw [if_neg hR]
      by_cases hP : (List.foldl mergeStepP
          ⟨[("type", JVal.str "object")], [], []⟩ frags).allProps.length > 0
      · rw [if_pos hP, lookup_recordSet,
          if_neg (by decide : ¬("properties" = "required")), hAMr]
        exact List.nodup_nil
      · rw [if_neg hP, hAMr]
        exact List.nodup_nil
  · -- required membership conjunct
    intro v
    have hmem : ∀ (hj : (List.foldl mergeStepP
        ⟨[("type", JVal.str "object")], [], []⟩ frags).allRequired = []),
        ¬(∃ f ∈ frags, v ∈ fragRequired f) := by
      intro hj hc
      obtain ⟨f, hf, hv⟩ := hc
      rw [hj] at hAR
      have hempty : fragRequired f = [] := by
        have hj2 := hAR.symm
        rw [List.join_eq_nil_iff] at hj2
        exact hj2 _ (List.mem_map_of_mem _ hf)
      rw [hempty] at hv
      cases hv
    by_cases hR : (List.foldl mergeStepP
        ⟨[("type", JVal.str "object")], [], []⟩ frags).allRequired.length > 0
    · rw [if_pos hR, lookup_recordSet, if_pos rfl]
      rw [mem_dedupFirst, hAR]
      rw [List.mem_join]
      constructor
      · rintro ⟨l, hl, hvl⟩
        obtain ⟨f, hf, hfl⟩ := List.mem_map.mp hl
        exact ⟨f, hf, hfl ▸ hvl⟩
      · rintro ⟨f, hf, hv⟩
        exact ⟨fragRequired f, List.mem_map_of_mem _ hf, hv⟩
    · have h0 : (List.foldl mergeStepP
          ⟨[("type", JVal.str "object")], [], []⟩ frags).allRequired = [] :=
        List.length_eq_zero.mp (by omega)
      rw [if_neg hR]
      by_cases hP : (List.foldl mergeStepP
          ⟨[("type", JVal.str "object")], [], []⟩ frags).allProps.length > 0
      · rw [if_pos hP, lookup_recordSet,
          if_neg (by decide : ¬("properties" = "required")), hAMr]
        simp only [List.not_mem_nil, false_iff]
        exact hmem h0
      · rw [if_neg hP, hAMr]
        simp only [List.not_mem_nil, false_iff]
        exact hmem h0
  · -- other keys conjunct
    intro key h1 h2 h3
    by_cases hR : (List.foldl mergeStepP
        ⟨[("type", JVal.str "object")], [], []⟩ frags).allRequired.length > 0
    · rw [if_pos hR, lookup_recordSet, if_neg (fun he => h2 he.symm)]
      by_cases hP : (List.foldl mergeStepP
          ⟨[("type", JVal.str "object")], [], []⟩ frags).allProps.length > 0
      · rw [if_pos hP, lookup_recordSet, if_neg (fun he => h1 he.symm)]
        exact hAM key h1 h2 h3
      · rw [if_neg hP]
        exact hAM key h1 h2 h3
    · rw [if_neg hR]
      by_cases hP : (List.foldl mergeStepP
          ⟨[("type", JVal.str "object")], [], []⟩ frags).allProps.length > 0
      · rw [if_pos hP, lookup_recordSet, if_neg (fun he => h1 he.symm)]
        exact hAM key h1 h2 h3
      · rw [if_neg hP]
        exact hAM key h1 h2 h3

instance {ε α : Type} [DecidableEq ε] [DecidableEq α] :
    DecidableEq (Except ε α) := fun a b =>
  match a, b with
  | .error u, .error v =>
    match decEq u v with
    | isTrue h => isTrue (by rw [h])
    | isFalse h => isFalse (fun hh => h (Except.error.inj hh))
  | .ok x, .ok y =>
    match decEq x y with
    | isTrue h => isTrue (by rw [h])
    | isFalse h => isFalse (fun hh => h (Except.ok.inj hh))
  | .error _, .ok _ => isFalse (fun h => Except.noConfusion h)
  | .ok _, .error _ => isFalse (fun h => Except.noConfusion h)

/-- C1: on every input the resolver is defined (`deepResolve` is a total
well-founded recursive function: every `$ref` step consumes one of the
finitely many strings of the document not yet on the active path, all other
steps descend structurally), and whenever a node carries a `$ref` string
already on the active resolution path the node is replaced by the
placeholder `\x7b type: "object" \x7d` with no further recursion into it. -/
theorem resolveRefs_total_and_cycle_placeholder :
    (∀ spec : JVal, ∃ out, resolveRefs spec = out) ∧
    (∀ (kvs : List (String × JVal)) (r : String) (root : JVal)
        (seen : Finset String), refStrOf kvs = some r → r ∈ seen →
      deepResolve (.obj kvs) root seen =
        .ok (JVal.obj [("type", JVal.str "object")])) :=
  ⟨fun _ => ⟨_, rfl⟩, fun _ _ _ _ hr hm => deepResolve_cycle hr hm⟩

/-- Witness for C1 at a concrete self-referential node. -/
theorem resolveRefs_total_and_cycle_placeholder_witness :
    refStrOf [("$ref", JVal.str "#/a")] = some "#/a" ∧
    "#/a" ∈ ({"#/a"} : Finset String) ∧
    deepResolve (.obj [("$ref", JVal.str "#/a")]) (.obj []) {"#/a"} =
      .ok (JVal.obj [("type", JVal.str "object")]) := by
  refine ⟨rfl, by simp, ?_⟩
  exact resolveRefs_total_and_cycle_placeholder.2 _ _ _ _ rfl (by simp)

/-- A spec whose `$ref` pointer resolves to an existing but falsy value
(`false`): the source passes the reference through verbatim. -/
def exC3fal : JVal :=
  .obj [("a", .obj [("$ref", .str "#/b")]), ("b", .bool false)]

/-- A spec whose `$ref` pointer resolves to an `allOf` containing `null`:
resolving the target throws. -/
def exC3thr : JVal :=
  .obj [("a", .obj [("$ref", .str "#/b")]),
        ("b", .obj [("allOf", .arr [.null])])]

theorem exC3fal_eval : resolveRefs exC3fal = .ok exC3fal := by
  have h1 : deepResolve (JVal.obj [("$ref", JVal.str "#/b")]) exC3fal ∅ =
      .ok (JVal.obj [("$ref", JVal.str "#/b")]) :=
    deepResolve_refVerbatim rfl (by simp) (Or.inr ⟨JVal.bool false, rfl, rfl⟩)
  have h2 : resolveEntries
      [("a", JVal.obj [("$ref", JVal.str "#/b")]), ("b", JVal.bool false)]
      exC3fal ∅ =
      .ok [("a", JVal.obj [("$ref", JVal.str "#/b")]), ("b", JVal.bool false)] := by
    rw [resolveEntries_cons, h1]
    have h3 : deepResolve (JVal.bool false) exC3fal ∅ = .ok (JVal.bool false) :=
      deepResolve_bool
    rw [resolveEntries_cons, h3, resolveEntries_nil]
  have hp : deepResolve exC3fal exC3fal ∅ =
      match resolveEntries
        [("a", JVal.obj [("$ref", JVal.str "#/b")]), ("b", JVal.bool false)]
        exC3fal ∅ with
      | .error e => .error e
      | .ok rs => .ok (.obj rs) := deepResolve_plain rfl rfl
  show deepResolve exC3fal exC3fal ∅ = .ok exC3fal
  rw [hp, h2]
  rfl

theorem exC3thr_eval : resolveRefs exC3thr = .error () := by
  have htgt : deepResolve (JVal.obj [("allOf", JVal.arr [JVal.null])])
      exC3thr {"#/b"} =
      match resolveList [JVal.null] exC3thr {"#/b"} with
      | .error e => .error e
      | .ok rs => mergeAllOf rs := deepResolve_allOf rfl rfl
  have hlist : resolveList [JVal.null] exC3thr {"#/b"} = .ok [JVal.null] := by
    have h3 : deepResolve JVal.null exC3thr {"#/b"} = .ok JVal.null :=
      deepResolve_null
    rw [resolveList_cons, h3, resolveList_nil]
  have h1 : deepResolve (JVal.obj [("$ref", JVal.str "#/b")]) exC3thr ∅ =
      deepResolve (JVal.obj [("allOf", JVal.arr [JVal.null])]) exC3thr
        (insert "#/b" ∅) :=
    deepResolve_refResolve rfl (by simp) rfl rfl
  have h1b : deepResolve (JVal.obj [("$ref", JVal.str "#/b")]) exC3thr ∅ =
      .error () := by
    rw [h1]
    have hs : (insert "#/b" (∅ : Finset String)) = {"#/b"} := rfl
    rw [hs, htgt, hlist]
    rfl
  have h2 : resolveEntries
      [("a", JVal.obj [("$ref", JVal.str "#/b")]),
       ("b", JVal.obj [("allOf", JVal.arr [JVal.null])])]
      exC3thr ∅ = .error () := by
    rw [resolveEntries_cons, h1b]
  have hp : deepResolve exC3thr exC3thr ∅ =
      match resolveEntries
        [("a", JVal.obj [("$ref", JVal.str "#/b")]),
         ("b", JVal.obj [("allOf", JVal.arr [JVal.null])])]
        exC3thr ∅ with
      | .error e => .error e
      | .ok rs => .ok (.obj rs) := deepResolve_plain rfl rfl
  show deepResolve exC3thr exC3thr ∅ = .error ()
  rw [hp, h2]

/-- C3 counterexample: the claim's "exactly when" and "never throws" both
fail on the code.  At `exC3fal` the pointer `#/b` is internal and resolves
to the existing value `false`, yet the `\x7b $ref \x7d` node is returned
verbatim (the source tests `if (!target)`, so falsy targets pass through);
at `exC3thr` a node carrying a `$ref` string makes `resolveRefs` throw,
because the resolved target contains an `allOf` with a `null` fragment. -/
theorem ref_passthrough_counterexample :
    resolveRefs exC3fal = .ok exC3fal ∧
    lookupRef "#/b" exC3fal = some (.bool false) ∧
    jsTruthy (.bool false) = false ∧
    resolveRefs exC3thr = .error () :=
  ⟨exC3fal_eval, rfl, rfl, exC3thr_eval⟩

/-- C3 amended: for an object node carrying a `$ref` string not on the
active path, the dispatch itself never throws and passes the original
object through verbatim exactly in the operational sense of the source:
when the pointer fails to look up, or looks up a falsy value, the node is
returned unchanged (siblings included); when the target is truthy the
looked-up target is recursively resolved in its place (and only that
recursive resolution can throw). -/
theorem ref_dispatch_verbatim_or_resolve (kvs : List (String × JVal))
    (r : String) (root : JVal) (seen : Finset String)
    (hr : refStrOf kvs = some r) (hm : r ∉ seen) :
    ((lookupRef r root = none ∨
        (∃ t, lookupRef r root = some t ∧ jsTruthy t = false)) →
      deepResolve (.obj kvs) root seen = .ok (.obj kvs)) ∧
    (∀ t, lookupRef r root = some t → jsTruthy t = true →
      deepResolve (.obj kvs) root seen = deepResolve t root (insert r seen)) :=
  ⟨fun h => deepResolve_refVerbatim hr hm h,
   fun _ ht htr => deepResolve_refResolve hr hm ht htr⟩

/-- Witness for the amended C3 at an unresolvable pointer. -/
theorem ref_dispatch_verbatim_or_resolve_witness :
    refStrOf [("$ref", JVal.str "#/missing")] = some "#/missing" ∧
    lookupRef "#/missing" (JVal.obj []) = none ∧
    deepResolve (.obj [("$ref", JVal.str "#/missing")]) (.obj []) ∅ =
      .ok (.obj [("$ref", JVal.str "#/missing")]) := by
  refine ⟨rfl, rfl, ?_⟩
  exact (ref_dispatch_verbatim_or_resolve [("$ref", JVal.str "#/missing")]
    "#/missing" (JVal.obj []) ∅ rfl (by simp)).1 (Or.inl rfl)

/-- First `allOf` fragment of the specification's worked merge example. -/
def allOfFragA : JVal :=
  .obj [("required", .arr [.str "a"]),
        ("properties", .obj [("a", .obj [("type", .str "string")])])]

/-- Second `allOf` fragment of the specification's worked merge example. -/
def allOfFragB : JVal :=
  .obj [("required", .arr [.str "b"]),
        ("properties", .obj [("b", .obj [("type", .str "number")])])]

/-- Witness for C4: the two fragments of the specification's example are
well-shaped, their merge computes to an object schema whose `properties`
carries both `a` and `b` and whose `required` carries both names, and the
characterization theorem applies to them. -/
theorem allOf_merge_characterization_witness :
    (∀ f ∈ [allOfFragA, allOfFragB], goodFrag f) ∧
    mergeAllOf [allOfFragA, allOfFragB] =
      .ok (.obj [("type", JVal.str "object"),
        ("properties", JVal.obj
          [("a", JVal.obj [("type", JVal.str "string")]),
           ("b", JVal.obj [("type", JVal.str "number")])]),
        ("required", JVal.arr [JVal.str "a", JVal.str "b"])]) ∧
    (∃ m, mergeAllOf [allOfFragA, allOfFragB] = .ok (.obj m) ∧
      (∀ key,
        (match jsLookup m "properties" with
         | some (.obj ps) => jsLookup ps key
         | _ => none) = specLastProp [allOfFragA, allOfFragB] key none) ∧
      (match jsLookup m "required" with
       | some (.arr xs) => xs
       | _ => []).Nodup ∧
      (∀ v, v ∈ (match jsLookup m "required" with
                 | some (.arr xs) => xs
                 | _ => []) ↔ ∃ f ∈ [allOfFragA, allOfFragB], v ∈ fragRequired f) ∧
      (∀ key, key ≠ "properties" → key ≠ "required" → key ≠ "allOf" →
        jsLookup m key =
          specLastWins [allOfFragA, allOfFragB] key
            (jsLookup [("type", JVal.str "object")] key))) := by
  have hg : ∀ f ∈ [allOfFragA, allOfFragB], goodFrag f := by
    intro f hf
    simp only [List.mem_cons, List.not_mem_nil, or_false] at hf
    rcases hf with rfl | rfl
    · exact ⟨⟨_, rfl, by decide⟩,
        show (List.map Prod.fst
          [("a", JVal.obj [("type", JVal.str "string")])]).Nodup by decide⟩
    · exact ⟨⟨_, rfl, by decide⟩,
        show (List.map Prod.fst
          [("b", JVal.obj [("type", JVal.str "number")])]).Nodup by decide⟩
  exact ⟨hg, by decide, (allOf_merge_characterization _ hg).2⟩

/-- Truthiness of a possibly-undefined property value (JS `undefined` is
falsy). -/
def optTruthy : Option JVal → Bool
  | none => false
  | some v => jsTruthy v

/-- JS `a || b` over two possibly-undefined property reads. -/
def jsOrProp (a b : Option JVal) : Option JVal :=
  if optTruthy a then a else b

/-- JS `v || "dflt"`: the value when truthy, else the given default
string. -/
def jsOrStr (o : Option JVal) (dflt : String) : JVal :=
  match o with
  | some v => if jsTruthy v then v else .str dflt
  | none => .str dflt

/-- JS optional chaining `o?.[k]`: `undefined` on `null`/`undefined`,
otherwise an ordinary (non-throwing) property read. -/
def optChainProp (o : Option JVal) (k : String) : Option JVal :=
  match o with
  | some v => if v = .null then none else jsPropT v k
  | none => none

/-- The `schema.type === "object" || schema.properties` test of the
compact renderer. -/
def objShaped (v : JVal) : Bool :=
  jsPropT v "type" == some (JVal.str "object") ||
    optTruthy (jsPropT v "properties")

/-- `new Set(schema.required || [])`: falsy values give the empty set,
arrays their elements, strings their characters; any other truthy value is
not iterable and throws. -/
def requiredSetE (o : Option JVal) : Except Unit (List JVal) :=
  match o with
  | none => .ok []
  | some v =>
    if jsTruthy v then
      match v with
      | .arr xs => .ok xs
      | .str s => .ok (s.data.map (fun c => .str (String.singleton c)))
      | _ => .error ()
    else .ok []

theorem jm_pos (v : JVal) : 1 ≤ jm v := by
  cases v <;> simp [jm]

theorem jmE_mem {kv : String × JVal} {kvs : List (String × JVal)}
    (h : kv ∈ kvs) : jm kv.2 ≤ jmE kvs := by
  induction kvs with
  | nil => cases h
  | cons kv2 rest ih =>
    rw [jmE]
    rcases List.mem_cons.mp h with h1 | h1
    · subst h1; omega
    · have := ih h1; omega

theorem jsPropT_some_obj {v : JVal} {k : String} {x : JVal}
    (h : jsPropT v k = some x) : ∃ kvs, v = .obj kvs := by
  cases v <;> simp [jsPropT] at h ⊢

theorem jsPropT_jm {v : JVal} {k : String} {x : JVal}
    (h : jsPropT v k = some x) : jm x < jm v := by
  obtain ⟨kvs, rfl⟩ := jsPropT_some_obj h
  have h2 : jm x ≤ jmE kvs := jmE_lookup h
  simp only [jm]
  omega

theorem mem_enumFrom_snd {α : Type} {q : Nat × α} :
    ∀ {n : Nat} {l : List α}, q ∈ List.enumFrom n l → q.2 ∈ l := by
  intro n l
  induction l generalizing n with
  | nil => intro h; cases h
  | cons a rest ih =>
    intro h
    rw [List.enumFrom] at h
    rcases List.mem_cons.mp h with h1 | h1
    · rw [h1]; exact List.mem_cons_self _ _
    · exact List.mem_cons_of_mem _ (ih h1)

theorem jm_jsEntries {kv : String × JVal} {p : JVal}
    (h : kv ∈ jsEntries p) : jm kv.2 ≤ jm p := by
  cases p with
  | null => cases h
  | bool b => cases h
  | num n => cases h
  | str s =>
    rw [jsEntries] at h
    obtain ⟨q, hq, hkv⟩ := List.mem_map.mp h
    rw [← hkv]
    simp [jm, jm_pos]
  | arr items =>
    rw [jsEntries] at h
    obtain ⟨q, hq, hkv⟩ := List.mem_map.mp h
    have hmem : q.2 ∈ items := mem_enumFrom_snd hq
    have h1 := jmL_mem hmem
    rw [← hkv]
    simp only [jm]
    omega
  | obj kvs =>
    rw [jsEntries] at h
    have h1 := jmE_mem h
    simp only [jm]
    omega

/-- Maximum `jm` over a list of values. -/
def maxJmL : List JVal → Nat
  | [] => 0
  | v :: rest => max (jm v) (maxJmL rest)

/-- Maximum `jm` over the values of an entry list. -/
def maxJmE : List (String × JVal) → Nat
  | [] => 0
  | kv :: rest => max (jm kv.2) (maxJmE rest)

theorem maxJmL_lt {vs : List JVal} {B : Nat} (hB : 1 ≤ B)
    (h : ∀ v ∈ vs, jm v < B) : maxJmL vs < B := by
  induction vs with
  | nil => simpa [maxJmL] using hB
  | cons v rest ih =>
    rw [maxJmL]
    have h1 := h v (List.mem_cons_self _ _)
    have h2 := ih (fun w hw => h w (List.mem_cons_of_mem _ hw))
    omega

theorem maxJmE_lt {l : List (String × JVal)} {B : Nat} (hB : 1 ≤ B)
    (h : ∀ kv ∈ l, jm kv.2 < B) : maxJmE l < B := by
  induction l with
  | nil => simpa [maxJmE] using hB
  | cons kv rest ih =>
    rw [maxJmE]
    have h1 := h kv (List.mem_cons_self _ _)
    have h2 := ih (fun w hw => h w (List.mem_cons_of_mem _ hw))
    omega

theorem jsOrProp_some {a b : Option JVal} {v : JVal}
    (h : jsOrProp a b = some v) : a = some v ∨ b = some v := by
  rw [jsOrProp] at h
  by_cases ht : optTruthy a = true
  · rw [if_pos ht] at h; exact Or.inl h
  · rw [if_neg ht] at h; exact Or.inr h

theorem objShaped_obj {v : JVal} (h : objShaped v = true) :
    ∃ kvs, v = .obj kvs := by
  rw [objShaped] at h
  rcases Bool.or_eq_true_iff.mp h with h1 | h1
  · have := beq_iff_eq.mp h1  -- hmm placeholder; fixed below if needed
    exact jsPropT_some_obj this
  · rw [optTruthy.eq_def] at h1
    split at h1
    · cases h1
    · rename_i v2 heq
      exact jsPropT_some_obj heq

theorem maxJmE_le_of_mem {kv : String × JVal} {l : List (String × JVal)}
    (h : kv ∈ l) : jm kv.2 ≤ maxJmE l := by
  induction l with
  | nil => cases h
  | cons kv2 rest ih =>
    rw [maxJmE]
    rcases List.mem_cons.mp h with h1 | h1
    · subst h1; omega
    · have := ih h1; omega

theorem maxJmL_le_of_mem {v : JVal} {vs : List JVal}
    (h : v ∈ vs) : jm v ≤ maxJmL vs := by
  induction vs with
  | nil => cases h
  | cons v2 rest ih =>
    rw [maxJmL]
    rcases List.mem_cons.mp h with h1 | h1
    · subst h1; omega
    · have := ih h1; omega

mutual

/-- `compactSchema(schema, depth)` from compact-schema.ts.  Falsy schemas
and `depth > 3` give `"..."`; `oneOf`/`anyOf` render the variants joined
with `" | "` (a truthy non-array union value makes `.map` throw); the
scalar fallthrough `schema.type || 'any'` is coerced to a string as its
callers interpolate it into templates. -/
def compactSchema (schema : JVal) (depth : Nat) : Except Unit String :=
  if jsTruthy schema = false ∨ depth > 3 then .ok "..."
  else
    match hv : jsOrProp (jsPropT schema "oneOf") (jsPropT schema "anyOf") with
    | some variants =>
      if jsTruthy variants = true then
        match hva : variants with
        | .arr vs => do
          let parts ← compactVariants vs depth
          .ok (String.intercalate " | " parts)
        | _ => .error ()
      else compactNonUnion schema depth
    | none => compactNonUnion schema depth
termination_by (jm schema, 3, 0)
decreasing_by
  · have h1 : jm (JVal.arr vs) < jm schema := by
      rcases jsOrProp_some hv with h | h
      · exact jsPropT_jm h
      · exact jsPropT_jm h
    have h2 : maxJmL vs < jm schema := by
      apply maxJmL_lt (jm_pos schema)
      intro v hvmem
      simp only [jm] at h1
      have h3 : jm v ≤ jmL vs := jmL_mem hvmem
      omega
    exact Prod.Lex.left _ _ h2
  · exact Prod.Lex.right _ (Prod.Lex.left _ _ (by omega))
  · exact Prod.Lex.right _ (Prod.Lex.left _ _ (by omega))

/-- The non-union tail of `compactSchema`: the object branch
(`type === "object" || properties`), the array branch, and the scalar
fallthrough. -/
def compactNonUnion (schema : JVal) (depth : Nat) : Except Unit String :=
  if objShaped schema = true then
    match hp : jsPropT schema "properties" with
    | some p =>
      if jsTruthy p = true then do
        let required ← requiredSetE (jsPropT schema "required")
        let parts ← compactProps (jsEntries p) required depth
        .ok ("\x7b" ++ String.intercalate ", " parts ++ "\x7d")
      else do
        let required ← requiredSetE (jsPropT schema "required")
        let parts ← compactProps (jsEntries (JVal.obj [])) required depth
        .ok ("\x7b" ++ String.intercalate ", " parts ++ "\x7d")
    | none => do
        let required ← requiredSetE (jsPropT schema "required")
        let parts ← compactProps (jsEntries (JVal.obj [])) required depth
        .ok ("\x7b" ++ String.intercalate ", " parts ++ "\x7d")
  else if jsPropT schema "type" = some (JVal.str "array") then
    match hit : jsPropT schema "items" with
    | some it =>
      if optTruthy (optChainProp (some it) "properties") = true then do
        let s ← compactSchema it depth
        .ok ("[" ++ s ++ "]")
      else
        .ok (jsToString (jsOrStr (optChainProp (some it) "type") "any") ++ "[]")
    | none => .ok (jsToString (jsOrStr none "any") ++ "[]")
  else
    .ok (jsToString (jsOrStr (jsPropT schema "type") "any"))
termination_by (jm schema, 2, 0)
decreasing_by
  · have h1 : jm p < jm schema := jsPropT_jm hp
    have h2 : maxJmE (jsEntries p) < jm schema := by
      apply maxJmE_lt (jm_pos schema)
      intro kv hkv
      have := jm_jsEntries hkv
      omega
    exact Prod.Lex.left _ _ h2
  · have h2 : maxJmE (jsEntries (JVal.obj [])) < jm schema := by
      have := jm_pos schema
      simp only [jsEntries, maxJmE]
      omega
    exact Prod.Lex.left _ _ h2
  · have h2 : maxJmE (jsEntries (JVal.obj [])) < jm schema := by
      have := jm_pos schema
      simp only [jsEntries, maxJmE]
      omega
    exact Prod.Lex.left _ _ h2
  · have h1 : jm it < jm schema := jsPropT_jm hit
    exact Prod.Lex.left _ _ h1

/-- `variants.map((v) => compactSchema(v, depth))` of the union branch. -/
def compactVariants (vs : List JVal) (depth : Nat) : Except Unit (List String) :=
  match vs with
  | [] => .ok []
  | v :: rest => do
    let s ← compactSchema v depth
    let more ← compactVariants rest depth
    .ok (s :: more)
termination_by (maxJmL vs, 9, vs.length)
decreasing_by
  · have h1 : jm x ≤ maxJmL (x :: xs) := by simp only [maxJmL]; omega
    rcases Nat.lt_or_ge (jm x) (maxJmL (x :: xs)) with h | h
    · exact Prod.Lex.left _ _ h
    · have he : maxJmL (x :: xs) = jm x := Nat.le_antisymm h h1
      rw [he]
      exact Prod.Lex.right _ (Prod.Lex.left _ _ (by omega))
  · have h1 : maxJmL xs ≤ maxJmL (x :: xs) := by simp only [maxJmL]; omega
    rcases Nat.lt_or_ge (maxJmL xs) (maxJmL (x :: xs)) with h | h
    · exact Prod.Lex.left _ _ h
    · have he : maxJmL (x :: xs) = maxJmL xs := Nat.le_antisymm h h1
      rw [he]
      exact Prod.Lex.right _ (Prod.Lex.right _
        (by simp only [List.length_cons]; omega))

/-- The `for (const [key, value] of Object.entries(props))` loop body:
each entry contributes one part.  A `null` property value makes
`value.type` throw.  The source's local bindings `req`, `type` and
`typeStr` are inlined at their use sites. -/
def compactProps (l : List (String × JVal)) (required : List JVal)
    (depth : Nat) : Except Unit (List String) :=
  match l with
  | [] => .ok []
  | (key, value) :: rest =>
    if value = JVal.null then .error ()
    else if objShaped value = true then do
      let s ← compactSchema value (depth + 1)
      let more ← compactProps rest required depth
      .ok ((key ++ (if JVal.str key ∈ required then "*" else "") ++ ":" ++ s)
        :: more)
    else if jsPropT value "type" = some (JVal.str "array") then
      match hit : jsPropT value "items" with
      | some it =>
        if optTruthy (optChainProp (some it) "properties") = true then do
          let s ← compactSchema it (depth + 1)
          let more ← compactProps rest required depth
          .ok ((key ++ (if JVal.str key ∈ required then "*" else "") ++
            ":[" ++ s ++ "]") :: more)
        else do
          let more ← compactProps rest required depth
          .ok ((key ++ (if JVal.str key ∈ required then "*" else "") ++ ":" ++
            jsToString (jsOrStr (optChainProp (some it) "type") "any") ++
            "[]") :: more)
      | none => do
          let more ← compactProps rest required depth
          .ok ((key ++ (if JVal.str key ∈ required then "*" else "") ++ ":" ++
            jsToString (jsOrStr none "any") ++ "[]") :: more)
    else do
      let more ← compactProps rest required depth
      .ok ((key ++ (if JVal.str key ∈ required then "*" else "") ++
        (if jsOrStr (jsPropT value "type") "string" = JVal.str "string" then ""
         else ":" ++ jsToString (jsOrStr (jsPropT value "type") "string")))
        :: more)
termination_by (maxJmE l, 9, l.length)
decreasing_by
  · have h1 : jm value ≤ maxJmE ((key, value) :: rest) := by
      simp only [maxJmE]; omega
    rcases Nat.lt_or_ge (jm value) (maxJmE ((key, value) :: rest)) with h | h
    · exact Prod.Lex.left _ _ h
    · have he : maxJmE ((key, value) :: rest) = jm value := Nat.le_antisymm h h1
      rw [he]
      exact Prod.Lex.right _ (Prod.Lex.left _ _ (by omega))
  · have h1 : maxJmE rest ≤ maxJmE ((key, value) :: rest) := by
      simp only [maxJmE]; omega
    rcases Nat.lt_or_ge (maxJmE rest) (maxJmE ((key, value) :: rest)) with h | h
    · exact Prod.Lex.left _ _ h
    · have he : maxJmE ((key, value) :: rest) = maxJmE rest := Nat.le_antisymm h h1
      rw [he]
      exact Prod.Lex.right _ (Prod.Lex.right _
        (by simp only [List.length_cons]; omega))
  · have h1 : jm it < jm value := jsPropT_jm hit
    have h2 : jm value ≤ maxJmE ((key, value) :: rest) := by
      simp only [maxJmE]; omega
    exact Prod.Lex.left _ _ (by omega)
  · have h1 : maxJmE rest ≤ maxJmE ((key, value) :: rest) := by
      simp only [maxJmE]; omega
    rcases Nat.lt_or_ge (maxJmE rest) (maxJmE ((key, value) :: rest)) with h | h
    · exact Prod.Lex.left _ _ h
    · have he : maxJmE ((key, value) :: rest) = maxJmE rest := Nat.le_antisymm h h1
      rw [he]
      exact Prod.Lex.right _ (Prod.Lex.right _
        (by simp only [List.length_cons]; omega))
  · have h1 : maxJmE rest ≤ maxJmE ((key, value) :: rest) := by
      simp only [maxJmE]; omega
    rcases Nat.lt_or_ge (maxJmE rest) (maxJmE ((key, value) :: rest)) with h | h
    · exact Prod.Lex.left _ _ h
    · have he : maxJmE ((key, value) :: rest) = maxJmE rest := Nat.le_antisymm h h1
      rw [he]
      exact Prod.Lex.right _ (Prod.Lex.right _
        (by simp only [List.length_cons]; omega))
  · have h1 : maxJmE rest ≤ maxJmE ((key, value) :: rest) := by
      simp only [maxJmE]; omega
    rcases Nat.lt_or_ge (maxJmE rest) (maxJmE ((key, value) :: rest)) with h | h
    · exact Prod.Lex.left _ _ h
    · have he : maxJmE ((key, value) :: rest) = maxJmE rest := Nat.le_antisymm h h1
      rw [he]
      exact Prod.Lex.right _ (Prod.Lex.right _
        (by simp only [List.length_cons]; omega))
  · have h1 : maxJmE rest ≤ maxJmE ((key, value) :: rest) := by
      simp only [maxJmE]; omega
    rcases Nat.lt_or_ge (maxJmE rest) (maxJmE ((key, value) :: rest)) with h | h
    · exact Prod.Lex.left _ _ h
    · have he : maxJmE ((key, value) :: rest) = maxJmE rest := Nat.le_antisymm h h1
      rw [he]
      exact Prod.Lex.right _ (Prod.Lex.right _
        (by simp only [List.length_cons]; omega))

end

/-- Spec-side rendering of a scalar property (§4.5): the name, a `*` when
the name is in the required set, and a `:type` suffix only when the type
(defaulting to `string`) is not `string`. -/
def specScalarRender (reqs : List JVal) (key : String) (v : JVal) : String :=
  key ++ (if JVal.str key ∈ reqs then "*" else "") ++
    (if jsOrStr (jsPropT v "type") "string" = JVal.str "string" then ""
     else ":" ++ jsToString (jsOrStr (jsPropT v "type") "string"))

theorem compactSchema_nonUnion {s : JVal} {depth : Nat}
    (ht : jsTruthy s = true) (hd : depth ≤ 3)
    (hu : optTruthy (jsOrProp (jsPropT s "oneOf") (jsPropT s "anyOf")) = false) :
    compactSchema s depth = compactNonUnion s depth := by
  have hcond : ¬(jsTruthy s = false ∨ depth > 3) := by
    rintro (h | h)
    · rw [ht] at h
      cases h
    · omega
  rw [compactSchema]
  rw [if_neg hcond]
  split
  · rename_i variants hv
    rw [hv, optTruthy] at hu
    rw [if_neg (by rw [hu]; exact Bool.false_ne_true)]
  · rfl

theorem compactNonUnion_object {s : JVal} {ps : List (String × JVal)}
    {reqs : List JVal} {depth : Nat}
    (hobj : objShaped s = true)
    (hp : jsPropT s "properties" = some (JVal.obj ps))
    (hr : jsPropT s "required" = some (JVal.arr reqs)) :
    compactNonUnion s depth = (do
      let parts ← compactProps ps reqs depth
      Except.ok ("\x7b" ++ String.intercalate ", " parts ++ "\x7d")) := by
  rw [compactNonUnion]
  rw [if_pos hobj]
  split
  · rename_i p hp2
    rw [hp] at hp2
    injection hp2 with hp3
    subst hp3
    rw [hr]
    rfl
  · rename_i hp2
    rw [hp] at hp2
    cases hp2

theorem compactProps_scalar {reqs : List JVal} {depth : Nat}
    (ps : List (String × JVal))
    (h : ∀ kv ∈ ps, kv.2 ≠ JVal.null ∧ objShaped kv.2 = false ∧
      jsPropT kv.2 "type" ≠ some (JVal.str "array")) :
    compactProps ps reqs depth =
      .ok (ps.map (fun kv => specScalarRender reqs kv.1 kv.2)) := by
  induction ps with
  | nil => rw [compactProps]; rfl
  | cons kv rest ih =>
    obtain ⟨key, value⟩ := kv
    have hh := h (key, value) (List.mem_cons_self _ _)
    rw [compactProps]
    rw [if_neg hh.1]
    rw [if_neg (by rw [hh.2.1]; exact Bool.false_ne_true)]
    rw [if_neg hh.2.2]
    rw [ih (fun kv2 hkv => h kv2 (List.mem_cons_of_mem _ hkv))]
    rfl

/-- The object schema of the C5 example:
`\x7btype:"object", required:["email","password"],
properties:\x7bemail:\x7btype:"string"\x7d, password:\x7btype:"string"\x7d,
role:\x7btype:"boolean"\x7d\x7d\x7d`. -/
def exC5 : JVal :=
  .obj [("type", .str "object"),
        ("required", .arr [.str "email", .str "password"]),
        ("properties", .obj
          [("email", .obj [("type", .str "string")]),
           ("password", .obj [("type", .str "string")]),
           ("role", .obj [("type", .str "boolean")])])]

/-- C5: `compactSchema` renders an object schema (no union, object-shaped,
with declared properties and a required array, all property values scalar)
by listing each declared property in iteration order, starring names in
the required set, suffixing `:type` only for non-`string` scalar types,
joining with `", "`, and wrapping in braces; instantiated at the spec's
example it yields `"\x7bemail*, password*, role:boolean\x7d"`. -/
theorem compactSchema_object_scalar (s : JVal) (depth : Nat)
    (ps : List (String × JVal)) (reqs : List JVal)
    (hd : depth ≤ 3)
    (hu : optTruthy (jsOrProp (jsPropT s "oneOf") (jsPropT s "anyOf")) = false)
    (hobj : objShaped s = true)
    (hp : jsPropT s "properties" = some (JVal.obj ps))
    (hr : jsPropT s "required" = some (JVal.arr reqs))
    (hscal : ∀ kv ∈ ps, kv.2 ≠ JVal.null ∧ objShaped kv.2 = false ∧
      jsPropT kv.2 "type" ≠ some (JVal.str "array")) :
    compactSchema s depth =
      .ok ("\x7b" ++ String.intercalate ", "
        (ps.map (fun kv => specScalarRender reqs kv.1 kv.2)) ++ "\x7d") := by
  have ht : jsTruthy s = true := by
    obtain ⟨kvs, rfl⟩ := jsPropT_some_obj hp
    rfl
  rw [compactSchema_nonUnion ht hd hu]
  rw [compactNonUnion_object hobj hp hr]
  rw [compactProps_scalar ps hscal]
  rfl

/-- C5 witness: the example schema of the spec renders to exactly
`"\x7bemail*, password*, role:boolean\x7d"`. -/
theorem compactSchema_object_scalar_witness :
    compactSchema exC5 0 = .ok "\x7bemail*, password*, role:boolean\x7d" := by
  have h := compactSchema_object_scalar exC5 0
    [("email", JVal.obj [("type", JVal.str "string")]),
     ("password", JVal.obj [("type", JVal.str "string")]),
     ("role", JVal.obj [("type", JVal.str "boolean")])]
    [JVal.str "email", JVal.str "password"]
    (by decide) (by decide) (by decide) (by decide) (by decide) (by decide)
  rw [h]
  rfl

/-- JS `v || dflt` over a possibly-undefined property read, with an
arbitrary default value. -/
def jsOrVal (o : Option JVal) (dflt : JVal) : JVal :=
  match o with
  | some v => if jsTruthy v then v else dflt
  | none => dflt

/-- `HTTP_METHODS = ['get', 'post', 'put', 'patch', 'delete']`. -/
def httpMethods : List String := ["get", "post", "put", "patch", "delete"]

/-- `for (const x of v)`: arrays iterate their elements, strings their
characters; any other value is not iterable and throws (only truthy
non-iterables reach this position in the embedded code). -/
def forOfElems : JVal → Except Unit (List JVal)
  | .arr xs => .ok xs
  | .str s => .ok (s.data.map (fun c => .str (String.singleton c)))
  | _ => .error ()

/-- The `EndpointInfo` record built by `groupPathsByTag` for one
operation. -/
structure EndpointInfo where
  method : String
  path : String
  summary : JVal
  description : JVal
  security : Option JVal
  parameters : JVal
  body : JVal
  responses : JVal
deriving DecidableEq

/-- The object literal pushed into `groups[tag]` (utils.ts lines 34–46):
`summary`/`description` default to `''`, `parameters` to `[]`,
`responses` to `\x7b\x7d`; `body` is the json-schema / multipart-schema /
`null` fallback chain of optional property accesses. -/
def mkEndpoint (method path : String) (operation : JVal) : EndpointInfo :=
  { method := method
    path := path
    summary := jsOrVal (jsPropT operation "summary") (JVal.str "")
    description := jsOrVal (jsPropT operation "description") (JVal.str "")
    security := jsPropT operation "security"
    parameters := jsOrVal (jsPropT operation "parameters") (JVal.arr [])
    body :=
      jsOrVal
        (optChainProp
          (optChainProp
            (optChainProp (jsPropT operation "requestBody") "content")
            "application/json") "schema")
        (jsOrVal
          (optChainProp
            (optChainProp
              (optChainProp (jsPropT operation "requestBody") "content")
              "multipart/form-data") "schema")
          JVal.null)
    responses := jsOrVal (jsPropT operation "responses") (JVal.obj []) }

/-- `if (!groups[tag]) groups[tag] = []; groups[tag].push(e)` on an
insertion-ordered record: the first entry with the key is extended,
otherwise a new group is appended. -/
def pushGroup (groups : List (String × List EndpointInfo)) (key : String)
    (e : EndpointInfo) : List (String × List EndpointInfo) :=
  match groups with
  | [] => [(key, [e])]
  | (k, es) :: rest =>
    if k = key then (k, es ++ [e]) :: rest
    else (k, es) :: pushGroup rest key e

/-- The inner `for (const [method, operation] of Object.entries(pathItem))`
loop: non-HTTP-method keys are skipped; `operation.tags` throws on a null
operation; the effective tag list `operation.tags || ['Other']` is
iterated with `for…of` and each tag (coerced to a property key) receives
the endpoint record. -/
def procOps (path : String) (ops : List (String × JVal))
    (groups : List (String × List EndpointInfo)) :
    Except Unit (List (String × List EndpointInfo)) :=
  match ops with
  | [] => .ok groups
  | (method, operation) :: rest =>
    if method ∈ httpMethods then
      if operation = JVal.null then .error ()
      else do
        let ts ← forOfElems
          (jsOrVal (jsPropT operation "tags") (JVal.arr [JVal.str "Other"]))
        procOps path rest
          (ts.foldl
            (fun g tag => pushGroup g (jsToString tag)
              (mkEndpoint method path operation)) groups)
    else procOps path rest groups

/-- The outer `for (const [path, pathItem] of Object.entries(spec.paths ||
\x7b\x7d))` loop; `Object.entries` throws on a null path item. -/
def procPaths (entries : List (String × JVal))
    (groups : List (String × List EndpointInfo)) :
    Except Unit (List (String × List EndpointInfo)) :=
  match entries with
  | [] => .ok groups
  | (path, pathItem) :: rest =>
    if pathItem = JVal.null then .error ()
    else do
      let g2 ← procOps path (jsEntries pathItem) groups
      procPaths rest g2

/-- `groupPathsByTag` from utils.ts: `spec.paths` throws on a null spec;
otherwise the paths record (defaulting to `\x7b\x7d`) is traversed in
entry order. -/
def groupPathsByTag (spec : JVal) :
    Except Unit (List (String × List EndpointInfo)) :=
  if spec = JVal.null then .error ()
  else procPaths (jsEntries (jsOrVal (jsPropT spec "paths") (JVal.obj []))) []

/-- `groups[k]`, defaulting to the empty list. -/
def groupGet (groups : List (String × List EndpointInfo)) (k : String) :
    List EndpointInfo :=
  match groups with
  | [] => []
  | (k2, es) :: rest => if k2 = k then es else groupGet rest k

/-- The endpoints one operation contributes to group `k`: one copy of its
record per occurrence of `k` in its effective tag list. -/
def opContrib (k path method : String) (op : JVal) : List EndpointInfo :=
  match forOfElems (jsOrVal (jsPropT op "tags") (JVal.arr [JVal.str "Other"])) with
  | .ok ts =>
    ((ts.map jsToString).filter (fun t => t = k)).map
      (fun _ => mkEndpoint method path op)
  | .error _ => []

/-- The endpoints one path item contributes to group `k`, in method entry
order. -/
def pathContrib (k path : String) (item : JVal) : List EndpointInfo :=
  (jsEntries item).flatMap
    (fun mv => if mv.1 ∈ httpMethods then opContrib k path mv.1 mv.2 else [])

/-- The endpoints a whole spec contributes to group `k`, in path/method
traversal order. -/
def specContrib (k : String) (spec : JVal) : List EndpointInfo :=
  (jsEntries (jsOrVal (jsPropT spec "paths") (JVal.obj []))).flatMap
    (fun pi => pathContrib k pi.1 pi.2)

theorem groupGet_pushGroup (g : List (String × List EndpointInfo))
    (key : String) (e : EndpointInfo) (k : String) :
    groupGet (pushGroup g key e) k =
      if key = k then groupGet g k ++ [e] else groupGet g k := by
  induction g with
  | nil =>
    simp only [pushGroup, groupGet]
    by_cases h : key = k
    · rw [if_pos h, if_pos h]
      rfl
    · rw [if_neg h, if_neg h]
  | cons kv rest ih =>
    obtain ⟨k2, es⟩ := kv
    rw [pushGroup]
    by_cases h1 : k2 = key
    · rw [if_pos h1, groupGet, groupGet]
      by_cases h2 : k2 = k
      · rw [if_pos h2, if_pos h2, if_pos (h1 ▸ h2)]
      · rw [if_neg h2, if_neg h2, if_neg (h1 ▸ h2)]
    · rw [if_neg h1, groupGet, groupGet]
      by_cases h2 : k2 = k
      · have hkk : ¬ key = k := fun h => h1 (h2.trans h.symm)
        rw [if_pos h2, if_pos h2, if_neg hkk]
      · rw [if_neg h2, if_neg h2, ih]

theorem groupGet_foldl_push (ts : List JVal)
    (g : List (String × List EndpointInfo)) (e : EndpointInfo) (k : String) :
    groupGet (ts.foldl (fun g2 tag => pushGroup g2 (jsToString tag) e) g) k =
      groupGet g k ++
        ((ts.map jsToString).filter (fun t => t = k)).map (fun _ => e) := by
  induction ts generalizing g with
  | nil => simp
  | cons t rest ih =>
    rw [List.foldl_cons, ih, groupGet_pushGroup]
    by_cases h : jsToString t = k
    · rw [if_pos h]
      simp [h, List.filter_cons]
    · rw [if_neg h]
      simp [h, List.filter_cons]

/-- The per-operation loop only ever appends: on success the final record
holds, for every key, the incoming group list followed by this operation
list's contributions in order. -/
theorem procOps_get {path : String} {ops : List (String × JVal)}
    {groups g' : List (String × List EndpointInfo)}
    (h : procOps path ops groups = .ok g') (k : String) :
    groupGet g' k = groupGet groups k ++
      ops.flatMap
        (fun mv => if mv.1 ∈ httpMethods then opContrib k path mv.1 mv.2
          else []) := by
  induction ops generalizing groups with
  | nil =>
    rw [procOps] at h
    injection h with h2
    subst h2
    simp
  | cons mv rest ih =>
    obtain ⟨method, op⟩ := mv
    rw [procOps] at h
    by_cases hm : method ∈ httpMethods
    · rw [if_pos hm] at h
      by_cases hnull : op = JVal.null
      · rw [if_pos hnull] at h
        cases h
      · rw [if_neg hnull] at h
        rcases hf : forOfElems
            (jsOrVal (jsPropT op "tags") (JVal.arr [JVal.str "Other"])) with
          e | ts
        · rw [hf] at h
          cases h
        · rw [hf] at h
          have h2 : procOps path rest
              (ts.foldl
                (fun g tag => pushGroup g (jsToString tag)
                  (mkEndpoint method path op)) groups) = .ok g' := h
          rw [ih h2]
          rw [groupGet_foldl_push]
          simp only [List.flatMap_cons, if_pos hm, opContrib, hf,
            List.append_assoc]
    · rw [if_neg hm] at h
      rw [ih h]
      simp only [List.flatMap_cons, if_neg hm, List.nil_append]

/-- The per-path loop on success: the final record holds, per key, the
incoming groups followed by the contributions of the remaining path
entries in order. -/
theorem procPaths_get {entries : List (String × JVal)}
    {groups g' : List (String × List EndpointInfo)}
    (h : procPaths entries groups = .ok g') (k : String) :
    groupGet g' k = groupGet groups k ++
      entries.flatMap (fun pi => pathContrib k pi.1 pi.2) := by
  induction entries generalizing groups with
  | nil =>
    rw [procPaths] at h
    injection h with h2
    subst h2
    simp
  | cons pi rest ih =>
    obtain ⟨path, item⟩ := pi
    rw [procPaths] at h
    by_cases hnull : item = JVal.null
    · rw [if_pos hnull] at h
      cases h
    · rw [if_neg hnull] at h
      rcases ho : procOps path (jsEntries item) groups with e | g2
      · rw [ho] at h
        cases h
      · rw [ho] at h
        have h2 : procPaths rest g2 = .ok g' := h
        rw [ih h2, procOps_get ho k]
        simp only [List.flatMap_cons, pathContrib, List.append_assoc]

/-- On success, each group's endpoint list is exactly the spec's
traversal-order contribution for that key. -/
theorem groupPathsByTag_get {spec : JVal}
    {groups : List (String × List EndpointInfo)}
    (h : groupPathsByTag spec = .ok groups) (k : String) :
    groupGet groups k = specContrib k spec := by
  rw [groupPathsByTag] at h
  by_cases hnull : spec = JVal.null
  · rw [if_pos hnull] at h
    cases h
  · rw [if_neg hnull] at h
    rw [specContrib]
    have h2 := procPaths_get h k
    rw [groupGet] at h2
    simpa using h2

/-- C9: in `groupPathsByTag`, an operation with no `tags` field is
assigned to the synthetic tag `"Other"`: the `"Other"` group's list is the
path/method traversal-order contribution of the spec, and an untagged
operation's contribution to `"Other"` is exactly one copy of its endpoint
record. -/
theorem groupPathsByTag_untagged_Other (spec : JVal)
    (groups : List (String × List EndpointInfo))
    (h : groupPathsByTag spec = .ok groups) :
    groupGet groups "Other" = specContrib "Other" spec ∧
    ∀ (path method : String) (op : JVal), jsPropT op "tags" = none →
      opContrib "Other" path method op = [mkEndpoint method path op] := by
  refine ⟨groupPathsByTag_get h "Other", ?_⟩
  intro path method op htags
  rw [opContrib, htags]
  rfl

/-- A one-endpoint spec whose single operation has no `tags` field. -/
def exC9 : JVal :=
  .obj [("paths", .obj [("/a", .obj [("get",
    .obj [("summary", .str "S")])])])]

/-- C9 witness: grouping the untagged example spec yields exactly one
group, `"Other"`, holding the one endpoint record. -/
theorem groupPathsByTag_untagged_Other_witness :
    groupPathsByTag exC9 =
      .ok [("Other",
        [mkEndpoint "get" "/a" (JVal.obj [("summary", JVal.str "S")])])] ∧
    groupGet [("Other",
        [mkEndpoint "get" "/a" (JVal.obj [("summary", JVal.str "S")])])]
      "Other" = specContrib "Other" exC9 ∧
    opContrib "Other" "/a" "get" (JVal.obj [("summary", JVal.str "S")]) =
      [mkEndpoint "get" "/a" (JVal.obj [("summary", JVal.str "S")])] := by
  have hrun : groupPathsByTag exC9 =
      .ok [("Other",
        [mkEndpoint "get" "/a" (JVal.obj [("summary", JVal.str "S")])])] := by
    decide
  have h := groupPathsByTag_untagged_Other exC9
    [("Other",
      [mkEndpoint "get" "/a" (JVal.obj [("summary", JVal.str "S")])])] hrun
  exact ⟨hrun, h.1,
    h.2 "/a" "get" (JVal.obj [("summary", JVal.str "S")]) (by decide)⟩

/-- C10 counterexample: the original claim restricts the `"Other"`
fallback to an absent/undefined `tags` field, but `operation.tags ||
['Other']` falls back on every falsy value: an operation whose `tags`
field is present and holds `null` is assigned to `"Other"` all the
same. -/
theorem tags_null_fallback_counterexample :
    jsPropT (JVal.obj [("tags", JVal.null)]) "tags" = some JVal.null ∧
    opContrib "Other" "/a" "get" (JVal.obj [("tags", JVal.null)]) =
      [mkEndpoint "get" "/a" (JVal.obj [("tags", JVal.null)])] ∧
    groupPathsByTag
        (JVal.obj [("paths", JVal.obj [("/a", JVal.obj
          [("get", JVal.obj [("tags", JVal.null)])])])]) =
      .ok [("Other",
        [mkEndpoint "get" "/a" (JVal.obj [("tags", JVal.null)])])] := by
  decide

/-- C10 (amended): an operation whose `tags` field is present but an empty
array is assigned to no group at all - `[] || ['Other']` keeps the truthy
empty array, so the operation contributes nothing to any key - but the
`"Other"` fallback is triggered by every falsy `tags` value (absent or
undefined, `null`, `false`, `0`, `""`), not only by an absent field: each
such operation contributes exactly one record to `"Other"`. -/
theorem groupPathsByTag_emptyTags_vs_falsy (spec : JVal)
    (groups : List (String × List EndpointInfo))
    (h : groupPathsByTag spec = .ok groups) :
    (∀ k, groupGet groups k = specContrib k spec) ∧
    (∀ (k path method : String) (op : JVal),
      jsPropT op "tags" = some (JVal.arr []) →
      opContrib k path method op = []) ∧
    ∀ (path method : String) (op : JVal),
      (∀ v, jsPropT op "tags" = some v → jsTruthy v = false) →
      opContrib "Other" path method op = [mkEndpoint method path op] := by
  refine ⟨fun k => groupPathsByTag_get h k, ?_, ?_⟩
  · intro k path method op htags
    rw [opContrib, htags]
    rfl
  · intro path method op hfal
    rcases hq : jsPropT op "tags" with _ | v
    · rw [opContrib, hq]
      rfl
    · have hv := hfal v hq
      rw [opContrib, hq]
      simp only [jsOrVal, hv, Bool.false_eq_true, if_false]
      rfl

/-- A spec with one explicitly empty-tagged operation and one
`tags: null` operation. -/
def exC10 : JVal :=
  .obj [("paths", .obj [("/a", .obj
    [("get", .obj [("tags", .arr [])]),
     ("post", .obj [("tags", JVal.null)])])])]

/-- C10 witness: grouping the example spec drops the empty-tagged `get`
from every group and sends the present-but-`null`-tagged `post` to
`"Other"`. -/
theorem groupPathsByTag_emptyTags_vs_falsy_witness :
    groupPathsByTag exC10 =
      .ok [("Other",
        [mkEndpoint "post" "/a" (JVal.obj [("tags", JVal.null)])])] ∧
    opContrib "Other" "/a" "get" (JVal.obj [("tags", JVal.arr [])]) = [] ∧
    opContrib "Other" "/a" "post" (JVal.obj [("tags", JVal.null)]) =
      [mkEndpoint "post" "/a" (JVal.obj [("tags", JVal.null)])] := by
  have hrun : groupPathsByTag exC10 =
      .ok [("Other",
        [mkEndpoint "post" "/a" (JVal.obj [("tags", JVal.null)])])] := by
    decide
  have h := groupPathsByTag_emptyTags_vs_falsy exC10
    [("Other", [mkEndpoint "post" "/a" (JVal.obj [("tags", JVal.null)])])]
    hrun
  refine ⟨hrun,
    h.2.1 "Other" "/a" "get" (JVal.obj [("tags", JVal.arr [])]) (by decide),
    h.2.2 "/a" "post" (JVal.obj [("tags", JVal.null)]) (fun v hv => ?_)⟩
  have hv2 : some JVal.null = some v := hv
  cases hv2
  decide

/-- Char-level prefix test (`listStarts p s` is true when `p` is a prefix
of `s`). -/
def listStarts : List Char → List Char → Bool
  | [], _ => true
  | _ :: _, [] => false
  | c :: cs, d :: ds => c = d && listStarts cs ds

/-- `strStarts p s`: the string `s` starts with `p`. -/
def strStarts (p s : String) : Bool := listStarts p.data s.data

theorem listStarts_append (p r : List Char) : listStarts p (p ++ r) = true := by
  induction p with
  | nil => rfl
  | cons c cs ih => simp [listStarts, ih]

theorem strStarts_append (p r : String) : strStarts p (p ++ r) = true := by
  rw [strStarts, String.data_append]
  exact listStarts_append p.data r.data

/-- JS bracket access `v[k]`: object key lookup; on arrays `length` and
canonical numeric indices; on strings `length` and single characters;
`undefined` otherwise. -/
def jsIdx (v : JVal) (k : String) : Option JVal :=
  match v with
  | .obj kvs => jsLookup kvs k
  | .arr xs =>
    if k = "length" then some (.num xs.length)
    else
      match canonIndex k with
      | some i => xs.get? i
      | none => none
  | .str s =>
    if k = "length" then some (.num s.length)
    else
      match canonIndex k with
      | some i => (s.data.get? i).map (fun c => .str (String.singleton c))
      | none => none
  | _ => none

/-- `security.some((s) => s[k] !== undefined)`: short-circuits at the
first hit, throws on a null element it reaches. -/
def someHasProp : List JVal → String → Except Unit Bool
  | [], _ => .ok false
  | s :: rest, k =>
    if s = JVal.null then .error ()
    else if (jsPropT s k).isSome then .ok true
    else someHasProp rest k

/-- `formatSecurityCompact` from compact-schema.ts: `NONE` for a missing,
falsy or empty security list; otherwise JWT / KEY / JWT|KEY / AUTH from
which scheme names occur.  A truthy non-array throws in `.some`. -/
def formatSecurityCompact (security : Option JVal) : Except Unit String :=
  match security with
  | none => .ok "NONE"
  | some v =>
    if jsTruthy v = false then .ok "NONE"
    else
      match v with
      | .arr ss =>
        if ss.length = 0 then .ok "NONE"
        else do
          let hasJwt ← someHasProp ss "bearerAuth"
          let hasKey ← someHasProp ss "apiKeyAuth"
          if hasJwt && hasKey then .ok "JWT|KEY"
          else if hasJwt then .ok "JWT"
          else if hasKey then .ok "KEY"
          else .ok "AUTH"
      | _ => .error ()

/-- The filter body of `extractParamsByLocation`. -/
def filterParamsIn : List JVal → String → Except Unit (List JVal)
  | [], _ => .ok []
  | p :: rest, loc =>
    if p = JVal.null then .error ()
    else do
      let tail ← filterParamsIn rest loc
      if jsPropT p "in" = some (.str loc) then .ok (p :: tail) else .ok tail

/-- `extractParamsByLocation`: `parameters.filter((p) => p.in ===
location)`; `.filter` throws on a non-array, `p.in` on a null element. -/
def extractParamsByLocation (params : JVal) (location : String) :
    Except Unit (List JVal) :=
  match params with
  | .arr ps => filterParamsIn ps location
  | _ => .error ()

/-- One path parameter in the `Path:` line: `:name`, then
` (description)` when the description is truthy. -/
def renderPathParam (p : JVal) : String :=
  ":" ++ jsToStringU (jsPropT p "name") ++
    (match jsPropT p "description" with
     | some d => if jsTruthy d then " (" ++ jsToString d ++ ")" else ""
     | none => "")

/-- `formatQueryCompact` from compact-schema.ts: `?name*:type` per
parameter, string type implicit, joined with spaces. -/
def formatQueryCompact (params : List JVal) : String :=
  String.intercalate " " (params.map (fun p =>
    "?" ++ jsToStringU (jsPropT p "name") ++
    (if optTruthy (jsPropT p "required") then "*" else "") ++
    (if jsOrStr (optChainProp (jsPropT p "schema") "type") "string" =
        JVal.str "string" then ""
     else ":" ++
       jsToString (jsOrStr (optChainProp (jsPropT p "schema") "type")
         "string"))))

/-- The `Path:` line, present only when some path parameters exist. -/
def pathLinesOf (pathParams : List JVal) : List String :=
  if pathParams.length > 0 then
    ["Path: " ++ String.intercalate " " (pathParams.map renderPathParam)]
  else []

/-- The `Query:` line, present only when some query parameters exist. -/
def queryLinesOf (queryParams : List JVal) : List String :=
  if queryParams.length > 0 then
    ["Query: " ++ formatQueryCompact queryParams]
  else []

/-- Lines 94–102 of the compact generator: `ep.responses['200']` — the
literal `'200'` key only — and, when that response is truthy and its
schema (content-negotiated or the response itself) has a truthy `type` or
`properties`, a single rendered `200:` line. -/
def respLine (responses : JVal) : Except Unit (List String) :=
  if responses = JVal.null then .error ()
  else
    match jsIdx responses "200" with
    | some res200 =>
      if jsTruthy res200 = true then
        if optTruthy (jsPropT
            (jsOrVal
              (optChainProp (optChainProp (jsPropT res200 "content")
                "application/json") "schema") res200) "type") ||
           optTruthy (jsPropT
            (jsOrVal
              (optChainProp (optChainProp (jsPropT res200 "content")
                "application/json") "schema") res200) "properties") then do
          let s ← compactSchema
            (jsOrVal
              (optChainProp (optChainProp (jsPropT res200 "content")
                "application/json") "schema") res200) 0
          .ok ["200: `" ++ s ++ "`"]
        else .ok []
      else .ok []
    | none => .ok []

/-- `method.toUpperCase()`, character by character (the generator only
uppercases ASCII HTTP method names). -/
def strUpper (s : String) : String := ⟨s.data.map Char.toUpper⟩

/-- The lines one endpoint contributes to the compact summary
(part_012 lines 69–105): header, optional `Path:`/`Query:`/`Body:`
lines, the optional `200:` line, and a trailing blank line. -/
def bodyLinesOf (body : JVal) : Except Unit (List String) :=
  if jsTruthy body = true then do
    let s ← compactSchema body 0
    Except.ok ["Body: `" ++ s ++ "`"]
  else Except.ok []

def endpointBlock (ep : EndpointInfo) : Except Unit (List String) := do
  let auth ← formatSecurityCompact ep.security
  let pathParams ← extractParamsByLocation ep.parameters "path"
  let queryParams ← extractParamsByLocation ep.parameters "query"
  let bodyL ← bodyLinesOf ep.body
  let resL ← respLine ep.responses
  .ok (("### " ++ strUpper ep.method ++ " " ++ ep.path ++ " - " ++
      jsToString ep.summary ++ " | " ++ auth) ::
    (pathLinesOf pathParams ++ queryLinesOf queryParams ++ bodyL ++
      resL ++ [""]))

theorem bindOkE {α β : Type} {x : Except Unit α} {f : α → Except Unit β}
    {r : β} (h : (x >>= f) = Except.ok r) :
    ∃ a, x = .ok a ∧ f a = .ok r := by
  cases x with
  | error e =>
    have h2 : (Except.error e : Except Unit β) = .ok r := h
    cases h2
  | ok a => exact ⟨a, rfl, h⟩

theorem strStarts_of_eq_append {p s t : String} (h : s = p ++ t) :
    strStarts p s = true := h ▸ strStarts_append p t

theorem pathLinesOf_cases (ps : List JVal) :
    pathLinesOf ps = [] ∨ ∃ s, pathLinesOf ps = ["Path: " ++ s] := by
  rw [pathLinesOf]
  by_cases h : ps.length > 0
  · exact Or.inr ⟨_, if_pos h⟩
  · exact Or.inl (if_neg h)

theorem queryLinesOf_cases (ps : List JVal) :
    queryLinesOf ps = [] ∨ ∃ s, queryLinesOf ps = ["Query: " ++ s] := by
  rw [queryLinesOf]
  by_cases h : ps.length > 0
  · exact Or.inr ⟨_, if_pos h⟩
  · exact Or.inl (if_neg h)

theorem respLine_cases {responses : JVal} {out : List String}
    (h : respLine responses = .ok out) :
    out = [] ∨ ∃ s, out = ["200: `" ++ s ++ "`"] := by
  rw [respLine] at h
  split at h
  · cases h
  · split at h
    · split at h
      · split at h
        · obtain ⟨s, hs1, hs2⟩ := bindOkE h
          injection hs2 with hs2
          exact Or.inr ⟨s, hs2.symm⟩
        · injection h with h2
          exact Or.inl h2.symm
      · injection h with h2
        exact Or.inl h2.symm
    · injection h with h2
      exact Or.inl h2.symm

theorem respLine_no200 {kvs : List (String × JVal)}
    (h : jsLookup kvs "200" = none) :
    respLine (JVal.obj kvs) = .ok [] := by
  rw [respLine]
  rw [if_neg (by intro hc; cases hc)]
  simp only [jsIdx, h]

/-- C6 (amended): in the compact summary an endpoint's block consists of
the `### ` header, optional `Path:`/`Query:`/`Body:` lines, the optional
response line and a blank line; only the literal `'200'` response key is
consulted, the sole response line ever produced starts with `200: `, and
when the responses object has no `'200'` entry no response line appears
at all — so lines for other status codes (400, 401, 404, and also other
2xx codes such as 201) never appear. -/
theorem endpointBlock_only_literal_200 (ep : EndpointInfo) (ls : List String)
    (h : endpointBlock ep = .ok ls) :
    ∃ auth pathParams queryParams bodyL resL,
      ls = ("### " ++ strUpper ep.method ++ " " ++ ep.path ++ " - " ++
          jsToString ep.summary ++ " | " ++ auth) ::
        (pathLinesOf pathParams ++ queryLinesOf queryParams ++ bodyL ++
          resL ++ [""]) ∧
      respLine ep.responses = .ok resL ∧
      (∀ l ∈ ls, l = "" ∨ strStarts "### " l = true ∨
        strStarts "Path: " l = true ∨ strStarts "Query: " l = true ∨
        strStarts "Body: " l = true ∨ strStarts "200: " l = true) ∧
      (resL = [] ∨ ∃ s, resL = ["200: `" ++ s ++ "`"]) ∧
      (∀ kvs, ep.responses = JVal.obj kvs → jsLookup kvs "200" = none →
        resL = []) := by
  unfold endpointBlock at h
  obtain ⟨auth, ha, h⟩ := bindOkE h
  obtain ⟨pathParams, hp, h⟩ := bindOkE h
  obtain ⟨queryParams, hq, h⟩ := bindOkE h
  obtain ⟨bodyL, hb, h⟩ := bindOkE h
  obtain ⟨resL, hr, h⟩ := bindOkE h
  injection h with h
  subst h
  have hbody : bodyL = [] ∨ ∃ s, bodyL = ["Body: `" ++ s ++ "`"] := by
    rw [bodyLinesOf] at hb
    by_cases hc : jsTruthy ep.body = true
    · rw [if_pos hc] at hb
      obtain ⟨s, hs1, hs2⟩ := bindOkE hb
      injection hs2 with hs2
      exact Or.inr ⟨s, hs2.symm⟩
    · rw [if_neg hc] at hb
      injection hb with hb
      exact Or.inl hb.symm
  refine ⟨auth, pathParams, queryParams, bodyL, resL, rfl, hr, ?_, respLine_cases hr, ?_⟩
  · intro l hl
    rcases List.mem_cons.mp hl with hl | hl
    · subst hl
      refine Or.inr (Or.inl ?_)
      apply strStarts_of_eq_append (t :=
        strUpper ep.method ++ " " ++ ep.path ++ " - " ++
          jsToString ep.summary ++ " | " ++ auth)
      simp [String.append_assoc]
    rcases List.mem_append.mp hl with hl | hl
    rotate_left
    · rcases List.mem_singleton.mp hl with rfl
      exact Or.inl rfl
    rcases List.mem_append.mp hl with hl | hl
    rotate_left
    · rcases respLine_cases hr with h2 | ⟨s, h2⟩
      · rw [h2] at hl; cases hl
      · rw [h2] at hl
        rcases List.mem_singleton.mp hl with rfl
        refine Or.inr (Or.inr (Or.inr (Or.inr (Or.inr ?_))))
        exact strStarts_of_eq_append (t := "`" ++ s ++ "`") rfl
    rcases List.mem_append.mp hl with hl | hl
    rotate_left
    · rcases hbody with h2 | ⟨s, h2⟩
      · rw [h2] at hl; cases hl
      · rw [h2] at hl
        rcases List.mem_singleton.mp hl with rfl
        refine Or.inr (Or.inr (Or.inr (Or.inr (Or.inl ?_))))
        exact strStarts_of_eq_append (t := "`" ++ s ++ "`") rfl
    rcases List.mem_append.mp hl with hl | hl
    · rcases pathLinesOf_cases pathParams with h2 | ⟨s, h2⟩
      · rw [h2] at hl; cases hl
      · rw [h2] at hl
        rcases List.mem_singleton.mp hl with rfl
        exact Or.inr (Or.inr (Or.inl (strStarts_of_eq_append rfl)))
    · rcases queryLinesOf_cases queryParams with h2 | ⟨s, h2⟩
      · rw [h2] at hl; cases hl
      · rw [h2] at hl
        rcases List.mem_singleton.mp hl with rfl
        exact Or.inr (Or.inr (Or.inr (Or.inl (strStarts_of_eq_append rfl))))
  · intro kvs hkv hnone
    rw [hkv] at hr
    rw [respLine_no200 hnone] at hr
    injection hr with hr
    exact hr.symm

/-- An endpoint whose only response is a `201` carrying a usable schema
(`type: "object"`). -/
def exC6ep : EndpointInfo :=
  mkEndpoint "get" "/a"
    (.obj [("responses", .obj [("201", .obj [("type", .str "object")])])])

/-- C6 counterexample: the `201` response is in the 200 family and
carries a usable schema, yet its endpoint block has no response line at
all — the generator reads only the literal `'200'` key, not the 200
family. -/
theorem llms_200_family_counterexample :
    endpointBlock exC6ep = .ok ["### GET /a -  | NONE", ""] ∧
    jsIdx (JVal.obj [("201", JVal.obj [("type", JVal.str "object")])])
      "201" = some (JVal.obj [("type", JVal.str "object")]) ∧
    optTruthy (jsPropT (JVal.obj [("type", JVal.str "object")]) "type") =
      true ∧
    (∀ l ∈ ["### GET /a -  | NONE", ""],
      strStarts "200: " l = false ∧ strStarts "201: " l = false) := by
  refine ⟨by decide, by decide, by decide, by decide⟩

/-- An endpoint with a summary, one path parameter and only a `404`
response. -/
def exC6w : EndpointInfo :=
  mkEndpoint "post" "/u"
    (.obj [("summary", .str "Create"),
           ("parameters",
             .arr [.obj [("in", .str "path"), ("name", .str "id")]]),
           ("responses", .obj [("404", .obj [("type", .str "object")])])])

/-- C6 witness: the `404`-only endpoint's block is the header, the
`Path:` line and a blank — every line is blank or carries one of the
five legal line heads, and no status line appears. -/
theorem endpointBlock_only_literal_200_witness :
    endpointBlock exC6w =
      .ok ["### POST /u - Create | NONE", "Path: :id", ""] ∧
    ∀ l ∈ ["### POST /u - Create | NONE", "Path: :id", ""],
      l = "" ∨ strStarts "### " l = true ∨ strStarts "Path: " l = true ∨
      strStarts "Query: " l = true ∨ strStarts "Body: " l = true ∨
      strStarts "200: " l = true := by
  have hrun : endpointBlock exC6w =
      .ok ["### POST /u - Create | NONE", "Path: :id", ""] := by decide
  have h := endpointBlock_only_literal_200 exC6w
    ["### POST /u - Create | NONE", "Path: :id", ""] hrun
  obtain ⟨a, p, q, b, r, hls, hr2, hpref, hc, hn⟩ := h
  exact ⟨hrun, hpref⟩

set_option maxRecDepth 10000

/-- The static segments of the landing-page template of part_005, in
page order: `lhS0` … `lhS15` surround the fifteen interpolations; the
remaining names hold the static parts of the card, section, row,
auth, logo, brand, prompt and powered-by sub-templates. -/
def lhS0 : String := "<!DOCTYPE html>\n<html lang=\"en\">\n<head>\n  <meta charset=\"utf-8\">\n  <meta name=\"viewport\" content=\"width=device-width, initial-scale=1\">\n  <title>"

def lhS1 : String := "</title>\n  <meta name=\"description\" content=\""

def lhS3 : String := "\n  <main>\n    <div class=\"hero\">\n      <span class=\"hero-label\">AI-First API Documentation</span>\n      <h1>"

def lhS4 : String := "</h1>\n      <p>"

def lhS5 : String := "</p>\n      "

def lhS6 : String := "\n    </div>\n\n    <div class=\"stats\">\n      <div class=\"stat\">\n        <div class=\"stat-value\">"

def lhS7 : String := "</div>\n        <div class=\"stat-label\">Endpoints</div>\n      </div>\n      <div class=\"stat\">\n        <div class=\"stat-value\">"

def lhS8 : String := "</div>\n        <div class=\"stat-label\">Categories</div>\n      </div>\n      <div class=\"stat\">\n        <div class=\"stat-value\">v"

def lhS9 : String := "</div>\n        <div class=\"stat-label\">Version</div>\n      </div>\n    </div>\n\n    <div class=\"cards\">\n      "

def lhS10 : String := "\n    </div>\n\n    <div class=\"formats\">\n      <h2>Available formats</h2>\n      <div class=\"format-links\">\n        <a href=\"/llms.txt\">/llms.txt</a>\n        <a href=\"/to-humans.md\">/to-humans.md</a>\n        <a href=\"/openapi.json\">/openapi.json</a>\n      </div>\n    </div>\n\n    <hr class=\"divider\">\n\n    <div class=\"reference\">\n      "

def lhS11 : String := "\n      "

def lhS12 : String := "\n    </div>\n  </main>\n\n  <footer>\n    <p>"

def lhS13 : String := " v"

def lhS14 : String := "</p>\n    "

def lhS15 : String := "\n  </footer>\n</body>\n</html>"

def cardS1 : String := "<div class=\"card\"><h3>"

def cardS2 : String := "</h3><p>"

def cardS3 : String := "</p><span class=\"badge\">"

def cardS4 : String := " endpoints</span></div>"

def cardSep : String := "\n      "

def secS1 : String := "\n    <section>\n      <h2>"

def secS2 : String := "</h2>\n      "

def secS3 : String := "\n      <table>\n        <thead><tr><th>Method</th><th>Path</th><th>Description</th><th>Auth</th></tr></thead>\n        <tbody>"

def rowS1 : String := "\n          <tr><td><code>"

def rowS2 : String := "</code></td><td><code>"

def rowS3 : String := "</code></td><td>"

def rowS4 : String := "</td><td>"

def rowS5 : String := "</td></tr>"

def secTail : String := "\n        </tbody>\n      </table>\n    </section>"

def authS1 : String := "\n    <section>\n      <h2>Authentication</h2>\n      <p>This API supports the following authentication methods:</p>\n      <table>\n        <thead><tr><th>Method</th><th>Header</th><th>Use case</th></tr></thead>\n        <tbody>\n          "

def authS2 : String := "\n          "

def authS3 : String := "\n        </tbody>\n      </table>\n    </section>"

def authRow1 : String := "<tr><td><strong>JWT Bearer Token</strong></td><td><code>Authorization: Bearer &lt;token&gt;</code></td><td>Admin panel access. Obtain via POST /auth/login.</td></tr>"

def authRow2 : String := "<tr><td><strong>API Key</strong></td><td><code>X-API-Key: sk_&lt;appId&gt;_&lt;hex&gt;</code></td><td>Backend-to-backend. Create via POST /api-keys.</td></tr>"

def logoS1 : String := "<svg xmlns=\"http://www.w3.org/2000/svg\" width=\""

def logoS2 : String := "\" height=\""

def logoS3 : String := "\" viewBox=\"0 0 32 32\" fill=\"none\"><defs><linearGradient id=\"sg\" x1=\"0%\" y1=\"0%\" x2=\"100%\" y2=\"100%\"><stop offset=\"0%\" style=\"stop-color:#a78bfa\"/><stop offset=\"100%\" style=\"stop-color:#818cf8\"/></linearGradient></defs><circle cx=\"16\" cy=\"16\" r=\"15\" fill=\"url(#sg)\"/><path d=\"M10 10C10 10 8.5 10 8.5 11.5L8.5 14.5C8.5 15.5 7 16 7 16 7 16 8.5 16.5 8.5 17.5L8.5 20.5C8.5 22 10 22 10 22\" stroke=\"#fff\" stroke-width=\"1.8\" stroke-linecap=\"round\" fill=\"none\"/><path d=\"M22 10C22 10 23.5 10 23.5 11.5L23.5 14.5C23.5 15.5 25 16 25 16 25 16 23.5 16.5 23.5 17.5L23.5 20.5C23.5 22 22 22 22 22\" stroke=\"#fff\" stroke-width=\"1.8\" stroke-linecap=\"round\" fill=\"none\"/><g transform=\"translate(16,16)\"><line x1=\"0\" y1=\"-3.5\" x2=\"0\" y2=\"3.5\" stroke=\"#fff\" stroke-width=\"2\" stroke-linecap=\"round\"/><line x1=\"-3\" y1=\"-1.8\" x2=\"3\" y2=\"1.8\" stroke=\"#fff\" stroke-width=\"2\" stroke-linecap=\"round\"/><line x1=\"-3\" y1=\"1.8\" x2=\"3\" y2=\"-1.8\" stroke=\"#fff\" stroke-width=\"2\" stroke-linecap=\"round\"/></g></svg>"

def brandS1 : String := "<div class=\"brand\">\n    <a href=\"https://swagent.dev\" target=\"_blank\" rel=\"noopener\">"

def brandS2 : String := " swagent</a>\n  </div>"

def promptS1 : String := "<div class=\"hero-prompt\">\n        <strong>&gt;</strong> Tell your AI agent: <span class=\"accent\">\""

def promptS2 : String := "\"</span>\n      </div>"

def powS1 : String := "<p class=\"powered-by\">Powered by <a href=\"https://swagent.dev\" target=\"_blank\" rel=\"noopener\">"

def powS2 : String := " swagent</a></p>"

def pDescA : String := "<p>"

def pDescB : String := "</p>"

/-- `listContains n h`: `n` occurs as a contiguous run somewhere in `h`. -/
def listContains (n : List Char) : List Char → Bool
  | [] => listStarts n []
  | c :: t => listStarts n (c :: t) || listContains n t

/-- Substring test on strings. -/
def containsSub (n h : String) : Bool := listContains n.data h.data

/-- `listEnds suf l`: `l` ends with `suf`. -/
def listEnds (suf : List Char) : List Char → Bool
  | [] => suf.isEmpty
  | c :: t => (decide (c :: t = suf)) || listEnds suf t

theorem listStarts_iff {n h : List Char} :
    listStarts n h = true ↔ ∃ t, h = n ++ t := by
  induction n generalizing h with
  | nil => simp [listStarts]
  | cons c cs ih =>
    cases h with
    | nil => simp [listStarts]
    | cons d t =>
      rw [listStarts]
      simp only [Bool.and_eq_true, decide_eq_true_eq, List.cons_append,
        List.cons.injEq]
      constructor
      · rintro ⟨rfl, hs⟩
        obtain ⟨t2, rfl⟩ := ih.mp hs
        exact ⟨t2, rfl, rfl⟩
      · rintro ⟨t2, rfl, rfl⟩
        exact ⟨rfl, ih.mpr ⟨t2, rfl⟩⟩

theorem listContains_iff {n h : List Char} :
    listContains n h = true ↔ ∃ pre post, h = pre ++ n ++ post := by
  induction h with
  | nil =>
    rw [listContains]
    rw [listStarts_iff]
    constructor
    · rintro ⟨t, ht⟩
      exact ⟨[], t, ht⟩
    · rintro ⟨pre, post, hp⟩
      have h2 : pre = [] ∧ n = [] ∧ post = [] := by
        have hp2 := hp.symm
        simpa [List.append_eq_nil] using hp2
      exact ⟨[], by simp [h2.2.1]⟩
  | cons c t ih =>
    rw [listContains]
    simp only [Bool.or_eq_true]
    constructor
    · rintro (hs | hc)
      · obtain ⟨t2, ht⟩ := listStarts_iff.mp hs
        exact ⟨[], t2, by simp [ht]⟩
      · obtain ⟨pre, post, hp⟩ := ih.mp hc
        exact ⟨c :: pre, post, by simp [hp]⟩
    · rintro ⟨pre, post, hp⟩
      cases pre with
      | nil =>
        refine Or.inl (listStarts_iff.mpr ⟨post, ?_⟩)
        simpa using hp
      | cons d pre2 =>
        refine Or.inr (ih.mpr ⟨pre2, post, ?_⟩)
        have h2 := hp
        simp only [List.cons_append, List.cons.injEq] at h2
        exact h2.2

theorem listEnds_iff {suf l : List Char} :
    listEnds suf l = true ↔ ∃ pre, l = pre ++ suf := by
  induction l with
  | nil =>
    rw [listEnds]
    constructor
    · intro h
      have hs : suf = [] := by
        cases suf with
        | nil => rfl
        | cons a b => simp [List.isEmpty] at h
      exact ⟨[], by simp [hs]⟩
    · rintro ⟨pre, hp⟩
      have h2 : suf = [] := by
        have hp2 := hp.symm
        simp [List.append_eq_nil] at hp2
        exact hp2.2
      simp [h2, List.isEmpty]
  | cons c t ih =>
    rw [listEnds]
    simp only [Bool.or_eq_true, decide_eq_true_eq]
    constructor
    · rintro (h | h)
      · exact ⟨[], by simp [h]⟩
      · obtain ⟨pre, rfl⟩ := ih.mp h
        exact ⟨c :: pre, rfl⟩
    · rintro ⟨pre, hp⟩
      cases pre with
      | nil => exact Or.inl (by simpa using hp)
      | cons d pre2 =>
        refine Or.inr (ih.mpr ⟨pre2, ?_⟩)
        have h2 := hp
        simp only [List.cons_append, List.cons.injEq] at h2
        exact h2.2

/-- One character of `escapeHtml`.  The source chains four global
replaces (`&`→`&amp;`, `<`→`&lt;`, `>`→`&gt;`, `"`→`&quot;`); because no
replacement text contains a character replaced by a later pass, the chain
acts independently on each input character, which is what this per-character
map expresses. -/
def escapeHtmlChar (c : Char) : List Char :=
  if c = '&' then "&amp;".data
  else if c = '<' then "&lt;".data
  else if c = '>' then "&gt;".data
  else if c = '"' then "&quot;".data
  else [c]

/-- `escapeHtml` from utils.ts. -/
def escapeHtml (s : String) : String := ⟨s.data.flatMap escapeHtmlChar⟩

/-- `escapeHtml` applied to an arbitrary value: `.replace` throws unless
the value is a string. -/
def escapeHtmlE : JVal → Except Unit String
  | .str s => .ok (escapeHtml s)
  | _ => .error ()

/-- `escapeHtml` applied to a possibly-undefined value. -/
def escapeHtmlOE : Option JVal → Except Unit String
  | some v => escapeHtmlE v
  | none => .error ()

theorem escapeHtmlChar_no_gt (c : Char) : '>' ∉ escapeHtmlChar c := by
  rw [escapeHtmlChar]
  split_ifs with h1 h2 h3 h4
  · decide
  · decide
  · decide
  · decide
  · intro hm
    rcases List.mem_singleton.mp hm with rfl
    exact h3 rfl

theorem escapeHtml_no_gt (s : String) : '>' ∉ (escapeHtml s).data := by
  intro h
  obtain ⟨c, hc, hm⟩ := List.mem_flatMap.mp h
  exact escapeHtmlChar_no_gt c hm

/-- A join piece that can neither hold, start, nor dangerously end the
marker `t>a`. -/
def pieceOkS (s : String) : Bool :=
  !listContains ['t', '>', 'a'] s.data &&
  !(s.data.head? == some '>') &&
  !listEnds ['t', '>'] s.data

theorem gt_mem_of_contains_mark {p : List Char}
    (h : listContains ['t', '>', 'a'] p = true) : '>' ∈ p := by
  obtain ⟨pre, post, rfl⟩ := listContains_iff.mp h
  simp

theorem gt_mem_of_ends_tg {p : List Char}
    (h : listEnds ['t', '>'] p = true) : '>' ∈ p := by
  obtain ⟨pre, rfl⟩ := listEnds_iff.mp h
  simp

theorem pieceOkS_of_no_gt {s : String} (h : '>' ∉ s.data) :
    pieceOkS s = true := by
  rw [pieceOkS]
  have h1 : listContains ['t', '>', 'a'] s.data = false := by
    cases hc : listContains ['t', '>', 'a'] s.data
    · rfl
    · exact absurd (gt_mem_of_contains_mark hc) h
  have h2 : listEnds ['t', '>'] s.data = false := by
    cases hc : listEnds ['t', '>'] s.data
    · rfl
    · exact absurd (gt_mem_of_ends_tg hc) h
  have h3 : (s.data.head? == some '>') = false := by
    cases hd : s.data with
    | nil => rfl
    | cons c t =>
      have hcne : ¬ c = '>' := fun hc => h (hd ▸ (hc ▸ List.mem_cons_self c t))
      simp [hcne]
  rw [h1, h2, h3]
  rfl

theorem escapeHtml_pieceOk (s : String) : pieceOkS (escapeHtml s) = true :=
  pieceOkS_of_no_gt (escapeHtml_no_gt s)

theorem digitChar_ne_gt {n : Nat} (h : n < 10) : digitChar n ≠ '>' := by
  interval_cases n <;> decide

theorem natDigitsAux_no_gt (fuel n : Nat) : '>' ∉ natDigitsAux fuel n := by
  induction fuel generalizing n with
  | zero => simp [natDigitsAux]
  | succ f ih =>
    rw [natDigitsAux]
    split
    · rename_i hlt
      intro hm
      rcases List.mem_singleton.mp hm with h
      exact digitChar_ne_gt hlt h.symm
    · intro hm
      rcases List.mem_append.mp hm with hm | hm
      · exact ih _ hm
      · rcases List.mem_singleton.mp hm with h
        exact digitChar_ne_gt (Nat.mod_lt _ (by omega)) h.symm

theorem natStr_pieceOk (n : Nat) : pieceOkS (natStr n) = true :=
  pieceOkS_of_no_gt (natDigitsAux_no_gt (n + 1) n)

/-- Sequential join of string pieces. -/
def joinStr : List String → String
  | [] => ""
  | s :: rest => s ++ joinStr rest

theorem joinStr_data (P : List String) :
    (joinStr P).data = (P.map String.data).flatten := by
  induction P with
  | nil => rfl
  | cons s rest ih =>
    rw [joinStr, String.data_append, ih]
    rfl

def lhS2c0 : String := "\">\n  <link rel=\"alternate\" type=\"text/plain\" href=\"/llms.txt\" title=\"LLM-optimized API reference\">\n  <style>\n    :root \x7b\n      --bg: #09090b;\n      --surface: #111115;\n      --surface-2: #18181b;\n      --border: #27272a;\n      --text: #fafafa;\n      --text-muted: #a1a1aa;\n      --accent: #818cf8;\n      --accent-glow: rgba(129, 140, 248, 0.12);\n      --glow-sm: 0 0 15px rgba(129, 140, 248, 0.15);\n      --glow-md: 0 0 30px rgba(129, 140, 248, 0.12), 0 0 60px rgba(129, 140, 248, 0.06);\n      --glow-lg: 0 0 60px rgba(129, 140, 248, 0.15), 0 0 120px rgba(129, 140, 248, 0.08), 0 0 200px rgba(129, 140, 248, 0.04);\n    \x7d\n    * \x7b margin: 0; padding: 0; box-sizing: border-box; \x7d\n    body \x7b\n      font-family: -apple-system, BlinkMacSystemFont, \"Segoe UI\", Roboto, sans-serif;\n      background: var(--bg);\n      color: var(--text);\n      line-height: 1.6;\n      min-height: 100vh;\n    \x7d\n"

def lhS2c1 : String := "\n    /* Hero */\n    .hero \x7b\n      text-align: center;\n      padding: 6rem 1.5rem 4rem;\n      max-width: 720px;\n      margin: 0 auto;\n      position: relative;\n    \x7d\n    .hero::before \x7b\n      content: '';\n      position: absolute;\n      top: 0;\n      left: 50%;\n      transform: translateX(-50%);\n      width: 500px;\n      height: 400px;\n      background: radial-gradient(ellipse at center, rgba(129, 140, 248, 0.08) 0%, transparent 70%);\n      pointer-events: none;\n    \x7d\n    .hero-label \x7b\n      display: inline-block;\n      font-size: 0.8rem;\n      font-weight: 500;\n      color: var(--accent);\n      background: var(--accent-glow);\n      border: 1px solid rgba(129, 140, 248, 0.25);\n      padding: 0.3rem 0.9rem;\n      border-radius: 999px;\n      margin-bottom: 1.5rem;\n      letter-spacing: 0.03em;\n      box-shadow: var(--glow-sm);\n    \x7d\n    .hero h1 \x7b\n      font-size: clamp(2rem, 5vw, 3.2rem);"

def lhS2c2 : String := "\n      font-weight: 700;\n      line-height: 1.15;\n      letter-spacing: -0.03em;\n      margin-bottom: 1.25rem;\n      background: linear-gradient(180deg, #fafafa 0%, #a1a1aa 100%);\n      -webkit-background-clip: text;\n      -webkit-text-fill-color: transparent;\n      background-clip: text;\n      filter: drop-shadow(0 0 40px rgba(129, 140, 248, 0.1));\n    \x7d\n    .hero p \x7b\n      font-size: 1.1rem;\n      color: var(--text-muted);\n      max-width: 520px;\n      margin: 0 auto 2rem;\n    \x7d\n    .hero-prompt \x7b\n      background: var(--surface);\n      border: 1px solid rgba(129, 140, 248, 0.2);\n      border-radius: 12px;\n      padding: 1rem 1.5rem;\n      display: inline-block;\n      font-family: \"SF Mono\", \"Fira Code\", monospace;\n      font-size: 0.9rem;\n      color: var(--text-muted);\n      max-width: 100%;\n      box-shadow: var(--glow-md);\n    \x7d\n    .hero-prompt strong \x7b color: var(--text); \x7d"

def lhS2c3 : String := "\n    .hero-prompt .accent \x7b color: var(--accent); text-shadow: 0 0 20px rgba(129, 140, 248, 0.5); \x7d\n\n    /* Stats */\n    .stats \x7b\n      display: flex;\n      justify-content: center;\n      gap: 2.5rem;\n      padding: 2rem 1.5rem;\n      margin-bottom: 1rem;\n    \x7d\n    .stat \x7b text-align: center; \x7d\n    .stat-value \x7b\n      font-size: 1.75rem;\n      font-weight: 700;\n      color: var(--text);\n      text-shadow: 0 0 30px rgba(129, 140, 248, 0.15);\n    \x7d\n    .stat-label \x7b\n      font-size: 0.8rem;\n      color: var(--text-muted);\n      text-transform: uppercase;\n      letter-spacing: 0.06em;\n    \x7d\n\n    /* Cards grid */\n    .cards \x7b\n      max-width: 900px;\n      margin: 0 auto;\n      padding: 0 1.5rem 3rem;\n      display: grid;\n      grid-template-columns: repeat(auto-fill, minmax(260px, 1fr));\n      gap: 1rem;\n    \x7d\n    .card \x7b\n      background: var(--surface);"

def lhS2c4 : String := "\n      border: 1px solid var(--border);\n      border-radius: 12px;\n      padding: 1.25rem;\n      transition: border-color 0.2s;\n    \x7d\n    .card:hover \x7b\n      border-color: rgba(129, 140, 248, 0.3);\n      box-shadow: var(--glow-sm);\n    \x7d\n    .card h3 \x7b font-size: 1rem; margin-bottom: 0.35rem; \x7d\n    .card p \x7b font-size: 0.85rem; color: var(--text-muted); margin-bottom: 0.5rem; \x7d\n    .badge \x7b\n      display: inline-block;\n      font-size: 0.75rem;\n      color: var(--accent);\n      background: var(--accent-glow);\n      padding: 0.15rem 0.5rem;\n      border-radius: 4px;\n    \x7d\n\n    /* Formats section */\n    .formats \x7b\n      max-width: 600px;\n      margin: 0 auto;\n      padding: 2rem 1.5rem 4rem;\n      text-align: center;\n    \x7d\n    .formats h2 \x7b\n      font-size: 1.1rem;\n      margin-bottom: 1rem;\n      color: var(--text-muted);\n      font-weight: 400;\n    \x7d\n    .format-links \x7b"

def lhS2c5 : String := "\n      display: flex;\n      justify-content: center;\n      gap: 0.75rem;\n      flex-wrap: wrap;\n    \x7d\n    .format-links a \x7b\n      display: inline-block;\n      padding: 0.5rem 1rem;\n      background: var(--surface);\n      border: 1px solid var(--border);\n      border-radius: 8px;\n      color: var(--text-muted);\n      text-decoration: none;\n      font-size: 0.85rem;\n      font-family: \"SF Mono\", \"Fira Code\", monospace;\n      transition: border-color 0.2s, color 0.2s;\n    \x7d\n    .format-links a:hover \x7b\n      border-color: var(--accent);\n      color: var(--text);\n      box-shadow: var(--glow-sm);\n    \x7d\n\n    /* Divider */\n    .divider \x7b\n      max-width: 900px;\n      margin: 0 auto;\n      border: 0;\n      border-top: 1px solid var(--border);\n    \x7d\n\n    /* Endpoint reference */\n    .reference \x7b\n      max-width: 900px;\n      margin: 0 auto;\n      padding: 3rem 1.5rem;\n    \x7d\n    .reference > h2 \x7b"

def lhS2c6 : String := "\n      font-size: 1rem;\n      color: var(--text-muted);\n      text-align: center;\n      margin-bottom: 2rem;\n      font-weight: 400;\n    \x7d\n    section \x7b margin-bottom: 2rem; \x7d\n    section > h2 \x7b\n      font-size: 1.1rem;\n      margin-bottom: 0.25rem;\n      padding-bottom: 0.5rem;\n      border-bottom: 1px solid var(--border);\n    \x7d\n    section > p \x7b color: var(--text-muted); font-size: 0.85rem; margin-bottom: 0.75rem; \x7d\n    table \x7b\n      width: 100%;\n      border-collapse: collapse;\n      font-size: 0.82rem;\n      margin-bottom: 0.5rem;\n    \x7d\n    th, td \x7b\n      text-align: left;\n      padding: 0.4rem 0.6rem;\n      border-bottom: 1px solid var(--border);\n    \x7d\n    th \x7b\n      color: var(--text-muted);\n      font-weight: 600;\n      font-size: 0.75rem;\n      text-transform: uppercase;\n      letter-spacing: 0.04em;\n    \x7d\n    td code \x7b\n      font-family: \"SF Mono\", \"Fira Code\", monospace;"

def lhS2c7 : String := "\n      font-size: 0.8rem;\n      color: var(--accent);\n    \x7d\n\n    /* Brand header */\n    .brand \x7b\n      display: flex;\n      align-items: center;\n      justify-content: center;\n      gap: 0.5rem;\n      padding: 1.5rem 1rem 0;\n      opacity: 0.5;\n      transition: opacity 0.2s;\n    \x7d\n    .brand:hover \x7b opacity: 0.8; \x7d\n    .brand a \x7b\n      display: flex;\n      align-items: center;\n      gap: 0.45rem;\n      text-decoration: none;\n      color: var(--text-muted);\n      font-size: 0.8rem;\n      font-weight: 500;\n      letter-spacing: 0.02em;\n    \x7d\n    .brand svg \x7b flex-shrink: 0; \x7d\n\n    /* Footer */\n    footer \x7b\n      text-align: center;\n      padding: 2rem 1.5rem 3rem;\n      color: var(--text-muted);\n      font-size: 0.8rem;\n    \x7d\n    footer a \x7b color: var(--accent); text-decoration: none; \x7d\n    .powered-by \x7b\n      display: inline-flex;\n      align-items: center;\n      gap: 0.4rem;"

def lhS2c8 : String := "\n      opacity: 0.6;\n      transition: opacity 0.2s;\n    \x7d\n    .powered-by:hover \x7b opacity: 1; \x7d\n    .powered-by a \x7b\n      display: inline-flex;\n      align-items: center;\n      gap: 0.35rem;\n      color: var(--text-muted);\n      text-decoration: none;\n      font-size: 0.78rem;\n    \x7d\n    .powered-by a:hover \x7b color: var(--accent); \x7d\n    .powered-by svg \x7b flex-shrink: 0; \x7d\n  </style>\n</head>\n<body>\n  "

/-- The long CSS/head static of the template, assembled from chunks
small enough for elementwise kernel checking; their join is the exact
source text. -/
def lhS2 : String := joinStr [lhS2c0, lhS2c1, lhS2c2, lhS2c3, lhS2c4, lhS2c5, lhS2c6, lhS2c7, lhS2c8]

theorem noMark_append {p f : List Char}
    (h1 : listContains ['t', '>', 'a'] p = false)
    (h2 : listEnds ['t', '>'] p = false)
    (h3 : listContains ['t', '>', 'a'] f = false)
    (h4 : f.head? ≠ some '>') :
    listContains ['t', '>', 'a'] (p ++ f) = false := by
  induction p with
  | nil => simpa using h3
  | cons c p' ih =>
    rw [listContains] at h1
    have h1s := Bool.or_eq_false_iff.mp h1
    rw [listEnds] at h2
    have h2s := Bool.or_eq_false_iff.mp h2
    rw [List.cons_append, listContains]
    refine Bool.or_eq_false_iff.mpr ⟨?_, ih h1s.2 h2s.2⟩
    cases hstart : listStarts ['t', '>', 'a'] (c :: (p' ++ f))
    · rfl
    · exfalso
      obtain ⟨t2, heq⟩ := listStarts_iff.mp hstart
      simp only [List.cons_append, List.cons.injEq] at heq
      obtain ⟨rfl, heq2⟩ := heq
      cases p' with
      | nil =>
        simp only [List.nil_append] at heq2
        exact h4 (by rw [heq2]; rfl)
      | cons d p'' =>
        simp only [List.cons_append, List.cons.injEq] at heq2
        obtain ⟨rfl, heq3⟩ := heq2
        cases p'' with
        | nil =>
          simp only [List.nil_append] at heq3
          simp at h2s
        | cons e p''' =>
          simp only [List.cons_append, List.cons.injEq] at heq3
          obtain ⟨rfl, heq4⟩ := heq3
          simp [listStarts] at h1s

/-- Joining pieces that are all marker-safe yields a string without the
marker, and one that does not start with `>`. -/
theorem joinStr_ok (P : List String) (h : ∀ p ∈ P, pieceOkS p = true) :
    listContains ['t', '>', 'a'] (joinStr P).data = false ∧
    (joinStr P).data.head? ≠ some '>' := by
  induction P with
  | nil => exact ⟨rfl, by intro hc; cases hc⟩
  | cons s rest ih =>
    obtain ⟨hf, hh⟩ := ih (fun p hp => h p (List.mem_cons_of_mem _ hp))
    have hs := h s (List.mem_cons_self _ _)
    rw [pieceOkS] at hs
    simp only [Bool.and_eq_true, Bool.not_eq_true'] at hs
    obtain ⟨⟨hs1, hs2⟩, hs3⟩ := hs
    have hdata : (joinStr (s :: rest)).data = s.data ++ (joinStr rest).data := by
      rw [joinStr, String.data_append]
    constructor
    · rw [hdata]
      exact noMark_append hs1 hs3 hf hh
    · rw [hdata]
      cases hd : s.data with
      | nil => simpa using hh
      | cons c t =>
        rw [hd] at hs2
        simp only [List.cons_append, List.head?_cons]
        intro hc
        injection hc with hc
        rw [hc] at hs2
        simp at hs2

theorem all_ok_append {A B : List String}
    (ha : ∀ p ∈ A, pieceOkS p = true) (hb : ∀ p ∈ B, pieceOkS p = true) :
    ∀ p ∈ A ++ B, pieceOkS p = true := by
  intro p hp
  rcases List.mem_append.mp hp with h | h
  · exact ha p h
  · exact hb p h

/-- Optional-chained bracket access `o?.[k]`. -/
def optChainIdx (o : Option JVal) (k : String) : Option JVal :=
  match o with
  | some v => if v = JVal.null then none else jsIdx v k
  | none => none

/-- JS property-key coercion of a possibly-undefined value (`undefined`
becomes the key `"undefined"`). -/
def propKeyU : Option JVal → String
  | none => "undefined"
  | some v => jsToString v

/-- The JS whitespace characters `trim` strips (the ASCII ones; the
inputs of interest contain no exotic spaces). -/
def isJsWs (c : Char) : Bool :=
  c = ' ' || c = '\n' || c = '\t' || c = '\r' || c = '\x0b' || c = '\x0c'

/-- Characters before the first blank line (`split(/\n\n/)[0]`). -/
def splitNlNl : List Char → List Char
  | [] => []
  | '\n' :: '\n' :: _ => []
  | c :: rest => c :: splitNlNl rest

/-- `extractFirstParagraph`: first blank-line-separated block, newlines
flattened to spaces, trimmed. -/
def firstPara (s : String) : String :=
  ⟨((((splitNlNl s.data).map
      (fun c => if c = '\n' then ' ' else c)).dropWhile
      isJsWs).reverse.dropWhile isJsWs).reverse⟩

/-- `extractFirstParagraph` applied to an arbitrary value: `.split`
throws unless it is a string. -/
def extractFirstParagraphE : JVal → Except Unit String
  | .str s => .ok (firstPara s)
  | _ => .error ()

/-- `(spec.tags || []).map((t) => t.name)`: `.map` throws on a truthy
non-array, `t.name` on a null element; a tag without `name` contributes
`undefined`. -/
def tagNamesGo : List JVal → Except Unit (List (Option JVal))
  | [] => .ok []
  | t :: rest =>
    if t = JVal.null then .error ()
    else do
      let tail ← tagNamesGo rest
      .ok (jsPropT t "name" :: tail)

/-- See `tagNamesGo`. -/
def tagNamesE : JVal → Except Unit (List (Option JVal))
  | .arr ts => tagNamesGo ts
  | _ => .error ()

/-- `spec.tags?.find((t) => t.name === tagName)`.  (Strict equality is
modelled structurally; reference identity of deep-equal objects is not
distinguished by the tree model.) -/
def findTagGo (tag : Option JVal) : List JVal → Except Unit (Option JVal)
  | [] => .ok none
  | t :: rest =>
    if t = JVal.null then .error ()
    else if jsPropT t "name" = tag then .ok (some t)
    else findTagGo tag rest

/-- See `findTagGo`; `?.find` short-circuits on undefined/null `tags`,
throws on other non-arrays. -/
def findTag (tags : Option JVal) (tag : Option JVal) :
    Except Unit (Option JVal) :=
  match tags with
  | none => .ok none
  | some v =>
    if v = JVal.null then .ok none
    else
      match v with
      | .arr ts => findTagGo tag ts
      | _ => .error ()

/-- The card's `tagDef?.description ? escapeHtml(…) : ''`. -/
def cardDescE (tagDef : Option JVal) : Except Unit String :=
  match optChainProp tagDef "description" with
  | some d => if jsTruthy d then escapeHtmlE d else .ok ""
  | none => .ok ""

/-- One category card (utils line 43 template). -/
def cardForTag (tags : Option JVal)
    (groups : List (String × List EndpointInfo)) (tag : Option JVal) :
    Except Unit (List String) := do
  let tagDef ← findTag tags tag
  let desc ← cardDescE tagDef
  let escTag ← escapeHtmlOE tag
  .ok [cardS1, escTag, cardS2, desc, cardS3,
    natStr (groupGet groups (propKeyU tag)).length, cardS4]

/-- The mapped card list. -/
def cardsForTags (tags : Option JVal)
    (groups : List (String × List EndpointInfo)) :
    List (Option JVal) → Except Unit (List (List String))
  | [] => .ok []
  | t :: rest => do
    let c ← cardForTag tags groups t
    let more ← cardsForTags tags groups rest
    .ok (c :: more)

/-- `.join(sep)` at the piece level. -/
def intercalatePieces (sep : String) : List (List String) → List String
  | [] => []
  | [x] => x
  | x :: y :: rest => x ++ sep :: intercalatePieces sep (y :: rest)

/-- The section's `tagDef?.description ? `<p>…</p>` : ''`. -/
def descPiecesE (tagDef : Option JVal) : Except Unit (List String) :=
  match optChainProp tagDef "description" with
  | some d =>
    if jsTruthy d then do
      let e ← escapeHtmlE d
      Except.ok [pDescA, e, pDescB]
    else Except.ok [""]
  | none => Except.ok [""]

/-- The loop body of `formatSecurity`: per scheme entry, pushes the
Bearer and API-Key labels when the keys are present; a null entry makes
`s.bearerAuth` throw. -/
def secSchemes : List JVal → Except Unit (List String)
  | [] => .ok []
  | s :: rest =>
    if s = JVal.null then .error ()
    else do
      let tail ← secSchemes rest
      .ok ((if (jsPropT s "bearerAuth").isSome then ["Bearer Token (JWT)"]
            else []) ++
           (if (jsPropT s "apiKeyAuth").isSome then ["API Key (X-API-Key)"]
            else []) ++ tail)

/-- `formatSecurity` from utils.ts: `None required` for a missing, falsy
or empty list; otherwise the recognised scheme labels joined with
` or `, and `Required` when none are recognised.  Iterating a truthy
non-array throws, except strings, whose characters carry no scheme keys
and so always give `Required`. -/
def formatSecurity (security : Option JVal) : Except Unit String :=
  match security with
  | none => .ok "None required"
  | some v =>
    if jsTruthy v = false then .ok "None required"
    else
      match v with
      | .arr ss =>
        if ss.length = 0 then .ok "None required"
        else do
          let schemes ← secSchemes ss
          .ok (if schemes.length > 0 then String.intercalate " or " schemes
               else "Required")
      | .str _ => .ok "Required"
      | _ => .error ()

/-- One endpoint row of the reference table (line 60 template). -/
def rowFor (ep : EndpointInfo) : Except Unit (List String) := do
  let escSum ← escapeHtmlE ep.summary
  let fs ← formatSecurity ep.security
  .ok [rowS1, strUpper ep.method, rowS2, escapeHtml ep.path, rowS3, escSum,
    rowS4, escapeHtml fs, rowS5]

/-- All rows of one section. -/
def rowsFor : List EndpointInfo → Except Unit (List String)
  | [] => .ok []
  | ep :: rest => do
    let r ← rowFor ep
    let more ← rowsFor rest
    .ok (r ++ more)

/-- One `<section>` of the endpoint reference (lines 50–65); tags whose
group is missing or empty contribute nothing. -/
def sectionForTag (tags : Option JVal)
    (groups : List (String × List EndpointInfo)) (tag : Option JVal) :
    Except Unit (List String) :=
  if (groupGet groups (propKeyU tag)).length = 0 then .ok []
  else do
    let tagDef ← findTag tags tag
    let escTagName ← escapeHtmlOE tag
    let dp ← descPiecesE tagDef
    let rows ← rowsFor (groupGet groups (propKeyU tag))
    .ok ([secS1, escTagName, secS2] ++ dp ++ [secS3] ++ rows ++ [secTail])

/-- All sections, in tag order. -/
def sectionsForTags (tags : Option JVal)
    (groups : List (String × List EndpointInfo)) :
    List (Option JVal) → Except Unit (List String)
  | [] => .ok []
  | t :: rest => do
    let s ← sectionForTag tags groups t
    let more ← sectionsForTags tags groups rest
    .ok (s ++ more)

/-- The Authentication section (lines 69–84): empty unless
`securitySchemes` is truthy; the two rows are fixed strings gated on the
presence of the scheme keys. -/
def authPieces (ss : Option JVal) : List String :=
  match ss with
  | none => []
  | some v =>
    if jsTruthy v = false then []
    else
      [authS1,
       (if optTruthy (jsPropT v "bearerAuth") then authRow1 else ""),
       authS2,
       (if optTruthy (jsPropT v "apiKeyAuth") then authRow2 else ""),
       authS3]

/-- `logoSvg(size)` (line 86): static SVG with the size interpolated
twice. -/
def logoPieces (n : Nat) : List String :=
  [logoS1, natStr n, logoS2, natStr n, logoS3]

/-- The hero prompt block: evaluated — and `escapeHtml(promptText)` run —
only when `showPrompt` holds. -/
def promptPiecesE (sp : Bool) (promptText : JVal) :
    Except Unit (List String) :=
  if sp then do
    let e ← escapeHtmlE promptText
    Except.ok [promptS1, e, promptS2]
  else Except.ok [""]

/-- `generateHtmlLanding` from part_005: computes the escaped header
values, groups the endpoints, and interpolates fifteen dynamic pieces
into the static landing template.  The output string is assembled as the
in-order join of the template's static and dynamic pieces. -/
def generateHtmlLanding (spec opts : JVal) : Except Unit String := do
  let projectName ← escapeHtmlE (jsOrVal (jsPropT opts "title")
    (jsOrVal (optChainProp (jsPropT spec "info") "title") (JVal.str "API")))
  let version ← escapeHtmlE
    (jsOrVal (optChainProp (jsPropT spec "info") "version") (JVal.str ""))
  let para ← extractFirstParagraphE
    (jsOrVal (optChainProp (jsPropT spec "info") "description")
      (JVal.str ""))
  let groups ← groupPathsByTag spec
  let tagNames ← tagNamesE (jsOrVal (jsPropT spec "tags") (JVal.arr []))
  let cards ← cardsForTags (jsPropT spec "tags") groups
    (tagNames.filter (fun t => (groupGet groups (propKeyU t)).length > 0))
  let promptPs ← promptPiecesE
    (decide (optChainProp (jsPropT opts "landing") "showPrompt" ≠
      some (JVal.bool false)))
    (jsOrVal (optChainProp (jsPropT opts "landing") "promptText")
      (JVal.str ("Learn " ++ jsToString
        (jsOrVal
          (some (jsOrVal (jsPropT opts "baseUrl")
            (jsOrVal
              (optChainProp (optChainIdx (jsPropT spec "servers") "0") "url")
              (JVal.str ""))))
          (JVal.str "this API")))))
  let sections ← sectionsForTags (jsPropT spec "tags") groups tagNames
  .ok (joinStr (
    [lhS0, projectName, lhS1, escapeHtml para, lhS2] ++
    (if decide (optChainProp (jsPropT opts "landing") "showPoweredBy" ≠
        some (JVal.bool false)) then
      [brandS1] ++ logoPieces 18 ++ [brandS2]
     else [""]) ++
    [lhS3, projectName, lhS4, escapeHtml para, lhS5] ++
    promptPs ++
    [lhS6, natStr (groups.foldl (fun acc g => acc + g.2.length) 0), lhS7,
      natStr tagNames.length, lhS8, version, lhS9] ++
    intercalatePieces cardSep cards ++
    [lhS10] ++
    authPieces (optChainProp (jsPropT spec "components") "securitySchemes") ++
    [lhS11] ++ sections ++
    [lhS12, projectName, lhS13, version, lhS14] ++
    (if decide (optChainProp (jsPropT opts "landing") "showPoweredBy" ≠
        some (JVal.bool false)) then
      [powS1] ++ logoPieces 16 ++ [powS2]
     else [""]) ++
    [lhS15]))

theorem escapeHtmlE_ok {v : JVal} {s : String} (h : escapeHtmlE v = .ok s) :
    pieceOkS s = true := by
  cases v <;> simp only [escapeHtmlE] at h
  case str s2 =>
    injection h with h2
    rw [← h2]
    exact escapeHtml_pieceOk _
  all_goals cases h

theorem escapeHtmlOE_ok {o : Option JVal} {s : String}
    (h : escapeHtmlOE o = .ok s) : pieceOkS s = true := by
  cases o with
  | none => cases h
  | some v => exact escapeHtmlE_ok h

theorem empty_pieceOk : pieceOkS "" = true := by decide

theorem cardDescE_ok {tagDef : Option JVal} {s : String}
    (h : cardDescE tagDef = .ok s) : pieceOkS s = true := by
  rw [cardDescE] at h
  split at h
  · split at h
    · exact escapeHtmlE_ok h
    · injection h with h2; rw [← h2]; exact empty_pieceOk
  · injection h with h2; rw [← h2]; exact empty_pieceOk

theorem cardForTag_ok {tags : Option JVal}
    {groups : List (String × List EndpointInfo)} {tag : Option JVal}
    {ps : List String} (h : cardForTag tags groups tag = .ok ps) :
    ∀ p ∈ ps, pieceOkS p = true := by
  rw [cardForTag] at h
  obtain ⟨tagDef, h1, h⟩ := bindOkE h
  obtain ⟨desc, h2, h⟩ := bindOkE h
  obtain ⟨escTag, h3, h⟩ := bindOkE h
  injection h with h
  subst h
  intro p hp
  simp only [List.mem_cons, List.not_mem_nil, or_false] at hp
  rcases hp with rfl | rfl | rfl | rfl | rfl | rfl | rfl
  · decide
  · exact escapeHtmlOE_ok h3
  · decide
  · exact cardDescE_ok h2
  · decide
  · exact natStr_pieceOk _
  · decide

theorem cardsForTags_ok {tags : Option JVal}
    {groups : List (String × List EndpointInfo)} :
    ∀ {ts : List (Option JVal)} {ls : List (List String)},
    cardsForTags tags groups ts = .ok ls →
    ∀ l ∈ ls, ∀ p ∈ l, pieceOkS p = true := by
  intro ts
  induction ts with
  | nil =>
    intro ls h
    rw [cardsForTags] at h
    injection h with h
    subst h
    intro l hl
    cases hl
  | cons t rest ih =>
    intro ls h
    rw [cardsForTags] at h
    obtain ⟨c, h1, h⟩ := bindOkE h
    obtain ⟨more, h2, h⟩ := bindOkE h
    injection h with h
    subst h
    intro l hl
    rcases List.mem_cons.mp hl with rfl | hl
    · exact cardForTag_ok h1
    · exact ih h2 l hl

theorem intercalatePieces_ok {sep : String}
    (hsep : pieceOkS sep = true) :
    ∀ (ls : List (List String)),
    (∀ l ∈ ls, ∀ p ∈ l, pieceOkS p = true) →
    ∀ p ∈ intercalatePieces sep ls, pieceOkS p = true := by
  intro ls
  induction ls with
  | nil => intro _ p hp; cases hp
  | cons x rest ih =>
    intro h p hp
    cases rest with
    | nil =>
      rw [intercalatePieces] at hp
      exact h x (List.mem_cons_self _ _) p hp
    | cons y rest2 =>
      rw [intercalatePieces] at hp
      rcases List.mem_append.mp hp with hp | hp
      · exact h x (List.mem_cons_self _ _) p hp
      · rcases List.mem_cons.mp hp with rfl | hp
        · exact hsep
        · exact ih (fun l hl => h l (List.mem_cons_of_mem _ hl)) p hp

theorem strUpper_method_ok {m : String} (hm : m ∈ httpMethods) :
    pieceOkS (strUpper m) = true := by
  simp only [httpMethods, List.mem_cons, List.not_mem_nil, or_false] at hm
  rcases hm with rfl | rfl | rfl | rfl | rfl <;> decide

theorem formatSecurity_escape_ok {sec : Option JVal} {s : String}
    (h : formatSecurity sec = .ok s) :
    pieceOkS (escapeHtml s) = true := escapeHtml_pieceOk s

theorem rowFor_ok {ep : EndpointInfo} {ps : List String}
    (hm : ep.method ∈ httpMethods) (h : rowFor ep = .ok ps) :
    ∀ p ∈ ps, pieceOkS p = true := by
  rw [rowFor] at h
  obtain ⟨escSum, h1, h⟩ := bindOkE h
  obtain ⟨fs, h2, h⟩ := bindOkE h
  injection h with h
  subst h
  intro p hp
  simp only [List.mem_cons, List.not_mem_nil, or_false] at hp
  rcases hp with rfl | rfl | rfl | rfl | rfl | rfl | rfl | rfl | rfl
  · decide
  · exact strUpper_method_ok hm
  · decide
  · exact escapeHtml_pieceOk _
  · decide
  · exact escapeHtmlE_ok h1
  · decide
  · exact escapeHtml_pieceOk _
  · decide

theorem rowsFor_ok :
    ∀ {eps : List EndpointInfo} {ps : List String},
    (∀ ep ∈ eps, ep.method ∈ httpMethods) → rowsFor eps = .ok ps →
    ∀ p ∈ ps, pieceOkS p = true := by
  intro eps
  induction eps with
  | nil =>
    intro ps _ h
    rw [rowsFor] at h
    injection h with h
    subst h
    intro p hp
    cases hp
  | cons ep rest ih =>
    intro ps hmeth h
    rw [rowsFor] at h
    obtain ⟨r, h1, h⟩ := bindOkE h
    obtain ⟨more, h2, h⟩ := bindOkE h
    injection h with h
    subst h
    intro p hp
    rcases List.mem_append.mp hp with hp | hp
    · exact rowFor_ok (hmeth ep (List.mem_cons_self _ _)) h1 p hp
    · exact ih (fun e he => hmeth e (List.mem_cons_of_mem _ he)) h2 p hp

theorem descPiecesE_ok {tagDef : Option JVal} {ps : List String}
    (h : descPiecesE tagDef = .ok ps) : ∀ p ∈ ps, pieceOkS p = true := by
  rw [descPiecesE] at h
  split at h
  · split at h
    · obtain ⟨e, h1, h⟩ := bindOkE h
      injection h with h
      subst h
      intro p hp
      simp only [List.mem_cons, List.not_mem_nil, or_false] at hp
      rcases hp with rfl | rfl | rfl
      · decide
      · exact escapeHtmlE_ok h1
      · decide
    · injection h with h
      subst h
      intro p hp
      simp only [List.mem_cons, List.not_mem_nil, or_false] at hp
      rcases hp with rfl
      exact empty_pieceOk
  · injection h with h
    subst h
    intro p hp
    simp only [List.mem_cons, List.not_mem_nil, or_false] at hp
    rcases hp with rfl
    exact empty_pieceOk

theorem sectionForTag_ok {tags : Option JVal}
    {groups : List (String × List EndpointInfo)} {tag : Option JVal}
    {ps : List String}
    (hmeth : ∀ ep ∈ groupGet groups (propKeyU tag), ep.method ∈ httpMethods)
    (h : sectionForTag tags groups tag = .ok ps) :
    ∀ p ∈ ps, pieceOkS p = true := by
  rw [sectionForTag] at h
  split at h
  · injection h with h
    subst h
    intro p hp
    cases hp
  · obtain ⟨tagDef, h1, h⟩ := bindOkE h
    obtain ⟨escTagName, h2, h⟩ := bindOkE h
    obtain ⟨dp, h3, h⟩ := bindOkE h
    obtain ⟨rows, h4, h⟩ := bindOkE h
    injection h with h
    subst h
    intro p hp
    rcases List.mem_append.mp hp with hp | hp
    rotate_left
    · rcases List.mem_singleton.mp hp with rfl
      decide
    rcases List.mem_append.mp hp with hp | hp
    rotate_left
    · exact rowsFor_ok hmeth h4 p hp
    rcases List.mem_append.mp hp with hp | hp
    rotate_left
    · rcases List.mem_singleton.mp hp with rfl
      decide
    rcases List.mem_append.mp hp with hp | hp
    · simp only [List.mem_cons, List.not_mem_nil, or_false] at hp
      rcases hp with rfl | rfl | rfl
      · decide
      · exact escapeHtmlOE_ok h2
      · decide
    · exact descPiecesE_ok h3 p hp

theorem sectionsForTags_ok {tags : Option JVal}
    {groups : List (String × List EndpointInfo)}
    (hmeth : ∀ k, ∀ ep ∈ groupGet groups k, ep.method ∈ httpMethods) :
    ∀ {ts : List (Option JVal)} {ps : List String},
    sectionsForTags tags groups ts = .ok ps →
    ∀ p ∈ ps, pieceOkS p = true := by
  intro ts
  induction ts with
  | nil =>
    intro ps h
    rw [sectionsForTags] at h
    injection h with h
    subst h
    intro p hp
    cases hp
  | cons t rest ih =>
    intro ps h
    rw [sectionsForTags] at h
    obtain ⟨s, h1, h⟩ := bindOkE h
    obtain ⟨more, h2, h⟩ := bindOkE h
    injection h with h
    subst h
    intro p hp
    rcases List.mem_append.mp hp with hp | hp
    · exact sectionForTag_ok (hmeth (propKeyU t)) h1 p hp
    · exact ih h2 p hp

theorem authPieces_ok (ss : Option JVal) :
    ∀ p ∈ authPieces ss, pieceOkS p = true := by
  rw [authPieces.eq_def]
  split
  · intro p hp; cases hp
  · split
    · intro p hp; cases hp
    · intro p hp
      simp only [List.mem_cons, List.not_mem_nil, or_false] at hp
      rcases hp with rfl | rfl | rfl | rfl | rfl
      · decide
      · split
        · decide
        · decide
      · decide
      · split
        · decide
        · decide
      · decide

theorem logoPieces_ok (n : Nat) : ∀ p ∈ logoPieces n, pieceOkS p = true := by
  intro p hp
  rw [logoPieces] at hp
  simp only [List.mem_cons, List.not_mem_nil, or_false] at hp
  rcases hp with rfl | rfl | rfl | rfl | rfl
  · decide
  · exact natStr_pieceOk n
  · decide
  · exact natStr_pieceOk n
  · decide

theorem promptPiecesE_ok {sp : Bool} {pt : JVal} {ps : List String}
    (h : promptPiecesE sp pt = .ok ps) : ∀ p ∈ ps, pieceOkS p = true := by
  rw [promptPiecesE] at h
  split at h
  · obtain ⟨e, h1, h⟩ := bindOkE h
    injection h with h
    subst h
    intro p hp
    simp only [List.mem_cons, List.not_mem_nil, or_false] at hp
    rcases hp with rfl | rfl | rfl
    · decide
    · exact escapeHtmlE_ok h1
    · decide
  · injection h with h
    subst h
    intro p hp
    simp only [List.mem_cons, List.not_mem_nil, or_false] at hp
    rcases hp with rfl
    exact empty_pieceOk

theorem mkEndpoint_method (m p : String) (op : JVal) :
    (mkEndpoint m p op).method = m := rfl

theorem groups_methods {spec : JVal}
    {groups : List (String × List EndpointInfo)}
    (h : groupPathsByTag spec = .ok groups) :
    ∀ k, ∀ ep ∈ groupGet groups k, ep.method ∈ httpMethods := by
  intro k ep hep
  rw [groupPathsByTag_get h k] at hep
  rw [specContrib] at hep
  obtain ⟨pi, hpi, hmem⟩ := List.mem_flatMap.mp hep
  rw [pathContrib] at hmem
  obtain ⟨mv, hmv, hmem2⟩ := List.mem_flatMap.mp hmem
  by_cases hm : mv.1 ∈ httpMethods
  · rw [if_pos hm] at hmem2
    rw [opContrib] at hmem2
    split at hmem2
    · obtain ⟨x, hx, hxe⟩ := List.mem_map.mp hmem2
      rw [← hxe, mkEndpoint_method]
      exact hm
    · cases hmem2
  · rw [if_neg hm] at hmem2
    cases hmem2

theorem listContains_append_left {n a b : List Char}
    (h : listContains n a = true) : listContains n (a ++ b) = true := by
  obtain ⟨p, q, rfl⟩ := listContains_iff.mp h
  exact listContains_iff.mpr ⟨p, q ++ b, by simp [List.append_assoc]⟩

theorem listContains_append_right {n a b : List Char}
    (h : listContains n b = true) : listContains n (a ++ b) = true := by
  obtain ⟨p, q, rfl⟩ := listContains_iff.mp h
  exact listContains_iff.mpr ⟨a ++ p, q, by simp [List.append_assoc]⟩

theorem containsSub_mem_joinStr {n p : String} :
    ∀ {P : List String}, p ∈ P → containsSub n p = true →
    containsSub n (joinStr P) = true := by
  intro P
  induction P with
  | nil => intro hp; cases hp
  | cons x rest ih =>
    intro hp hc
    have hdata : (joinStr (x :: rest)).data = x.data ++ (joinStr rest).data := by
      rw [joinStr, String.data_append]
    rcases List.mem_cons.mp hp with rfl | hp
    · show listContains n.data (joinStr (p :: rest)).data = true
      rw [hdata]
      exact listContains_append_left hc
    · show listContains n.data (joinStr (x :: rest)).data = true
      rw [hdata]
      exact listContains_append_right (ih hp hc)

theorem single_ok {s : String} (h : pieceOkS s = true) :
    ∀ p ∈ [s], pieceOkS p = true := by
  intro p hp
  rcases List.mem_singleton.mp hp with rfl
  exact h

theorem pieceOkS_intro {s : String}
    (h1 : listContains ['t', '>', 'a'] s.data = false)
    (h2 : s.data.head? ≠ some '>')
    (h3 : listEnds ['t', '>'] s.data = false) : pieceOkS s = true := by
  rw [pieceOkS, h1, h3]
  have h4 : (s.data.head? == some '>') = false := beq_eq_false_iff_ne.mpr h2
  rw [h4]
  rfl

theorem listEnds_append_tail {suf a b : List Char}
    (h : listEnds suf (a ++ b) = true) (hb : suf.length ≤ b.length) :
    listEnds suf b = true := by
  obtain ⟨pre, hp⟩ := listEnds_iff.mp h
  rcases List.append_eq_append_iff.mp hp with ⟨m, hm1, hm2⟩ | ⟨m, hm1, hm2⟩
  · exact listEnds_iff.mpr ⟨m, hm2⟩
  · have hlen : suf.length = m.length + b.length := by
      rw [hm2]; simp
    have hm : m = [] := by
      cases m with
      | nil => rfl
      | cons x xs => simp at hlen; omega
    subst hm
    simp only [List.nil_append] at hm2
    exact listEnds_iff.mpr ⟨[], by simp [hm2]⟩

theorem joinStr_data_length_ge {y : String} :
    ∀ (Q : List String),
    y.data.length ≤ (joinStr (Q ++ [y])).data.length := by
  intro Q
  induction Q with
  | nil =>
    rw [List.nil_append, joinStr, joinStr, String.data_append]
    simp
  | cons x R ih =>
    rw [List.cons_append, joinStr, String.data_append]
    simp only [List.length_append]
    omega

theorem listEnds_joinStr_false {lastS : String}
    (hlen : 2 ≤ lastS.data.length)
    (hlast : listEnds ['t', '>'] lastS.data = false) :
    ∀ (Q : List String),
    listEnds ['t', '>'] (joinStr (Q ++ [lastS])).data = false := by
  intro Q
  induction Q with
  | nil =>
    rw [List.nil_append, joinStr, joinStr]
    have : (lastS ++ "").data = lastS.data := by
      rw [String.data_append]; simp
    rw [this]
    exact hlast
  | cons x R ih =>
    rw [List.cons_append, joinStr]
    cases he : listEnds ['t', '>'] (x ++ joinStr (R ++ [lastS])).data
    · rfl
    · exfalso
      rw [String.data_append] at he
      have h2 := listEnds_append_tail he (by
        have := joinStr_data_length_ge (y := lastS) R
        simp only [List.length_cons, List.length_nil]
        omega)
      rw [ih] at h2
      cases h2

theorem pieceOk_of_chunks {P : List String} {y : String}
    (h : ∀ p ∈ P ++ [y], pieceOkS p = true)
    (hlen : 2 ≤ y.data.length) :
    pieceOkS (joinStr (P ++ [y])) = true := by
  obtain ⟨hnomark, hhead⟩ := joinStr_ok _ h
  have hlastok := h y (List.mem_append.mpr (Or.inr (List.mem_singleton.mpr rfl)))
  rw [pieceOkS] at hlastok
  simp only [Bool.and_eq_true, Bool.not_eq_true'] at hlastok
  exact pieceOkS_intro hnomark hhead (listEnds_joinStr_false hlen hlastok.2 P)

theorem lhS2_ok : pieceOkS lhS2 = true := by
  apply pieceOk_of_chunks (P := [lhS2c0, lhS2c1, lhS2c2, lhS2c3, lhS2c4,
    lhS2c5, lhS2c6, lhS2c7]) (y := lhS2c8)
  · intro p hp
    simp only [List.cons_append, List.nil_append, List.mem_cons,
      List.not_mem_nil, or_false] at hp
    rcases hp with rfl | rfl | rfl | rfl | rfl | rfl | rfl | rfl | rfl
    · decide
    · decide
    · decide
    · decide
    · decide
    · decide
    · decide
    · decide
    · decide
  · decide

theorem attack_absent {s : String} (h : containsSub "t>a" s = false) :
    containsSub "<script>alert(1)</script>" s = false := by
  cases hatk : containsSub "<script>alert(1)</script>" s
  · rfl
  · exfalso
    obtain ⟨pre, post, hdec⟩ := listContains_iff.mp hatk
    have hsplit : ("<script>alert(1)</script>" : String).data =
        ("<scrip" : String).data ++ ['t', '>', 'a'] ++
        ("lert(1)</script>" : String).data := by decide
    have hc : containsSub "t>a" s = true := by
      apply listContains_iff.mpr
      refine ⟨pre ++ ("<scrip" : String).data,
        ("lert(1)</script>" : String).data ++ post, ?_⟩
      rw [hdec, hsplit]
      simp [List.append_assoc]
    rw [h] at hc
    cases hc

/-- C7: every spec-derived text inserted into the landing page passes
through `escapeHtml` (whose output contains no `>` at all), the uppercased
method verbs are drawn from the five HTTP method words, and everything
else interpolated is a digit string or a marker-free static — so the page
never contains the substring `<script>alert(1)</script>` (witnessed by
its infix `t>a` never occurring), while a title containing `<script>`
makes the escaped form `&lt;script&gt;` appear. -/
theorem landing_spec_text_escaped (spec opts : JVal) (out : String)
    (h : generateHtmlLanding spec opts = .ok out) :
    containsSub "t>a" out = false ∧
    containsSub "<script>alert(1)</script>" out = false ∧
    (∀ t : String, jsPropT opts "title" = none →
      optChainProp (jsPropT spec "info") "title" = some (JVal.str t) →
      jsTruthy (JVal.str t) = true →
      containsSub "<script>" t = true →
      containsSub "&lt;script&gt;" out = true) := by
  rw [generateHtmlLanding] at h
  obtain ⟨projectName, hPN, h⟩ := bindOkE h
  obtain ⟨version, hV, h⟩ := bindOkE h
  obtain ⟨para, hPara, h⟩ := bindOkE h
  obtain ⟨groups, hG, h⟩ := bindOkE h
  obtain ⟨tagNames, hT, h⟩ := bindOkE h
  obtain ⟨cards, hC, h⟩ := bindOkE h
  obtain ⟨promptPs, hP, h⟩ := bindOkE h
  obtain ⟨sections, hS, h⟩ := bindOkE h
  injection h with h
  have hmeth := groups_methods hG
  have hall : ∀ p ∈ (
      [lhS0, projectName, lhS1, escapeHtml para, lhS2] ++
      (if decide (optChainProp (jsPropT opts "landing") "showPoweredBy" ≠
          some (JVal.bool false)) then
        [brandS1] ++ logoPieces 18 ++ [brandS2]
       else [""]) ++
      [lhS3, projectName, lhS4, escapeHtml para, lhS5] ++
      promptPs ++
      [lhS6, natStr (groups.foldl (fun acc g => acc + g.2.length) 0), lhS7,
        natStr tagNames.length, lhS8, version, lhS9] ++
      intercalatePieces cardSep cards ++
      [lhS10] ++
      authPieces (optChainProp (jsPropT spec "components")
        "securitySchemes") ++
      [lhS11] ++ sections ++
      [lhS12, projectName, lhS13, version, lhS14] ++
      (if decide (optChainProp (jsPropT opts "landing") "showPoweredBy" ≠
          some (JVal.bool false)) then
        [powS1] ++ logoPieces 16 ++ [powS2]
       else [""]) ++
      [lhS15]), pieceOkS p = true := by
    have hchunk1 : ∀ p ∈ [lhS0, projectName, lhS1, escapeHtml para, lhS2],
        pieceOkS p = true := by
      intro p hp
      simp only [List.mem_cons, List.not_mem_nil, or_false] at hp
      rcases hp with rfl | rfl | rfl | rfl | rfl
      · decide
      · exact escapeHtmlE_ok hPN
      · decide
      · exact escapeHtml_pieceOk _
      · exact lhS2_ok
    have hchunk3 : ∀ p ∈ [lhS3, projectName, lhS4, escapeHtml para, lhS5],
        pieceOkS p = true := by
      intro p hp
      simp only [List.mem_cons, List.not_mem_nil, or_false] at hp
      rcases hp with rfl | rfl | rfl | rfl | rfl
      · decide
      · exact escapeHtmlE_ok hPN
      · decide
      · exact escapeHtml_pieceOk _
      · decide
    have hchunk5 : ∀ p ∈ [lhS6,
        natStr (groups.foldl (fun acc g => acc + g.2.length) 0), lhS7,
        natStr tagNames.length, lhS8, version, lhS9],
        pieceOkS p = true := by
      intro p hp
      simp only [List.mem_cons, List.not_mem_nil, or_false] at hp
      rcases hp with rfl | rfl | rfl | rfl | rfl | rfl | rfl
      · decide
      · exact natStr_pieceOk _
      · decide
      · exact natStr_pieceOk _
      · decide
      · exact escapeHtmlE_ok hV
      · decide
    have hchunk11 : ∀ p ∈ [lhS12, projectName, lhS13, version, lhS14],
        pieceOkS p = true := by
      intro p hp
      simp only [List.mem_cons, List.not_mem_nil, or_false] at hp
      rcases hp with rfl | rfl | rfl | rfl | rfl
      · decide
      · exact escapeHtmlE_ok hPN
      · decide
      · exact escapeHtmlE_ok hV
      · decide
    have hbrand : ∀ p ∈ (if decide
        (optChainProp (jsPropT opts "landing") "showPoweredBy" ≠
          some (JVal.bool false)) then
        [brandS1] ++ (logoPieces 18 ++ [brandS2]) else [""]),
        pieceOkS p = true := by
      split
      · refine all_ok_append (single_ok (s := brandS1) (by decide))
          (all_ok_append (logoPieces_ok 18)
            (single_ok (s := brandS2) (by decide)))
      · exact single_ok empty_pieceOk
    have hpow : ∀ p ∈ (if decide
        (optChainProp (jsPropT opts "landing") "showPoweredBy" ≠
          some (JVal.bool false)) then
        [powS1] ++ (logoPieces 16 ++ [powS2]) else [""]),
        pieceOkS p = true := by
      split
      · refine all_ok_append (single_ok (s := powS1) (by decide))
          (all_ok_append (logoPieces_ok 16)
            (single_ok (s := powS2) (by decide)))
      · exact single_ok empty_pieceOk
    simp only [List.append_assoc]
    refine all_ok_append hchunk1 (all_ok_append hbrand (all_ok_append hchunk3
      (all_ok_append (promptPiecesE_ok hP) (all_ok_append hchunk5
      (all_ok_append (intercalatePieces_ok (by decide) cards
        (cardsForTags_ok hC))
      (all_ok_append (single_ok (s := lhS10) (by decide))
      (all_ok_append (authPieces_ok _)
      (all_ok_append (single_ok (s := lhS11) (by decide)) (all_ok_append
        (sectionsForTags_ok hmeth hS)
      (all_ok_append hchunk11 (all_ok_append hpow
        (single_ok (s := lhS15) (by decide)))))))))))))
  subst h
  have hjo := joinStr_ok _ hall
  refine ⟨hjo.1, attack_absent hjo.1, ?_⟩
  · intro t ht1 ht2 ht3 ht4
    have hval : jsOrVal (jsPropT opts "title")
        (jsOrVal (optChainProp (jsPropT spec "info") "title")
          (JVal.str "API")) = JVal.str t := by
      rw [ht1, ht2]
      simp [jsOrVal, ht3]
    rw [hval] at hPN
    simp only [escapeHtmlE, Except.ok.injEq] at hPN
    obtain ⟨pre, post, hdec⟩ := listContains_iff.mp ht4
    have hesc : (escapeHtml t).data =
        (pre.flatMap escapeHtmlChar) ++ ("&lt;script&gt;" : String).data ++
        (post.flatMap escapeHtmlChar) := by
      show t.data.flatMap escapeHtmlChar = _
      rw [hdec]
      rw [List.flatMap_append, List.flatMap_append]
      rw [show (("<script>" : String).data.flatMap escapeHtmlChar) =
        ("&lt;script&gt;" : String).data from by decide]
    have hin : containsSub "&lt;script&gt;" projectName = true := by
      rw [← hPN]
      exact listContains_iff.mpr ⟨_, _, hesc⟩
    refine containsSub_mem_joinStr ?_ hin
    simp

/-- Success test for the landing generator (used only to witness a run). -/
def landingOk (e : Except Unit String) : Bool :=
  match e with
  | .ok _ => true
  | .error _ => false

/-- A spec whose title carries a script-injection attempt. -/
def exC7 : JVal :=
  .obj [("info", .obj [("title", .str "Hi <script>alert(1)</script>")])]

/-- C7 witness: on the attacking spec the landing generator succeeds, the
attack string never appears, and its escaped form does. -/
theorem landing_spec_text_escaped_witness :
    ∃ out, generateHtmlLanding exC7 (JVal.obj []) = .ok out ∧
      containsSub "t>a" out = false ∧
      containsSub "<script>alert(1)</script>" out = false ∧
      containsSub "&lt;script&gt;" out = true := by
  rcases hrun : generateHtmlLanding exC7 (JVal.obj []) with e | out
  · exfalso
    have hok : landingOk (generateHtmlLanding exC7 (JVal.obj [])) = true := by
      decide
    rw [hrun] at hok
    simp [landingOk] at hok
  · have h := landing_spec_text_escaped exC7 (JVal.obj []) out hrun
    exact ⟨out, rfl, h.1, h.2.1,
      h.2.2 "Hi <script>alert(1)</script>" (by decide) (by decide)
        (by decide) (by decide)⟩

/-- `toLowerCase()`, character by character (ASCII; tag anchors). -/
def strLower (s : String) : String := ⟨s.data.map Char.toLower⟩

/-- `toLowerCase()` of a possibly-undefined raw tag value: throws unless
it is a string. -/
def toLowerE : Option JVal → Except Unit String
  | some (.str s) => .ok (strLower s)
  | _ => .error ()

/-- `.replace(/\s+/g, '-')`: each maximal whitespace run becomes one
dash. -/
def dashWs : List Char → List Char
  | [] => []
  | c :: rest =>
    if isJsWs c then '-' :: dashWs (rest.dropWhile isJsWs)
    else c :: dashWs rest
termination_by l => l.length
decreasing_by
  · have := (List.dropWhile_sublist (l := rest) isJsWs).length_le
    simp only [List.length_cons]
    omega
  · simp only [List.length_cons]
    omega

/-- A hexadecimal digit character. -/
def hexDigit (n : Nat) : Char :=
  if n < 10 then digitChar n
  else Char.ofNat (87 + n)

/-- One character of a JSON string literal, as `JSON.stringify` escapes
it. -/
def jsonEscChar (c : Char) : List Char :=
  if c = '"' then ['\\', '"']
  else if c = '\\' then ['\\', '\\']
  else if c = '\n' then ['\\', 'n']
  else if c = '\r' then ['\\', 'r']
  else if c = '\t' then ['\\', 't']
  else if c = '\x08' then ['\\', 'b']
  else if c = '\x0c' then ['\\', 'f']
  else if c.toNat < 32 then
    ['\\', 'u', '0', '0', hexDigit (c.toNat / 16), hexDigit (c.toNat % 16)]
  else [c]

mutual
/-- `JSON.stringify` on the JSON-value fragment of JS values (no
`undefined`, functions or symbols occur in the tree model). -/
def jsonStringify : JVal → String
  | .null => "null"
  | .bool b => if b then "true" else "false"
  | .num n => intStr n
  | .str s => ⟨'"' :: (s.data.flatMap jsonEscChar) ++ ['"']⟩
  | .arr items => "[" ++ String.intercalate "," (jsonStringifyL items) ++ "]"
  | .obj kvs =>
    "\x7b" ++ String.intercalate "," (jsonStringifyE kvs) ++ "\x7d"

/-- Array elements. -/
def jsonStringifyL : List JVal → List String
  | [] => []
  | v :: rest => jsonStringify v :: jsonStringifyL rest

/-- Object members. -/
def jsonStringifyE : List (String × JVal) → List String
  | [] => []
  | (k, v) :: rest =>
    (⟨'"' :: (k.data.flatMap jsonEscChar) ++ ['"']⟩ ++ ":" ++
      jsonStringify v) :: jsonStringifyE rest
end

/-- `'  '.repeat(depth)`. -/
def indentOf (d : Nat) : String := ⟨List.replicate (2 * d) ' '⟩

/-- `required.includes(key)` of `prettySchema`: array element test by
strict equality, substring test on a string receiver, `.includes` is not
a function on other truthy values. -/
def requiredIncludesE (req : JVal) (key : String) : Except Unit Bool :=
  match req with
  | .arr xs => .ok (decide (JVal.str key ∈ xs))
  | .str s => .ok (containsSub key s)
  | _ => .error ()

mutual

/-- `prettySchema(schema, depth)` from compact-schema.ts: the indented
human-readable rendering; unions join variants with `" | "`. -/
def prettySchema (schema : JVal) (depth : Nat) : Except Unit String :=
  if jsTruthy schema = false ∨ depth > 3 then .ok "..."
  else
    match hv : jsOrProp (jsPropT schema "oneOf") (jsPropT schema "anyOf") with
    | some variants =>
      if jsTruthy variants = true then
        match hva : variants with
        | .arr vs => do
          let parts ← prettyVariants vs depth
          .ok (String.intercalate " | " parts)
        | _ => .error ()
      else prettyNonUnion schema depth
    | none => prettyNonUnion schema depth
termination_by (jm schema, 3, 0)
decreasing_by
  · have h1 : jm (JVal.arr vs) < jm schema := by
      rcases jsOrProp_some hv with h | h
      · exact jsPropT_jm h
      · exact jsPropT_jm h
    have h2 : maxJmL vs < jm schema := by
      apply maxJmL_lt (jm_pos schema)
      intro v hvmem
      simp only [jm] at h1
      have h3 : jm v ≤ jmL vs := jmL_mem hvmem
      omega
    exact Prod.Lex.left _ _ h2
  · exact Prod.Lex.right _ (Prod.Lex.left _ _ (by omega))
  · exact Prod.Lex.right _ (Prod.Lex.left _ _ (by omega))

/-- The non-union tail of `prettySchema`: object branch (returning
`\x7b\x7d` when the property record is absent, falsy or empty), array
branch, scalar fallthrough. -/
def prettyNonUnion (schema : JVal) (depth : Nat) : Except Unit String :=
  if objShaped schema = true then
    match hp : jsPropT schema "properties" with
    | some p =>
      if jsTruthy p = true then
        if (jsEntries p).length = 0 then .ok "\x7b\x7d"
        else do
          let rows ← prettyProps (jsEntries p)
            (jsOrVal (jsPropT schema "required") (JVal.arr [])) depth
          .ok (String.intercalate "\n"
            ("\x7b" :: (rows ++ [indentOf depth ++ "\x7d"])))
      else .ok "\x7b\x7d"
    | none => .ok "\x7b\x7d"
  else if jsPropT schema "type" = some (JVal.str "array") then
    match hit : jsPropT schema "items" with
    | some it =>
      if optTruthy (optChainProp (some it) "properties") = true then do
        let s ← prettySchema it depth
        .ok ("[" ++ s ++ "]")
      else
        .ok (jsToString (jsOrStr (optChainProp (some it) "type") "any") ++
          "[]")
    | none => .ok (jsToString (jsOrStr none "any") ++ "[]")
  else
    .ok (jsToString (jsOrStr (jsPropT schema "type") "any"))
termination_by (jm schema, 2, 0)
decreasing_by
  · have h1 : jm p < jm schema := jsPropT_jm hp
    have h2 : maxJmE (jsEntries p) < jm schema := by
      apply maxJmE_lt (jm_pos schema)
      intro kv hkv
      have := jm_jsEntries hkv
      omega
    exact Prod.Lex.left _ _ h2
  · have h1 : jm it < jm schema := jsPropT_jm hit
    exact Prod.Lex.left _ _ h1

/-- `variants.map((v) => prettySchema(v, depth))`. -/
def prettyVariants (vs : List JVal) (depth : Nat) :
    Except Unit (List String) :=
  match vs with
  | [] => .ok []
  | v :: rest => do
    let s ← prettySchema v depth
    let more ← prettyVariants rest depth
    .ok (s :: more)
termination_by (maxJmL vs, 9, vs.length)
decreasing_by
  · have h1 : jm x ≤ maxJmL (x :: xs) := by simp only [maxJmL]; omega
    rcases Nat.lt_or_ge (jm x) (maxJmL (x :: xs)) with h | h
    · exact Prod.Lex.left _ _ h
    · have he : maxJmL (x :: xs) = jm x := Nat.le_antisymm h h1
      rw [he]
      exact Prod.Lex.right _ (Prod.Lex.left _ _ (by omega))
  · have h1 : maxJmL xs ≤ maxJmL (x :: xs) := by simp only [maxJmL]; omega
    rcases Nat.lt_or_ge (maxJmL xs) (maxJmL (x :: xs)) with h | h
    · exact Prod.Lex.left _ _ h
    · have he : maxJmL (x :: xs) = maxJmL xs := Nat.le_antisymm h h1
      rw [he]
      exact Prod.Lex.right _ (Prod.Lex.right _
        (by simp only [List.length_cons]; omega))

/-- The property loop of `prettySchema`'s object branch: one indented
line per property, with ` (required)` from `required.includes(key)` and
` — e.g. ` plus `JSON.stringify(example)` on scalars carrying an
example. -/
def prettyProps (l : List (String × JVal)) (req : JVal) (depth : Nat) :
    Except Unit (List String) :=
  match l with
  | [] => .ok []
  | (key, value) :: rest =>
    if value = JVal.null then .error ()
    else if objShaped value = true then do
      let isReq ← requiredIncludesE req key
      let s ← prettySchema value (depth + 1)
      let more ← prettyProps rest req depth
      .ok ((indentOf depth ++ "  \"" ++ key ++ "\": " ++ s ++
        (if isReq then " (required)" else "")) :: more)
    else if jsPropT value "type" = some (JVal.str "array") then
      match hit : jsPropT value "items" with
      | some it =>
        if optTruthy (optChainProp (some it) "properties") = true then do
          let isReq ← requiredIncludesE req key
          let s ← prettySchema it (depth + 1)
          let more ← prettyProps rest req depth
          .ok ((indentOf depth ++ "  \"" ++ key ++ "\": [" ++ s ++ "]" ++
            (if isReq then " (required)" else "")) :: more)
        else do
          let isReq ← requiredIncludesE req key
          let more ← prettyProps rest req depth
          .ok ((indentOf depth ++ "  \"" ++ key ++ "\": " ++
            jsToString (jsOrStr (optChainProp (some it) "type") "any") ++
            "[]" ++ (if isReq then " (required)" else "")) :: more)
      | none => do
          let isReq ← requiredIncludesE req key
          let more ← prettyProps rest req depth
          .ok ((indentOf depth ++ "  \"" ++ key ++ "\": " ++
            jsToString (jsOrStr none "any") ++ "[]" ++
            (if isReq then " (required)" else "")) :: more)
    else do
      let isReq ← requiredIncludesE req key
      let more ← prettyProps rest req depth
      .ok ((indentOf depth ++ "  \"" ++ key ++ "\": " ++
        jsToString (jsOrStr (jsPropT value "type") "string") ++
        (match jsPropT value "example" with
         | some ex => " — e.g. " ++ jsonStringify ex
         | none => "") ++
        (if isReq then " (required)" else "")) :: more)
termination_by (maxJmE l, 9, l.length)
decreasing_by
  · have h1 : jm value ≤ maxJmE ((key, value) :: rest) := by
      simp only [maxJmE]; omega
    rcases Nat.lt_or_ge (jm value) (maxJmE ((key, value) :: rest)) with h | h
    · exact Prod.Lex.left _ _ h
    · have he : maxJmE ((key, value) :: rest) = jm value := Nat.le_antisymm h h1
      rw [he]
      exact Prod.Lex.right _ (Prod.Lex.left _ _ (by omega))
  · have h1 : maxJmE rest ≤ maxJmE ((key, value) :: rest) := by
      simp only [maxJmE]; omega
    rcases Nat.lt_or_ge (maxJmE rest) (maxJmE ((key, value) :: rest)) with h | h
    · exact Prod.Lex.left _ _ h
    · have he : maxJmE ((key, value) :: rest) = maxJmE rest := Nat.le_antisymm h h1
      rw [he]
      exact Prod.Lex.right _ (Prod.Lex.right _
        (by simp only [List.length_cons]; omega))
  · have h1 : jm it < jm value := jsPropT_jm hit
    have h2 : jm value ≤ maxJmE ((key, value) :: rest) := by
      simp only [maxJmE]; omega
    exact Prod.Lex.left _ _ (by omega)
  · have h1 : maxJmE rest ≤ maxJmE ((key, value) :: rest) := by
      simp only [maxJmE]; omega
    rcases Nat.lt_or_ge (maxJmE rest) (maxJmE ((key, value) :: rest)) with h | h
    · exact Prod.Lex.left _ _ h
    · have he : maxJmE ((key, value) :: rest) = maxJmE rest := Nat.le_antisymm h h1
      rw [he]
      exact Prod.Lex.right _ (Prod.Lex.right _
        (by simp only [List.length_cons]; omega))
  · have h1 : maxJmE rest ≤ maxJmE ((key, value) :: rest) := by
      simp only [maxJmE]; omega
    rcases Nat.lt_or_ge (maxJmE rest) (maxJmE ((key, value) :: rest)) with h | h
    · exact Prod.Lex.left _ _ h
    · have he : maxJmE ((key, value) :: rest) = maxJmE rest := Nat.le_antisymm h h1
      rw [he]
      exact Prod.Lex.right _ (Prod.Lex.right _
        (by simp only [List.length_cons]; omega))
  · have h1 : maxJmE rest ≤ maxJmE ((key, value) :: rest) := by
      simp only [maxJmE]; omega
    rcases Nat.lt_or_ge (maxJmE rest) (maxJmE ((key, value) :: rest)) with h | h
    · exact Prod.Lex.left _ _ h
    · have he : maxJmE ((key, value) :: rest) = maxJmE rest := Nat.le_antisymm h h1
      rw [he]
      exact Prod.Lex.right _ (Prod.Lex.right _
        (by simp only [List.length_cons]; omega))
  · have h1 : maxJmE rest ≤ maxJmE ((key, value) :: rest) := by
      simp only [maxJmE]; omega
    rcases Nat.lt_or_ge (maxJmE rest) (maxJmE ((key, value) :: rest)) with h | h
    · exact Prod.Lex.left _ _ h
    · have he : maxJmE ((key, value) :: rest) = maxJmE rest := Nat.le_antisymm h h1
      rw [he]
      exact Prod.Lex.right _ (Prod.Lex.right _
        (by simp only [List.length_cons]; omega))

end

/-- Table-of-contents entries: one line per tag with a non-empty group,
with the lower-cased, dash-collapsed anchor. -/
def tocLines (groups : List (String × List EndpointInfo)) :
    List (Option JVal) → Except Unit (List String)
  | [] => .ok []
  | t :: rest =>
    if (groupGet groups (propKeyU t)).length > 0 then do
      let low ← toLowerE t
      let more ← tocLines groups rest
      .ok (("- [" ++ jsToStringU t ++ "](#" ++
        String.mk (dashWs low.data) ++ ")") :: more)
    else tocLines groups rest

/-- The Authentication section of the human docs (lines 486–515). -/
def humanAuthLines (ss : Option JVal) : List String :=
  match ss with
  | none => []
  | some v =>
    if jsTruthy v = false then []
    else
      ["---", "", "## Authentication", ""] ++
      (if optTruthy (jsPropT v "bearerAuth") then
        ["### JWT Bearer Token", "", "Used for admin panel access.", "",
         "```", "Authorization: Bearer <token>", "```", "",
         "Obtain a token via `POST /auth/login` with email and password.",
         ""]
       else []) ++
      (if optTruthy (jsPropT v "apiKeyAuth") then
        ["### API Key", "", "Used for backend-to-backend authentication.",
         "", "```", "X-API-Key: sk_<appId>_<randomhex>", "```", "",
         "Create keys via `POST /api-keys`. Each key is scoped to a specific app.",
         ""]
       else [])

/-- One path-parameter table row. -/
def pathParamRow (p : JVal) : String :=
  "| `" ++ jsToStringU (jsPropT p "name") ++ "` | " ++
  jsToString (jsOrStr (optChainProp (jsPropT p "schema") "type") "string") ++
  " | " ++ jsToString (jsOrVal (jsPropT p "description") (JVal.str "-")) ++
  " |"

/-- One query-parameter table row. -/
def queryParamRow (p : JVal) : String :=
  "| `" ++ jsToStringU (jsPropT p "name") ++ "` | " ++
  jsToString (jsOrStr (optChainProp (jsPropT p "schema") "type") "string") ++
  " | " ++ (if optTruthy (jsPropT p "required") then "Yes" else "No") ++
  " | " ++ jsToString (jsOrVal (jsPropT p "description")
    (jsOrVal (optChainProp (jsPropT p "schema") "description")
      (JVal.str "-"))) ++ " |"

/-- The request-body block of one endpoint. -/
def humanBody (body : JVal) : Except Unit (List String) :=
  if jsTruthy body = true then do
    let s ← prettySchema body 0
    Except.ok ["**Request Body:**", "", "```json", s, "```", ""]
  else Except.ok []

/-- The response blocks: every status entry whose schema
(content-negotiated or the response itself) has a truthy `type` or
`properties`; a null response value makes `res.content` throw. -/
def humanRespList : List (String × JVal) → Except Unit (List String)
  | [] => .ok []
  | (code, res) :: rest =>
    if res = JVal.null then .error ()
    else do
      let more ← humanRespList rest
      if optTruthy (jsPropT
            (jsOrVal (optChainProp (optChainProp (jsPropT res "content")
              "application/json") "schema") res) "type") = false ∧
         optTruthy (jsPropT
            (jsOrVal (optChainProp (optChainProp (jsPropT res "content")
              "application/json") "schema") res) "properties") = false then
        Except.ok more
      else do
        let s ← prettySchema
          (jsOrVal (optChainProp (optChainProp (jsPropT res "content")
            "application/json") "schema") res) 0
        Except.ok (("**Response " ++ code ++ ":**") :: "" :: "```json" ::
          s :: "```" :: "" :: more)

/-- See `humanRespList`; `Object.entries` throws on null. -/
def humanResp (responses : JVal) : Except Unit (List String) :=
  if responses = JVal.null then .error ()
  else humanRespList (jsEntries responses)

/-- The full per-endpoint block of the human reference (lines 533–596). -/
def humanEndpoint (ep : EndpointInfo) : Except Unit (List String) := do
  let auth ← formatSecurity ep.security
  let pathParams ← extractParamsByLocation ep.parameters "path"
  let queryParams ← extractParamsByLocation ep.parameters "query"
  let bodyL ← humanBody ep.body
  let respL ← humanResp ep.responses
  .ok (
    ("### `" ++ strUpper ep.method ++ "` " ++ ep.path) :: "" ::
    ((if jsTruthy ep.summary then ["**" ++ jsToString ep.summary ++ "**", ""]
      else []) ++
    (if jsTruthy ep.description = true ∧ ep.description ≠ ep.summary then
      [jsToString ep.description, ""] else []) ++
    ["**Auth:** " ++ auth, ""] ++
    (if pathParams.length > 0 then
      ["**Path Parameters:**", "", "| Parameter | Type | Description |",
       "|-----------|------|-------------|"] ++
      pathParams.map pathParamRow ++ [""]
     else []) ++
    (if queryParams.length > 0 then
      ["**Query Parameters:**", "",
       "| Parameter | Type | Required | Description |",
       "|-----------|------|----------|-------------|"] ++
      queryParams.map queryParamRow ++ [""]
     else []) ++
    bodyL ++ respL))

/-- All endpoint blocks of one group, in order. -/
def humanEndpoints : List EndpointInfo → Except Unit (List String)
  | [] => .ok []
  | ep :: rest => do
    let b ← humanEndpoint ep
    let more ← humanEndpoints rest
    .ok (b ++ more)

/-- One tagged section of the human reference (lines 519–597). -/
def humanSection (tags : Option JVal)
    (groups : List (String × List EndpointInfo)) (tag : Option JVal) :
    Except Unit (List String) :=
  if (groupGet groups (propKeyU tag)).length = 0 then .ok []
  else do
    let tagDef ← findTag tags tag
    let eps ← humanEndpoints (groupGet groups (propKeyU tag))
    .ok (["---", "", "## " ++ jsToStringU tag, ""] ++
      (match optChainProp tagDef "description" with
       | some d => if jsTruthy d then [jsToString d, ""] else []
       | none => []) ++ eps)

/-- All tagged sections in tag order. -/
def humanSections (tags : Option JVal)
    (groups : List (String × List EndpointInfo)) :
    List (Option JVal) → Except Unit (List String)
  | [] => .ok []
  | t :: rest => do
    let s ← humanSection tags groups t
    let more ← humanSections tags groups rest
    .ok (s ++ more)

/-- The reduced per-endpoint block of the untagged trailer
(lines 611–623). -/
def humanUntaggedEp (ep : EndpointInfo) : Except Unit (List String) := do
  let auth ← formatSecurity ep.security
  .ok (("### `" ++ strUpper ep.method ++ "` " ++ ep.path) :: "" ::
    ((if jsTruthy ep.summary then ["**" ++ jsToString ep.summary ++ "**", ""]
      else []) ++ ["**Auth:** " ++ auth, ""]))

/-- See `humanUntaggedEp`. -/
def humanUntaggedEps : List EndpointInfo → Except Unit (List String)
  | [] => .ok []
  | ep :: rest => do
    let b ← humanUntaggedEp ep
    let more ← humanUntaggedEps rest
    .ok (b ++ more)

/-- The untagged trailer: groups whose key is not among the raw declared
tag names (`Set.has` with a string key matches only equal string
entries). -/
def humanUntagged (tagNames : List (Option JVal)) :
    List (String × List EndpointInfo) → Except Unit (List String)
  | [] => .ok []
  | (tag, eps) :: rest =>
    if some (JVal.str tag) ∈ tagNames ∨ eps.length = 0 then
      humanUntagged tagNames rest
    else do
      let epl ← humanUntaggedEps eps
      let more ← humanUntagged tagNames rest
      .ok (["---", "", "## " ++ tag, ""] ++ epl ++ more)

/-- `generateHumanDocs` from part_005 (lines 452–627). -/
def generateHumanDocs (spec opts : JVal) : Except Unit String := do
  let groups ← groupPathsByTag spec
  let tagNames ← tagNamesE (jsOrVal (jsPropT spec "tags") (JVal.arr []))
  let toc ← tocLines groups tagNames
  let secs ← humanSections (jsPropT spec "tags") groups tagNames
  let unt ← humanUntagged tagNames groups
  .ok (String.intercalate "\n" (
    ["# " ++ jsToString (jsOrVal (jsPropT opts "title")
        (jsOrVal (optChainProp (jsPropT spec "info") "title")
          (JVal.str "API"))), "",
     "**Version:** " ++ jsToString
       (jsOrVal (optChainProp (jsPropT spec "info") "version")
         (JVal.str "")) ++ "  ",
     "**Base URL:** " ++ jsToString
       (jsOrVal (jsPropT opts "baseUrl")
         (jsOrVal
           (optChainProp (optChainIdx (jsPropT spec "servers") "0") "url")
           (JVal.str ""))), ""] ++
    (if jsTruthy (jsOrVal (optChainProp (jsPropT spec "info") "description")
        (JVal.str "")) then
      [jsToString (jsOrVal (optChainProp (jsPropT spec "info") "description")
        (JVal.str "")), ""]
     else []) ++
    ["## Table of Contents", "", "- [Authentication](#authentication)"] ++
    toc ++ [""] ++
    humanAuthLines (optChainProp (jsPropT spec "components")
      "securitySchemes") ++
    secs ++ unt))

/-- Endpoint blocks of one tag group in the compact summary. -/
def endpointBlocks : List EndpointInfo → Except Unit (List String)
  | [] => .ok []
  | ep :: rest => do
    let b ← endpointBlock ep
    let more ← endpointBlocks rest
    .ok (b ++ more)

/-- `processTag` of the compact generator (part_012 lines 58–105): the
tag heading, its optional description and the endpoint blocks; tags with
a missing or empty group contribute nothing. -/
def llmsTagSection (tags : Option JVal)
    (groups : List (String × List EndpointInfo)) (tag : Option JVal) :
    Except Unit (List String) :=
  if (groupGet groups (propKeyU tag)).length = 0 then .ok []
  else do
    let tagDef ← findTag tags tag
    let blocks ← endpointBlocks (groupGet groups (propKeyU tag))
    .ok (("## " ++ jsToStringU tag) ::
      ((match optChainProp tagDef "description" with
        | some d => if jsTruthy d then [jsToString d] else []
        | none => []) ++ [""] ++ blocks))

/-- All compact sections for a list of tags. -/
def llmsSections (tags : Option JVal)
    (groups : List (String × List EndpointInfo)) :
    List (Option JVal) → Except Unit (List String)
  | [] => .ok []
  | t :: rest => do
    let s ← llmsTagSection tags groups t
    let more ← llmsSections tags groups rest
    .ok (s ++ more)

/-- The Auth Methods section of the compact summary (lines 36–46). -/
def llmsAuthLines (ss : Option JVal) : List String :=
  match ss with
  | none => []
  | some v =>
    if jsTruthy v = false then []
    else
      "## Auth Methods" ::
      ((if optTruthy (jsPropT v "bearerAuth") then
        ["- JWT: `Authorization: Bearer <token>` via POST /auth/login"]
       else []) ++
      (if optTruthy (jsPropT v "apiKeyAuth") then
        ["- KEY: `X-API-Key: sk_<appId>_<hex>` via POST /api-keys"]
       else []) ++ [""])

/-- `generateLlmsTxt` from part_012: header, auth shorthands,
conventions, then the per-tag endpoint sections in declared tag order
followed by the groups not named by any declared tag. -/
def generateLlmsTxt (spec opts : JVal) : Except Unit String := do
  let para ← extractFirstParagraphE
    (jsOrVal (optChainProp (jsPropT spec "info") "description")
      (JVal.str ""))
  let groups ← groupPathsByTag spec
  let tagNames ← tagNamesE (jsOrVal (jsPropT spec "tags") (JVal.arr []))
  let s1 ← llmsSections (jsPropT spec "tags") groups tagNames
  let s2 ← llmsSections (jsPropT spec "tags") groups
    (((groups.map Prod.fst).filter
      (fun k => decide (some (JVal.str k) ∉ tagNames))).map
      (fun k => some (JVal.str k)))
  .ok (String.intercalate "\n" (
    ["# " ++ jsToString (jsOrVal (jsPropT opts "title")
        (jsOrVal (optChainProp (jsPropT spec "info") "title")
          (JVal.str "API"))), ""] ++
    (if para = "" then [] else ["> " ++ para, ""]) ++
    ["Base: " ++ jsToString (jsOrVal (jsPropT opts "baseUrl")
        (jsOrVal
          (optChainProp (optChainIdx (jsPropT spec "servers") "0") "url")
          (JVal.str ""))),
     "Docs: [HTML](" ++ jsToString (jsOrVal (jsPropT opts "baseUrl")
        (jsOrVal
          (optChainProp (optChainIdx (jsPropT spec "servers") "0") "url")
          (JVal.str ""))) ++
       "/) | [OpenAPI JSON](" ++
       jsToString (jsOrVal (jsPropT opts "baseUrl")
        (jsOrVal
          (optChainProp (optChainIdx (jsPropT spec "servers") "0") "url")
          (JVal.str ""))) ++ "/openapi.json)", ""] ++
    llmsAuthLines (optChainProp (jsPropT spec "components")
      "securitySchemes") ++
    ["## Conventions",
     "- Auth: JWT = Bearer token, KEY = API Key, JWT|KEY = either, NONE = no auth",
     "- `*` after field name = required, all fields string unless noted with `:type`",
     "- Common errors: 400/401/404 return `\x7bsuccess:false, error\x7d`",
     "", "---", ""] ++
    s1 ++ s2))

/-- The `SwagentOutput` triple returned by `generate`. -/
structure SwagentOutput where
  llmsTxt : String
  humanDocs : String
  htmlLanding : String
deriving DecidableEq

/-- `generate` from generate.ts: resolve every `$ref`/`allOf`, then run
the three generators on the resolved spec. -/
def generate (spec opts : JVal) : Except Unit SwagentOutput := do
  let resolved ← resolveRefs spec
  let l ← generateLlmsTxt resolved opts
  let h ← generateHumanDocs resolved opts
  let p ← generateHtmlLanding resolved opts
  .ok ⟨l, h, p⟩

/-- `fallbackOutput` from generate.ts. -/
def fallbackOutput : SwagentOutput :=
  { llmsTxt := "# API\n\n> Documentation generation failed."
    humanDocs := "# API\n\n> Documentation generation failed."
    htmlLanding := "<!DOCTYPE html><html><body><h1>API</h1><p>Documentation generation failed.</p></body></html>" }

/-- C8: `generate` is deterministic — it is a pure function of the spec
and options trees (the whole pipeline is embedded as total, effect-free
functions: no clock, counter or hidden state occurs anywhere in it), so
structurally-equal inputs give byte-identical triples, and two runs on
the same input give byte-identical triples. -/
theorem generate_deterministic (s1 s2 o1 o2 : JVal)
    (h1 : s1 = s2) (h2 : o1 = o2) :
    generate s1 o1 = generate s2 o2 ∧
    generate s1 o1 = generate s1 o1 := by
  subst h1
  subst h2
  exact ⟨rfl, rfl⟩

/-- A small spec for the determinism witness. -/
def exC8 : JVal := .obj [("info", .obj [("title", .str "T")])]

/-- C8 witness: two runs on the example spec coincide. -/
theorem generate_deterministic_witness :
    generate exC8 (JVal.obj []) = generate exC8 (JVal.obj []) :=
  (generate_deterministic exC8 exC8 (JVal.obj []) (JVal.obj []) rfl rfl).1

/-- Heap-model values: primitives are immutable, objects and arrays live
on the heap behind an address.  This explicit-state model of
resolve-refs.ts exists for the frame property (no mutation of the input),
which the immutable tree model cannot express. -/
inductive HVal where
  | null
  | bool (b : Bool)
  | num (n : Int)
  | str (s : String)
  | ref (a : Nat)
deriving DecidableEq, Repr

/-- A heap cell: one JS object or array. -/
inductive HObj where
  | arr (items : List HVal)
  | obj (kvs : List (String × HVal))
deriving DecidableEq, Repr

/-- The heap: addresses are indices, allocation appends. -/
abbrev Heap := List HObj

/-- Read a heap cell. -/
def hLookup (h : Heap) (a : Nat) : Option HObj := h.get? a

/-- Allocate a fresh cell at the next address. -/
def allocH (h : Heap) (o : HObj) : Heap × Nat := (h ++ [o], h.length)

/-- Overwrite a cell in place (the only mutation primitive). -/
def writeH (h : Heap) (a : Nat) (o : HObj) : Heap := h.set a o

/-- First entry with the key. -/
def hFind : List (String × HVal) → String → Option HVal
  | [], _ => none
  | (k, v) :: rest, key => if k = key then some v else hFind rest key

/-- `target[key] = v`: update the first occurrence or append. -/
def hRecordSet : List (String × HVal) → String → HVal → List (String × HVal)
  | [], key, v => [(key, v)]
  | (k, w) :: rest, key, v =>
    if k = key then (k, v) :: rest else (k, w) :: hRecordSet rest key v

/-- `Object.assign(target, …)` entry folding on the heap model. -/
def hAssign (target : List (String × HVal)) :
    List (String × HVal) → List (String × HVal)
  | [] => target
  | (k, v) :: rest => hAssign (hRecordSet target k v) rest

/-- JS truthiness of a heap value (objects and arrays are truthy). -/
def hTruthy : HVal → Bool
  | .null => false
  | .bool b => b
  | .num n => n != 0
  | .str s => s ≠ ""
  | .ref _ => true

/-- Property read on a heap value (`undefined` on primitives and missing
keys; arrays expose `length` and canonical indices). -/
def hProp (h : Heap) (v : HVal) (k : String) : Option HVal :=
  match v with
  | .ref a =>
    match hLookup h a with
    | some (.obj kvs) => hFind kvs k
    | some (.arr items) =>
      if k = "length" then some (.num items.length)
      else
        match canonIndex k with
        | some i => items.get? i
        | none => none
    | none => none
  | _ => none

/-- `Object.entries` on a heap value. -/
def hEntries (h : Heap) (v : HVal) : List (String × HVal) :=
  match v with
  | .ref a =>
    match hLookup h a with
    | some (.obj kvs) => kvs
    | some (.arr items) => (items.enum).map (fun p => (toString p.1, p.2))
    | none => []
  | .str s => (s.data.enum).map
      (fun p => (toString p.1, .str (String.singleton p.2)))
  | _ => []

/-- The pointer walk of `lookupRef` over the heap (read-only). -/
def hLookupRefGo (h : Heap) : List String → HVal → Option HVal
  | [], cur => some cur
  | p :: rest, cur =>
    match cur with
    | .ref a =>
      match hLookup h a with
      | some (.obj kvs) =>
        match hFind kvs p with
        | some v => hLookupRefGo h rest v
        | none => none
      | some (.arr items) =>
        if p = "length" then hLookupRefGo h rest (.num items.length)
        else
          match canonIndex p with
          | some i =>
            match items.get? i with
            | some v => hLookupRefGo h rest v
            | none => none
          | none => none
      | none => none
    | _ => none

/-- `lookupRef` on the heap model. -/
def hLookupRef (h : Heap) (ref : String) (root : HVal) : Option HVal :=
  if isInternalRef ref then hLookupRefGo h (refSegments ref) root else none

/-- `[...new Set(l)]` on heap values: first occurrences in order
(reference identity for objects is address equality). -/
def hDedupAux (seen : List HVal) : List HVal → List HVal
  | [] => []
  | v :: rest =>
    if v ∈ seen then hDedupAux seen rest
    else v :: hDedupAux (v :: seen) rest

/-- See `hDedupAux`. -/
def hDedup (l : List HVal) : List HVal := hDedupAux [] l

/-- The `allOf` test: the `allOf` value is an array on the heap. -/
def hAllOfArr (h : Heap) (kvs : List (String × HVal)) : Option (List HVal) :=
  match hFind kvs "allOf" with
  | some (.ref b) =>
    match hLookup h b with
    | some (.arr items) => some items
    | _ => none
  | _ => none

/-- The `merged[k] = v` writes of `mergeAllOf`'s override loop: every
entry except `properties`, `required` and `allOf` is written into the
merged object at address `m`. -/
def mergedWrites (h : Heap) (m : Nat) :
    List (String × HVal) → Heap
  | [] => h
  | (k, v) :: rest =>
    if k ≠ "properties" ∧ k ≠ "required" ∧ k ≠ "allOf" then
      match hLookup h m with
      | some (.obj cur) =>
        mergedWrites (writeH h m (.obj (hRecordSet cur k v))) m rest
      | _ => mergedWrites h m rest
    else mergedWrites h m rest

mutual

/-- `deepResolve` on the heap model, fuel-indexed: `none` is fuel
exhaustion (or a dangling address, which well-formed heaps never
produce); `some (h, .error ())` a thrown TypeError; `some (h, .ok v)`
the result value in the updated heap. -/
def hDeepResolve : Nat → Heap → HVal → HVal → List String →
    Option (Heap × Except Unit HVal)
  | 0, _, _, _, _ => none
  | fuel + 1, h, node, root, seen =>
    match node with
    | .null => some (h, .ok node)
    | .bool _ => some (h, .ok node)
    | .num _ => some (h, .ok node)
    | .str _ => some (h, .ok node)
    | .ref a =>
      match hLookup h a with
      | none => none
      | some (.arr items) =>
        match hResolveList fuel h items root seen with
        | none => none
        | some (h1, .error e) => some (h1, .error e)
        | some (h1, .ok vs) =>
          some ((allocH h1 (.arr vs)).1, .ok (.ref (allocH h1 (.arr vs)).2))
      | some (.obj kvs) =>
        match hFind kvs "$ref" with
        | some (.str r) =>
          if r ∈ seen then
            some ((allocH h (.obj [("type", .str "object")])).1,
              .ok (.ref (allocH h (.obj [("type", .str "object")])).2))
          else
            match hLookupRef h r root with
            | some t =>
              if hTruthy t then hDeepResolve fuel h t root (r :: seen)
              else some (h, .ok node)
            | none => some (h, .ok node)
        | _ =>
          match hAllOfArr h kvs with
          | some schemas => hMergeAllOf fuel h schemas root seen
          | none =>
            match hResolveEntries fuel (allocH h (.obj [])).1 kvs root seen
                (allocH h (.obj [])).2 with
            | none => none
            | some (h2, .error e) => some (h2, .error e)
            | some (h2, .ok _) => some (h2, .ok (.ref (allocH h (.obj [])).2))

/-- `node.map((item) => deepResolve(item, root, seen))`, elementwise. -/
def hResolveList : Nat → Heap → List HVal → HVal → List String →
    Option (Heap × Except Unit (List HVal))
  | 0, _, _, _, _ => none
  | _ + 1, h, [], _, _ => some (h, .ok [])
  | fuel + 1, h, v :: rest, root, seen =>
    match hDeepResolve fuel h v root seen with
    | none => none
    | some (h1, .error e) => some (h1, .error e)
    | some (h1, .ok v2) =>
      match hResolveList fuel h1 rest root seen with
      | none => none
      | some (h2, .error e) => some (h2, .error e)
      | some (h2, .ok vs) => some (h2, .ok (v2 :: vs))

/-- The `result[key] = deepResolve(value, …)` loop of the plain-object
branch, writing into the freshly allocated record at `a`. -/
def hResolveEntries : Nat → Heap → List (String × HVal) → HVal →
    List String → Nat → Option (Heap × Except Unit Unit)
  | 0, _, _, _, _, _ => none
  | _ + 1, h, [], _, _, _ => some (h, .ok ())
  | fuel + 1, h, (k, v) :: rest, root, seen, a =>
    match hDeepResolve fuel h v root seen with
    | none => none
    | some (h1, .error e) => some (h1, .error e)
    | some (h1, .ok v2) =>
      match hLookup h1 a with
      | some (.obj cur) =>
        hResolveEntries fuel (writeH h1 a (.obj (hRecordSet cur k v2)))
          rest root seen a
      | _ => none

/-- `mergeAllOf` on the heap: allocates the `merged` record (seeded with
`type: "object"`) and the `allProps` record, runs the accumulation loop,
then conditionally stores `properties` (the shared `allProps` object) and
the deduplicated `required` array into `merged`. -/
def hMergeAllOf : Nat → Heap → List HVal → HVal → List String →
    Option (Heap × Except Unit HVal)
  | 0, _, _, _, _ => none
  | fuel + 1, h, schemas, root, seen =>
    match hMergeLoop fuel
        (allocH (allocH h (.obj [("type", .str "object")])).1 (.obj [])).1
        schemas root seen
        (allocH h (.obj [("type", .str "object")])).2
        (allocH (allocH h (.obj [("type", .str "object")])).1 (.obj [])).2
        [] with
    | none => none
    | some (h3, .error e) => some (h3, .error e)
    | some (h3, .ok allRequired) =>
      match hLookup h3
          (allocH (allocH h (.obj [("type", .str "object")])).1
            (.obj [])).2 with
      | some (.obj pk) =>
        match hLookup
            (if pk.length > 0 then
              match hLookup h3 (allocH h (.obj [("type", .str "object")])).2
                  with
              | some (.obj mk) =>
                writeH h3 (allocH h (.obj [("type", .str "object")])).2
                  (.obj (hRecordSet mk "properties"
                    (.ref (allocH (allocH h
                      (.obj [("type", .str "object")])).1 (.obj [])).2)))
              | _ => h3
             else h3)
            (allocH h (.obj [("type", .str "object")])).2 with
        | some (.obj mk2) =>
          if allRequired.length > 0 then
            some (writeH
              (allocH (if pk.length > 0 then
                match hLookup h3
                    (allocH h (.obj [("type", .str "object")])).2 with
                | some (.obj mk) =>
                  writeH h3 (allocH h (.obj [("type", .str "object")])).2
                    (.obj (hRecordSet mk "properties"
                      (.ref (allocH (allocH h
                        (.obj [("type", .str "object")])).1 (.obj [])).2)))
                | _ => h3
               else h3) (.arr (hDedup allRequired))).1
              (allocH h (.obj [("type", .str "object")])).2
              (.obj (hRecordSet mk2 "required"
                (.ref (allocH (if pk.length > 0 then
                  match hLookup h3
                      (allocH h (.obj [("type", .str "object")])).2 with
                  | some (.obj mk) =>
                    writeH h3 (allocH h (.obj [("type", .str "object")])).2
                      (.obj (hRecordSet mk "properties"
                        (.ref (allocH (allocH h
                          (.obj [("type", .str "object")])).1 (.obj [])).2)))
                  | _ => h3
                 else h3) (.arr (hDedup allRequired))).2))),
              .ok (.ref (allocH h (.obj [("type", .str "object")])).2))
          else
            some ((if pk.length > 0 then
              match hLookup h3
                  (allocH h (.obj [("type", .str "object")])).2 with
              | some (.obj mk) =>
                writeH h3 (allocH h (.obj [("type", .str "object")])).2
                  (.obj (hRecordSet mk "properties"
                    (.ref (allocH (allocH h
                      (.obj [("type", .str "object")])).1 (.obj [])).2)))
              | _ => h3
             else h3), .ok (.ref (allocH h (.obj [("type", .str "object")])).2))
        | _ => none
      | _ => none

/-- The per-fragment loop of `mergeAllOf`: resolve the fragment (a null
result makes `resolved.properties` throw), `Object.assign` its object
`properties` into `allProps` (address `p`), push its array `required`
elements, and write its other entries over `merged` (address `m`). -/
def hMergeLoop : Nat → Heap → List HVal → HVal → List String → Nat →
    Nat → List HVal → Option (Heap × Except Unit (List HVal))
  | 0, _, _, _, _, _, _, _ => none
  | _ + 1, h, [], _, _, _, _, allReq => some (h, .ok allReq)
  | fuel + 1, h, sub :: rest, root, seen, m, p, allReq =>
    match hDeepResolve fuel h sub root seen with
    | none => none
    | some (h1, .error e) => some (h1, .error e)
    | some (h1, .ok resolved) =>
      if resolved = .null then some (h1, .error ())
      else
        hMergeLoop fuel
          (mergedWrites
            (match hProp h1 resolved "properties" with
             | some (.ref q) =>
               match hLookup h1 p with
               | some (.obj cur) =>
                 writeH h1 p (.obj (hAssign cur (hEntries h1 (.ref q))))
               | _ => h1
             | _ => h1)
            m
            (hEntries
              (match hProp h1 resolved "properties" with
               | some (.ref q) =>
                 match hLookup h1 p with
                 | some (.obj cur) =>
                   writeH h1 p (.obj (hAssign cur (hEntries h1 (.ref q))))
                 | _ => h1
               | _ => h1) resolved))
          rest root seen m p
          (allReq ++
            (match hProp h1 resolved "required" with
             | some (.ref q) =>
               match hLookup h1 q with
               | some (.arr xs) => xs
               | _ => []
             | _ => []))

end

/-- `resolveRefs` on the heap model. -/
def hResolveRefs (fuel : Nat) (h : Heap) (spec : HVal) :
    Option (Heap × Except Unit HVal) :=
  hDeepResolve fuel h spec spec []

/-- The frame property: the heap only grows, and every address below `b`
(the cells of the caller, in particular the whole input spec) reads the
same before and after. -/
def preserves (b : Nat) (h0 h1 : Heap) : Prop :=
  h0.length ≤ h1.length ∧ ∀ a, a < b → h1.get? a = h0.get? a

theorem preserves_refl (b : Nat) (h : Heap) : preserves b h h :=
  ⟨le_refl _, fun _ _ => rfl⟩

theorem preserves_trans {b : Nat} {h0 h1 h2 : Heap}
    (p : preserves b h0 h1) (q : preserves b h1 h2) : preserves b h0 h2 :=
  ⟨le_trans p.1 q.1, fun a ha => (q.2 a ha).trans (p.2 a ha)⟩

theorem preserves_len {b : Nat} {h0 h1 : Heap}
    (p : preserves b h0 h1) (hb : b ≤ h0.length) : b ≤ h1.length :=
  le_trans hb p.1

/-- Allocation preserves every live address. -/
theorem preserves_alloc {b : Nat} {h : Heap} (o : HObj) (hb : b ≤ h.length) :
    preserves b h (allocH h o).1 := by
  refine ⟨by simp [allocH], fun a ha => ?_⟩
  exact List.get?_append (by omega)

/-- A write at an address at or above `b` preserves every address
below `b`. -/
theorem preserves_write {b : Nat} {h : Heap} {m : Nat} (o : HObj)
    (hm : b ≤ m) : preserves b h (writeH h m o) := by
  refine ⟨by simp [writeH, List.length_set], fun a ha => ?_⟩
  exact List.get?_set_ne _ _ (by omega)

/-- The override-write loop of `mergeAllOf` only touches the merged
object's own address. -/
theorem mergedWrites_preserves {b m : Nat} (hm : b ≤ m) :
    ∀ (kvs : List (String × HVal)) (h : Heap),
      preserves b h (mergedWrites h m kvs) := by
  intro kvs
  induction kvs with
  | nil => intro h; exact preserves_refl b h
  | cons kv rest ih =>
    intro h
    obtain ⟨k, v⟩ := kv
    simp only [mergedWrites]
    split
    · split
      · exact preserves_trans (preserves_write _ hm) (ih _)
      · exact ih _
    · exact ih _

/-- Frame statement for `hDeepResolve` at one fuel level. -/
def frameD (b fuel : Nat) : Prop :=
  ∀ h node root seen h2 r, b ≤ List.length h →
    hDeepResolve fuel h node root seen = some (h2, r) → preserves b h h2

/-- Frame statement for `hResolveList` at one fuel level. -/
def frameL (b fuel : Nat) : Prop :=
  ∀ h items root seen h2 r, b ≤ List.length h →
    hResolveList fuel h items root seen = some (h2, r) → preserves b h h2

/-- Frame statement for `hResolveEntries` at one fuel level. -/
def frameE (b fuel : Nat) : Prop :=
  ∀ h kvs root seen a h2 r, b ≤ List.length h → b ≤ a →
    hResolveEntries fuel h kvs root seen a = some (h2, r) → preserves b h h2

/-- Frame statement for `hMergeAllOf` at one fuel level. -/
def frameM (b fuel : Nat) : Prop :=
  ∀ h schemas root seen h2 r, b ≤ List.length h →
    hMergeAllOf fuel h schemas root seen = some (h2, r) → preserves b h h2

/-- Frame statement for `hMergeLoop` at one fuel level. -/
def frameLp (b fuel : Nat) : Prop :=
  ∀ h subs root seen m p allReq h2 r, b ≤ List.length h → b ≤ m → b ≤ p →
    hMergeLoop fuel h subs root seen m p allReq = some (h2, r) →
      preserves b h h2

theorem frame_all (b : Nat) :
    ∀ fuel, frameD b fuel ∧ frameL b fuel ∧ frameE b fuel ∧
      frameM b fuel ∧ frameLp b fuel := by
  intro fuel
  induction fuel with
  | zero =>
    refine ⟨?_, ?_, ?_, ?_, ?_⟩
    · intro h node root seen h2 r _ hr; cases hr
    · intro h items root seen h2 r _ hr; cases hr
    · intro h kvs root seen a h2 r _ _ hr; cases hr
    · intro h schemas root seen h2 r _ hr; cases hr
    · intro h subs root seen m p allReq h2 r _ _ _ hr; cases hr
  | succ fuel ih =>
    obtain ⟨ihD, ihL, ihE, ihM, ihLp⟩ := ih
    refine ⟨?_, ?_, ?_, ?_, ?_⟩
    · -- hDeepResolve
      intro h node root seen h2 r hb hr
      simp only [hDeepResolve] at hr
      split at hr
      · cases hr; exact preserves_refl b h
      · cases hr; exact preserves_refl b h
      · cases hr; exact preserves_refl b h
      · cases hr; exact preserves_refl b h
      · -- node = .ref a
        split at hr
        · cases hr
        · -- arr items
          split at hr
          · cases hr
          · -- error from list
            rename_i x h1 e heq
            cases hr
            exact ihL _ _ _ _ _ _ hb heq
          · -- ok vs
            rename_i x h1 vs heq
            cases hr
            have p1 := ihL _ _ _ _ _ _ hb heq
            exact preserves_trans p1 (preserves_alloc _ (preserves_len p1 hb))
        · -- obj kvs
          split at hr
          · -- $ref is a string
            split at hr
            · -- seen: placeholder alloc
              cases hr
              exact preserves_alloc _ hb
            · -- not seen
              split at hr
              · -- target found
                split at hr
                · -- truthy: recurse
                  exact ihD _ _ _ _ _ _ hb hr
                · -- falsy: verbatim
                  cases hr; exact preserves_refl b h
              · -- dangling: verbatim
                cases hr; exact preserves_refl b h
          · -- no string $ref
            split at hr
            · -- allOf array: merge
              exact ihM _ _ _ _ _ _ hb hr
            · -- plain object: entries
              split at hr
              · cases hr
              · -- error from entries
                rename_i x h1 e heq
                cases hr
                exact preserves_trans (preserves_alloc _ hb)
                  (ihE _ _ _ _ _ _ _ (by simp [allocH]; omega) hb heq)
              · -- ok
                rename_i x h1 u heq
                cases hr
                exact preserves_trans (preserves_alloc _ hb)
                  (ihE _ _ _ _ _ _ _ (by simp [allocH]; omega) hb heq)
    · -- hResolveList
      intro h items root seen h2 r hb hr
      cases items with
      | nil =>
        simp only [hResolveList] at hr
        cases hr; exact preserves_refl b h
      | cons v rest =>
        simp only [hResolveList] at hr
        split at hr
        · cases hr
        · -- head errors
          rename_i x h1 e heq
          cases hr
          exact ihD _ _ _ _ _ _ hb heq
        · -- head ok
          rename_i x h1 v2 heq
          have p1 := ihD _ _ _ _ _ _ hb heq
          split at hr
          · cases hr
          · rename_i y h3 e heq2
            cases hr
            exact preserves_trans p1 (ihL _ _ _ _ _ _ (preserves_len p1 hb) heq2)
          · rename_i y h3 vs heq2
            cases hr
            exact preserves_trans p1 (ihL _ _ _ _ _ _ (preserves_len p1 hb) heq2)
    · -- hResolveEntries
      intro h kvs root seen a h2 r hb hba hr
      cases kvs with
      | nil =>
        simp only [hResolveEntries] at hr
        cases hr; exact preserves_refl b h
      | cons kv rest =>
        obtain ⟨k, v⟩ := kv
        simp only [hResolveEntries] at hr
        split at hr
        · cases hr
        · -- value errors
          rename_i x h1 e heq
          cases hr
          exact ihD _ _ _ _ _ _ hb heq
        · -- value ok, write and continue
          rename_i x h1 v2 heq
          have p1 := ihD _ _ _ _ _ _ hb heq
          split at hr
          · -- cell is an object
            rename_i cur heq2
            have p2 : preserves b h1 (writeH h1 a (HObj.obj (hRecordSet cur k v2))) :=
              preserves_write _ hba
            have hl2 : b ≤ List.length (writeH h1 a (HObj.obj (hRecordSet cur k v2))) := by
              simp only [writeH, List.length_set]
              exact preserves_len p1 hb
            exact preserves_trans p1 (preserves_trans p2 (ihE _ _ _ _ _ _ _ hl2 hba hr))
          · cases hr
    · -- hMergeAllOf
      intro h schemas root seen h2 r hb hr
      simp only [hMergeAllOf] at hr
      split at hr
      · cases hr
      · -- loop errors
        rename_i x h3 e heq
        cases hr
        have pc0 : preserves b h
            (allocH h (HObj.obj [("type", HVal.str "object")])).1 :=
          preserves_alloc _ hb
        have pc1 := preserves_trans pc0
          (preserves_alloc (HObj.obj []) (preserves_len pc0 hb))
        exact preserves_trans pc1
          (ihLp _ _ _ _ _ _ _ _ _ (preserves_len pc1 hb) hb
            (by simp [allocH]; omega) heq)
      · -- loop ok
        rename_i x h3 allRequired heq
        have pc0 : preserves b h
            (allocH h (HObj.obj [("type", HVal.str "object")])).1 :=
          preserves_alloc _ hb
        have pc1 := preserves_trans pc0
          (preserves_alloc (HObj.obj []) (preserves_len pc0 hb))
        have pchain := preserves_trans pc1
          (ihLp _ _ _ _ _ _ _ _ _ (preserves_len pc1 hb) hb
            (by simp [allocH]; omega) heq)
        split at hr
        · -- allProps cell is an object
          split at hr
          · -- merged cell is an object
            split at hr
            · -- required present: alloc dedup array and write
              cases hr
              refine preserves_trans
                (preserves_trans
                  (preserves_trans pchain ?pIF)
                  (preserves_alloc _ ?hl)) (preserves_write _ hb)
              case pIF =>
                split
                · split
                  · exact preserves_write _ hb
                  · exact preserves_refl _ _
                · exact preserves_refl _ _
              case hl =>
                split
                · split
                  · simp only [writeH, List.length_set]
                    exact preserves_len pchain hb
                  · exact preserves_len pchain hb
                · exact preserves_len pchain hb
            · -- no required: stop after conditional properties write
              cases hr
              refine preserves_trans pchain ?_
              split
              · split
                · exact preserves_write _ hb
                · exact preserves_refl _ _
              · exact preserves_refl _ _
          · cases hr
        · cases hr
    · -- hMergeLoop
      intro h subs root seen m p allReq h2 r hb hm hp hr
      cases subs with
      | nil =>
        simp only [hMergeLoop] at hr
        cases hr; exact preserves_refl b h
      | cons sub rest =>
        simp only [hMergeLoop] at hr
        split at hr
        · cases hr
        · -- fragment resolution errors
          rename_i x h1 e heq
          cases hr
          exact ihD _ _ _ _ _ _ hb heq
        · -- fragment resolved
          rename_i x h1 resolved heq
          have p1 := ihD _ _ _ _ _ _ hb heq
          split at hr
          · -- null fragment: throw
            cases hr
            exact p1
          · -- continue with assign, push, override writes
            rcases hq : hProp h1 resolved "properties" with _ | (_ | _ | _ | _ | q) <;>
              rw [hq] at hr <;> simp only at hr
            rotate_left 5
            · -- properties is a reference: Object.assign into allProps
              rcases hl : hLookup h1 p with _ | (_ | cur) <;>
                rw [hl] at hr <;> simp only at hr
              rotate_left 2
              · have p2 : preserves b h1
                    (writeH h1 p (HObj.obj (hAssign cur (hEntries h1 (HVal.ref q))))) :=
                  preserves_write _ hp
                have p3 := preserves_trans p1 (preserves_trans p2
                  (mergedWrites_preserves hm
                    (hEntries (writeH h1 p
                      (HObj.obj (hAssign cur (hEntries h1 (HVal.ref q))))) resolved)
                    (writeH h1 p
                      (HObj.obj (hAssign cur (hEntries h1 (HVal.ref q)))))))
                exact preserves_trans p3
                  (ihLp _ _ _ _ _ _ _ _ _ (preserves_len p3 hb) hm hp hr)
              all_goals
                have p3 := preserves_trans p1
                  (mergedWrites_preserves hm (hEntries h1 resolved) h1)
                exact preserves_trans p3
                  (ihLp _ _ _ _ _ _ _ _ _ (preserves_len p3 hb) hm hp hr)
            all_goals
              have p3 := preserves_trans p1
                (mergedWrites_preserves hm (hEntries h1 resolved) h1)
              exact preserves_trans p3
                (ihLp _ _ _ _ _ _ _ _ _ (preserves_len p3 hb) hm hp hr)

/-- C2: `resolveRefs` never mutates its argument: in the explicit-heap
model every heap cell of the input (every address below the initial heap
size, hence every reachable node of the argument object graph) reads
exactly the same after the call as before; the result is built solely in
freshly allocated cells. -/
theorem hResolveRefs_no_mutation (fuel : Nat) (h h2 : Heap) (spec : HVal)
    (r : Except Unit HVal)
    (hrun : hResolveRefs fuel h spec = some (h2, r)) :
    preserves (List.length h) h h2 :=
  (frame_all (List.length h) fuel).1 h spec spec [] h2 r (le_refl _) hrun

/-- Input heap of the C2 witness: a root object whose key `a` holds a
`$ref` to `#/b` and whose key `b` holds a plain string schema. -/
def exC2heap : Heap :=
  [HObj.obj [("a", HVal.ref 1), ("b", HVal.ref 2)],
   HObj.obj [("$ref", HVal.str "#/b")],
   HObj.obj [("type", HVal.str "string")]]

/-- Output heap of the C2 witness run: the three input cells verbatim,
followed by the freshly built result cells. -/
def exC2out : Heap :=
  [HObj.obj [("a", HVal.ref 1), ("b", HVal.ref 2)],
   HObj.obj [("$ref", HVal.str "#/b")],
   HObj.obj [("type", HVal.str "string")],
   HObj.obj [("a", HVal.ref 4), ("b", HVal.ref 5)],
   HObj.obj [("type", HVal.str "string")],
   HObj.obj [("type", HVal.str "string")]]

/-- C2 witness: a concrete run of the heap-model `resolveRefs` on a spec
with a `$ref`, checked by evaluation, to which the frame theorem applies. -/
theorem hResolveRefs_no_mutation_witness :
    preserves (List.length exC2heap) exC2heap exC2out :=
  hResolveRefs_no_mutation 10 exC2heap exC2out (HVal.ref 0)
    (Except.ok (HVal.ref 3)) (by rfl)
